import Mathlib

/-!
# MiniFileExplorer: a shallow embedding of the command loop and its handlers

The program (`src/src/MiniFileExplorer.cpp`) is an interactive shell over
`std::filesystem`.  The handlers are translated function by function; the
operating system underneath them is modelled explicitly:

* a filesystem is a root directory plus a list of entries, each with its
  canonical path (the component names from the root), its node (regular file
  with content, directory, or a special file such as a fifo or socket) and its
  time stamps.  The order of the list is the enumeration order of
  `directory_iterator`;
* path strings are resolved the way the kernel does it: component by
  component, `.` and empty components stay, `..` goes to the parent, every
  component that is passed through must be a directory;
* in the first part of the definitions the filesystem has no symbolic links,
  no permissions and no length limits, so the only errors of path resolution
  are `ENOENT` and `ENOTDIR`; the second part (namespace `Posix`) runs the same
  handlers on a filesystem that has them, where `exists`, `is_empty` and
  `remove` can throw;
* `std::cin` is a list of lines still to be read, `std::cout` the text written
  so far;
* an exception that leaves a handler is not caught by `handleCommand`, `run` or
  `main`, so the process ends in `std::terminate`: outcome `terminated`.
-/

namespace MiniFileExplorer

/-! ## Paths -/

/-- Canonical absolute path: the names of the components from the root. -/
abbrev CPath := List String

/-- The function `std::filesystem::path::is_absolute` on POSIX: the path has a root directory. -/
def is_absolute (p : String) : Bool :=
  match p.data with
  | '/' :: _ => true
  | _ => false

/-- The `operator/` of `std::filesystem::path` on POSIX: an absolute right operand
replaces the left one; otherwise a separator is added when the left operand has
a filename, and the right operand is appended. -/
def pathAppend (lhs rhs : String) : String :=
  if is_absolute rhs then rhs
  else if lhs.data = [] ∨ lhs.data.getLast? = some '/' then lhs ++ rhs
  else lhs ++ "/" ++ rhs

/-- The pieces of a character list between the `/` separators (empty pieces kept). -/
def splitSlash : List Char → List (List Char)
  | [] => [[]]
  | c :: cs =>
    if c = '/' then [] :: splitSlash cs
    else
      match splitSlash cs with
      | [] => [[c]]
      | w :: ws => (c :: w) :: ws

/-- The components of a path string, as the kernel reads them. -/
def components (p : String) : List String :=
  (splitSlash p.data).map String.mk

/-- The path string of a canonical path. -/
def render (c : CPath) : String :=
  if c = [] then "/" else String.join (c.map (fun n => "/" ++ n))

/-! ## The filesystem -/

/-- Error numbers of the system calls the program reaches. -/
inductive Errno where
  | ENOENT
  | ENOTDIR
  | EEXIST
  | ENOTEMPTY
  | EINVAL
  | EISDIR
  | EBUSY
  | ENOTSUP
  deriving DecidableEq, Repr

/-- A `std::filesystem::filesystem_error`. -/
structure FsError where
  what : String
  code : Errno
  deriving DecidableEq, Repr

/-- What a name of the filesystem stands for. -/
inductive Node where
  | file (content : List Nat)
  | dir
  | special
  deriving DecidableEq, Repr

/-- One name of the filesystem. -/
structure Entry where
  path : CPath
  node : Node
  mtime : Int
  atime : Int
  deriving DecidableEq, Repr

/-- The filesystem: the root directory (always present) and the other entries
in enumeration order. -/
structure FS where
  rootTime : Int
  entries : List Entry
  deriving DecidableEq, Repr

/-- The entry at a canonical path. -/
def FS.find (fs : FS) (c : CPath) : Option Entry :=
  if c = [] then some ⟨[], Node.dir, fs.rootTime, fs.rootTime⟩
  else fs.entries.find? (fun e => decide (e.path = c))

/-- Whether a node is a directory. -/
def Node.isDir : Node → Bool
  | Node.dir => true
  | _ => false

/-- Whether the canonical path is a directory of the filesystem. -/
def FS.isDir (fs : FS) (c : CPath) : Bool :=
  match fs.find c with
  | some e => e.node.isDir
  | none => false

/-- The entries directly inside the directory `d`, in enumeration order. -/
def FS.children (fs : FS) (d : CPath) : List Entry :=
  fs.entries.filter (fun e => decide (e.path ≠ []) && decide (e.path.dropLast = d))

/-- The error of passing through something that is not a directory. -/
def FS.notDirErr (fs : FS) (c : CPath) : Errno :=
  if (fs.find c).isSome then Errno.ENOTDIR else Errno.ENOENT

/-- Kernel path walk from the canonical position `cur` over the components. -/
def walk (fs : FS) : CPath → List String → Except Errno CPath
  | cur, [] => Except.ok cur
  | cur, c :: cs =>
    if fs.isDir cur then
      if c = "" ∨ c = "." then walk fs cur cs
      else if c = ".." then walk fs cur.dropLast cs
      else if (fs.find (cur ++ [c])).isSome then walk fs (cur ++ [c]) cs
      else Except.error Errno.ENOENT
    else Except.error (fs.notDirErr cur)

/-- Where the walk of a path string starts. -/
def startOf (cwd : CPath) (p : String) : CPath :=
  if is_absolute p then [] else cwd

/-- The canonical path a path string resolves to. -/
def resolve (fs : FS) (cwd : CPath) (p : String) : Except Errno CPath :=
  if p.data = [] then Except.error Errno.ENOENT
  else walk fs (startOf cwd p) (components p)

/-- The system call `stat`. -/
def stat (fs : FS) (cwd : CPath) (p : String) : Except Errno Entry :=
  match resolve fs cwd p with
  | Except.ok c =>
    match fs.find c with
    | some e => Except.ok e
    | none => Except.error Errno.ENOENT
  | Except.error e => Except.error e

/-- The function `std::filesystem::exists`: `status` maps `ENOENT` and `ENOTDIR` to
`file_type::not_found`, and path resolution has no other error here. -/
def fs_exists (fs : FS) (cwd : CPath) (p : String) : Bool :=
  match stat fs cwd p with
  | Except.ok _ => true
  | Except.error _ => false

/-- The function `std::filesystem::is_directory`. -/
def is_directory (fs : FS) (cwd : CPath) (p : String) : Bool :=
  match stat fs cwd p with
  | Except.ok e => e.node.isDir
  | Except.error _ => false

/-- The function `std::filesystem::is_regular_file`. -/
def is_regular_file (fs : FS) (cwd : CPath) (p : String) : Bool :=
  match stat fs cwd p with
  | Except.ok e =>
    match e.node with
    | Node.file _ => true
    | _ => false
  | Except.error _ => false

/-- The function `std::filesystem::is_symlink`: the model has no symbolic links. -/
def is_symlink (_fs : FS) (_cwd : CPath) (_p : String) : Bool := false

/-- The function `std::filesystem::file_size` of an entry: only a regular file has one. -/
def Entry.file_size (e : Entry) : Except FsError Nat :=
  match e.node with
  | Node.file content => Except.ok content.length
  | Node.dir => Except.error ⟨"cannot get file size", Errno.EISDIR⟩
  | Node.special => Except.error ⟨"cannot get file size", Errno.ENOTSUP⟩

/-- The function `std::filesystem::file_size` of a path. -/
def file_size (fs : FS) (cwd : CPath) (p : String) : Except FsError Nat :=
  match stat fs cwd p with
  | Except.ok e => e.file_size
  | Except.error c => Except.error ⟨"cannot get file size", c⟩

/-- The function `std::filesystem::last_write_time`. -/
def last_write_time (fs : FS) (cwd : CPath) (p : String) : Except FsError Int :=
  match stat fs cwd p with
  | Except.ok e => Except.ok e.mtime
  | Except.error c => Except.error ⟨"cannot get file time", c⟩

/-- The function `std::filesystem::directory_iterator` run to its end: the entries of the
directory in enumeration order, or the error of `opendir`. -/
def directory_iterator (fs : FS) (cwd : CPath) (p : String) : Except FsError (List Entry) :=
  match stat fs cwd p with
  | Except.ok e =>
    match e.node with
    | Node.dir => Except.ok (fs.children e.path)
    | _ => Except.error ⟨"directory iterator cannot open directory", Errno.ENOTDIR⟩
  | Except.error c => Except.error ⟨"directory iterator cannot open directory", c⟩

/-- The function `std::filesystem::is_empty`: a directory without entries, or a file of size 0. -/
def is_empty (fs : FS) (cwd : CPath) (p : String) : Except FsError Bool :=
  match stat fs cwd p with
  | Except.ok e =>
    match e.node with
    | Node.dir => Except.ok (fs.children e.path).isEmpty
    | _ =>
      match e.file_size with
      | Except.ok n => Except.ok (n == 0)
      | Except.error err => Except.error err
  | Except.error c => Except.error ⟨"cannot check if file is empty", c⟩

/-- The process's working directory as a path string; `getcwd` fails once the
directory has been removed. -/
def current_path (fs : FS) (cwd : CPath) : Except FsError String :=
  if fs.isDir cwd then Except.ok (render cwd)
  else Except.error ⟨"cannot get current path", Errno.ENOENT⟩

/-- The function `std::filesystem::absolute`: no normalisation, only the working directory
in front of a relative path. -/
def absolute (fs : FS) (cwd : CPath) (p : String) : Except FsError String :=
  if p.data = [] then Except.error ⟨"cannot make absolute path", Errno.EINVAL⟩
  else if is_absolute p then Except.ok p
  else
    match current_path fs cwd with
    | Except.ok c => Except.ok (pathAppend c p)
    | Except.error e => Except.error e

/-- The function `std::filesystem::canonical`: the canonical path string of an existing path. -/
def canonical (fs : FS) (cwd : CPath) (p : String) : Except FsError String :=
  match stat fs cwd p with
  | Except.ok e => Except.ok (render e.path)
  | Except.error c => Except.error ⟨"cannot make canonical path", c⟩

/-! ### System calls that change the filesystem -/

/-- Stamp the directory `d` as modified at `now`. -/
def Entry.touchIf (d : CPath) (now : Int) (e : Entry) : Entry :=
  if e.path = d then { e with mtime := now } else e

/-- Add an entry at the canonical path `q`; its directory is stamped. -/
def FS.insert (fs : FS) (q : CPath) (node : Node) (now : Int) : FS :=
  { rootTime := if q.dropLast = [] then now else fs.rootTime
    entries := fs.entries.map (Entry.touchIf q.dropLast now) ++ [⟨q, node, now, now⟩] }

/-- Remove the entry at the canonical path `q`; its directory is stamped. -/
def FS.erase (fs : FS) (q : CPath) (now : Int) : FS :=
  { rootTime := if q.dropLast = [] then now else fs.rootTime
    entries := (fs.entries.filter (fun e => decide (e.path ≠ q))).map (Entry.touchIf q.dropLast now) }

/-- Empty the regular file at `q` (open with `O_TRUNC`). -/
def FS.truncate (fs : FS) (q : CPath) (now : Int) : FS :=
  { fs with entries := fs.entries.map (fun e =>
      if e.path = q then { e with node := Node.file [], mtime := now } else e) }

/-- Components without the trailing empty ones (trailing slashes). -/
def dropTrailingEmpty (l : List String) : List String :=
  (l.reverse.dropWhile (fun c => decide (c = ""))).reverse

/-- Whether the path string ends in a slash. -/
def trailingSlash (p : String) : Bool :=
  decide ((components p).getLast? = some "")

/-- The directory in which the last component of the path is looked up, and
that component; `none` as component is the root itself. -/
def lookupParent (fs : FS) (cwd : CPath) (p : String) : Except Errno (CPath × Option String) :=
  if p.data = [] then Except.error Errno.ENOENT
  else
    match (dropTrailingEmpty (components p)).getLast? with
    | none => Except.ok ([], none)
    | some name =>
      match walk fs (startOf cwd p) (dropTrailingEmpty (components p)).dropLast with
      | Except.ok d =>
        if fs.isDir d then Except.ok (d, some name) else Except.error (fs.notDirErr d)
      | Except.error e => Except.error e

/-- The system call `mkdir`. -/
def mkdirSys (fs : FS) (cwd : CPath) (now : Int) (p : String) : Except Errno FS :=
  match lookupParent fs cwd p with
  | Except.error e => Except.error e
  | Except.ok (_, none) => Except.error Errno.EEXIST
  | Except.ok (d, some name) =>
    if name = "." ∨ name = ".." then Except.error Errno.EEXIST
    else if (fs.find (d ++ [name])).isSome then Except.error Errno.EEXIST
    else Except.ok (fs.insert (d ++ [name]) Node.dir now)

/-- The system call `rmdir`. -/
def rmdirSys (fs : FS) (cwd : CPath) (now : Int) (p : String) : Except Errno FS :=
  match lookupParent fs cwd p with
  | Except.error e => Except.error e
  | Except.ok (_, none) => Except.error Errno.EBUSY
  | Except.ok (d, some name) =>
    if name = "." then Except.error Errno.EINVAL
    else if name = ".." then Except.error Errno.ENOTEMPTY
    else
      match fs.find (d ++ [name]) with
      | none => Except.error Errno.ENOENT
      | some e =>
        if !e.node.isDir then Except.error Errno.ENOTDIR
        else if !(fs.children (d ++ [name])).isEmpty then Except.error Errno.ENOTEMPTY
        else Except.ok (fs.erase (d ++ [name]) now)

/-- The system call `unlink`. -/
def unlinkSys (fs : FS) (cwd : CPath) (now : Int) (p : String) : Except Errno FS :=
  match lookupParent fs cwd p with
  | Except.error e => Except.error e
  | Except.ok (_, none) => Except.error Errno.EISDIR
  | Except.ok (d, some name) =>
    if name = "." ∨ name = ".." then Except.error Errno.EISDIR
    else
      match fs.find (d ++ [name]) with
      | none => Except.error Errno.ENOENT
      | some e =>
        if e.node.isDir then Except.error Errno.EISDIR
        else if trailingSlash p then Except.error Errno.ENOTDIR
        else Except.ok (fs.erase (d ++ [name]) now)

/-- The C library's `remove`: `unlink`, and `rmdir` when that reports a directory. -/
def removeC (fs : FS) (cwd : CPath) (now : Int) (p : String) : Except Errno FS :=
  match unlinkSys fs cwd now p with
  | Except.ok fs1 => Except.ok fs1
  | Except.error Errno.EISDIR => rmdirSys fs cwd now p
  | Except.error e => Except.error e

/-- The function `std::filesystem::remove` (the throwing overload): `true` when something was
removed, `false` when the path does not exist, an exception for any other error. -/
def remove (fs : FS) (cwd : CPath) (now : Int) (p : String) : Except FsError (Bool × FS) :=
  match removeC fs cwd now p with
  | Except.ok fs1 => Except.ok (true, fs1)
  | Except.error Errno.ENOENT => Except.ok (false, fs)
  | Except.error e => Except.error ⟨"cannot remove", e⟩

/-- The function `std::filesystem::create_directory` (the throwing overload): `true` when
the directory was created, `false` when `mkdir` reports `EEXIST` for an existing
directory, an exception for any other error. -/
def create_directory (fs : FS) (cwd : CPath) (now : Int) (p : String) : Except FsError (Bool × FS) :=
  match mkdirSys fs cwd now p with
  | Except.ok fs1 => Except.ok (true, fs1)
  | Except.error e =>
    if e = Errno.EEXIST ∧ is_directory fs cwd p = true then Except.ok (false, fs)
    else Except.error ⟨"cannot create directory", e⟩

/-- Construction of a `std::ofstream` on the path (open for writing, create,
truncate): the filesystem afterwards, or `none` when `is_open()` is false. -/
def ofstream_open (fs : FS) (cwd : CPath) (now : Int) (p : String) : Option FS :=
  match lookupParent fs cwd p with
  | Except.error _ => none
  | Except.ok (_, none) => none
  | Except.ok (d, some name) =>
    if name = "." ∨ name = ".." then none
    else if trailingSlash p then none
    else
      match fs.find (d ++ [name]) with
      | none => some (fs.insert (d ++ [name]) (Node.file []) now)
      | some e =>
        match e.node with
        | Node.file _ => some (fs.truncate (d ++ [name]) now)
        | _ => none

/-! ## The session -/

/-- What the program reads from its surroundings besides the filesystem. -/
structure Env where
  cwd : CPath
  home : Option String
  now : Int
  formatTime : Int → String

/-- The state of a run: the member `currentPath`, the filesystem, the lines
still to be read from `std::cin`, and the text written to `std::cout`. -/
structure State where
  currentPath : String
  fs : FS
  input : List String
  output : String
  deriving DecidableEq, Repr

/-- Write a text to `std::cout`. -/
def State.print (s : State) (msg : String) : State :=
  { s with output := s.output ++ msg }

/-- Write a text and `std::endl` to `std::cout`. -/
def State.println (s : State) (msg : String) : State :=
  { s with output := s.output ++ msg ++ "\n" }

/-- How a call ends: it returns to its caller, the process ends through
`exit(code)`, or a `filesystem_error` leaves it uncaught and the process ends
in `std::terminate`. -/
inductive Result where
  | returned (s : State)
  | exited (code : Int) (s : State)
  | terminated (e : FsError) (s : State)
  deriving DecidableEq, Repr

/-- The state in which a call ended. -/
def Result.state : Result → State
  | Result.returned s => s
  | Result.exited _ s => s
  | Result.terminated _ s => s

/-! ## The tokenizer -/

/-- Whitespace of the classic locale, which `operator>>` skips. -/
def isSpace (c : Char) : Bool :=
  c = ' ' ∨ c = '\t' ∨ c = '\n' ∨ c = '\x0b' ∨ c = '\x0c' ∨ c = '\r'

/-- The loop `while (iss >> word)` over the characters left; `word` holds the
characters of the word being read. -/
def splitChars : List Char → List Char → List String
  | [], word => if word = [] then [] else [String.mk word]
  | c :: cs, word =>
    if isSpace c then
      if word = [] then splitChars cs [] else String.mk word :: splitChars cs []
    else splitChars cs (word ++ [c])

/-- The function `split`: the words of the line. -/
def split (line : String) : List String :=
  splitChars line.data []

/-! ## cd -/

/-- What lines 169 to 229 of `cmdCd` leave in `newPath`. -/
inductive CdTarget where
  | path (newPath : String)
  | noHome
  | threw (e : FsError)
  deriving DecidableEq, Repr

/-- The path resolution of `cmdCd` (lines 169 to 229): `~` is the value of
`HOME`; any other token is made absolute against `currentPath` and, when it
exists, canonical. -/
def cdNewPath (env : Env) (s : State) (targetPath : String) : CdTarget :=
  if targetPath = "~" then
    match env.home with
    | none => CdTarget.noHome
    | some homeDir => CdTarget.path homeDir
  else
    match absolute s.fs env.cwd
        (if is_absolute targetPath then targetPath else pathAppend s.currentPath targetPath) with
    | Except.error e => CdTarget.threw e
    | Except.ok newPath =>
      if fs_exists s.fs env.cwd newPath then
        match canonical s.fs env.cwd newPath with
        | Except.ok c => CdTarget.path c
        | Except.error _ => CdTarget.path newPath
      else CdTarget.path newPath

/-- The handler `cmdCd`. -/
def cmdCd (env : Env) (s : State) (args : List String) : Result :=
  match args with
  | [] => Result.returned (s.println "Missing path: Please enter 'cd [path]'")
  | targetPath :: _ =>
    match cdNewPath env s targetPath with
    | CdTarget.noHome => Result.returned (s.println "Cannot determine home directory")
    | CdTarget.threw e => Result.terminated e s
    | CdTarget.path newPath =>
      if !fs_exists s.fs env.cwd newPath then
        Result.returned (s.println ("Invalid directory: " ++ targetPath))
      else if !is_directory s.fs env.cwd newPath then
        Result.returned (s.println ("Not a directory: " ++ targetPath))
      else
        Result.returned ({ s with currentPath := newPath }.println ("Current Directory: " ++ newPath))

/-! ## ls -/

/-- The local struct `EntryInfo` of `cmdLs`. -/
structure EntryInfo where
  name : String
  type : String
  sizeStr : String
  modifyTime : String
  fileSize : Nat
  modifyTimePoint : Int
  deriving DecidableEq, Repr

/-- The value `file_time_type::min()`. -/
def fileTimeMin : Int := -9223372036854775808

/-- Insert `a` behind the leading elements that compare before it. -/
def insertSorted {α : Type} (comp : α → α → Bool) (a : α) : List α → List α
  | [] => [a]
  | b :: l => if comp b a then b :: insertSorted comp a l else a :: b :: l

/-- The call `std::sort(first, last, comp)`. The standard leaves the order of
equivalent elements open; this reference sort keeps them in their original
order. -/
def stdSort {α : Type} (comp : α → α → Bool) (l : List α) : List α :=
  l.foldr (insertSorted comp) []

/-- The option loop of `cmdLs` (lines 261 to 269): `(sortBySize, sortByTime)`. -/
def lsFlags (args : List String) : Bool × Bool :=
  args.foldl (fun flags arg =>
    if arg = "-s" then (true, flags.2)
    else if arg = "-t" then (flags.1, true)
    else flags) (false, false)

/-- The body of the collecting loop of `cmdLs` (lines 285 to 332) for one
directory entry. -/
def lsEntryInfo (env : Env) (e : Entry) : EntryInfo :=
  if e.node.isDir then
    { name := e.path.getLast?.getD "" ++ "/", type := "Dir", sizeStr := "-"
      modifyTime := env.formatTime e.mtime, fileSize := 0, modifyTimePoint := e.mtime }
  else
    match e.file_size with
    | Except.ok n =>
      { name := e.path.getLast?.getD "", type := "File", sizeStr := toString n
        modifyTime := env.formatTime e.mtime, fileSize := n, modifyTimePoint := e.mtime }
    | Except.error _ =>
      { name := e.path.getLast?.getD "", type := "File", sizeStr := "-"
        modifyTime := env.formatTime e.mtime, fileSize := 0, modifyTimePoint := e.mtime }

/-- The sorting step of `cmdLs` (lines 340 to 354). -/
def lsSort (sortBySize sortByTime : Bool) (entries : List EntryInfo) : List EntryInfo :=
  if sortBySize then
    stdSort (fun a b => decide (a.fileSize > b.fileSize)) entries
  else if sortByTime then
    stdSort (fun a b => decide (a.modifyTimePoint > b.modifyTimePoint)) entries
  else entries

/-- The manipulators `std::left << std::setw(n)`: pad on the right to width `n`. -/
def setwLeft (n : Nat) (text : String) : String :=
  text ++ String.mk (List.replicate (n - text.length) ' ')

/-- One printed row of `cmdLs` (lines 370 to 373). -/
def lsRow (info : EntryInfo) : String :=
  setwLeft 20 info.name ++ setwLeft 10 info.type ++ setwLeft 15 info.sizeStr
    ++ info.modifyTime ++ "\n"

/-- The header and the separator line of `cmdLs` (lines 357 to 366). -/
def lsHeader : String :=
  setwLeft 20 "Name" ++ setwLeft 10 "Type" ++ setwLeft 15 "Size(B)" ++ "Modify Time" ++ "\n"
    ++ String.mk (List.replicate 20 '-') ++ " " ++ String.mk (List.replicate 10 '-') ++ " "
    ++ String.mk (List.replicate 15 '-') ++ " " ++ String.mk (List.replicate 19 '-') ++ "\n"

/-- The rows `cmdLs` prints, in the order it prints them, or the error of
reading the directory. -/
def lsRows (env : Env) (s : State) (args : List String) : Except FsError (List EntryInfo) :=
  match directory_iterator s.fs env.cwd s.currentPath with
  | Except.error e => Except.error e
  | Except.ok dirEntries =>
    Except.ok (lsSort (lsFlags args).1 (lsFlags args).2 (dirEntries.map (lsEntryInfo env)))

/-- The handler `cmdLs`. -/
def cmdLs (env : Env) (s : State) (args : List String) : Result :=
  match lsRows env s args with
  | Except.error e => Result.returned (s.println ("Error reading directory: " ++ e.what))
  | Except.ok entries =>
    if entries.isEmpty then Result.returned s
    else Result.returned (s.print (lsHeader ++ String.join (entries.map lsRow)))

/-! ## touch, mkdir, rm, rmdir, stat -/

/-- The block that `cmdTouch` (395 to 404), `cmdMkdir` (438 to 447), `cmdRm`
(479 to 488), `cmdRmdir` (539 to 548) and `cmdStat` (615 to 624) each repeat:
the argument, taken against `currentPath` when relative, through `absolute`. -/
def operandPath (env : Env) (s : State) (name : String) : Except FsError String :=
  absolute s.fs env.cwd (if is_absolute name then name else pathAppend s.currentPath name)

/-- The handler `cmdTouch`. -/
def cmdTouch (env : Env) (s : State) (args : List String) : Result :=
  match args with
  | [] => Result.returned (s.println "Missing filename: Please enter 'touch [filename]'")
  | filename :: _ =>
    match operandPath env s filename with
    | Except.error e => Result.terminated e s
    | Except.ok filePath =>
      if fs_exists s.fs env.cwd filePath then
        Result.returned (s.println ("File already exists: " ++ filename))
      else
        match ofstream_open s.fs env.cwd env.now filePath with
        | some fs1 => Result.returned { s with fs := fs1 }
        | none => Result.returned (s.println ("Failed to create file: " ++ filename))

/-- The handler `cmdMkdir`. -/
def cmdMkdir (env : Env) (s : State) (args : List String) : Result :=
  match args with
  | [] => Result.returned (s.println "Missing directory name: Please enter 'mkdir [dirname]'")
  | dirname :: _ =>
    match operandPath env s dirname with
    | Except.error e => Result.terminated e s
    | Except.ok dirPath =>
      if fs_exists s.fs env.cwd dirPath then
        Result.returned (s.println ("Directory already exists: " ++ dirname))
      else
        match create_directory s.fs env.cwd env.now dirPath with
        | Except.error e => Result.terminated e s
        | Except.ok (true, fs1) => Result.returned { s with fs := fs1 }
        | Except.ok (false, fs1) =>
          Result.returned ({ s with fs := fs1 }.println ("Failed to create directory: " ++ dirname))

/-- The prompt of `cmdRm` (line 503). -/
def rmPrompt (filename : String) : String :=
  "Are you sure to delete " ++ filename ++ "? (y/n): "

/-- The handler `cmdRm`. -/
def cmdRm (env : Env) (s : State) (args : List String) : Result :=
  match args with
  | [] => Result.returned (s.println "Missing filename: Please enter 'rm [filename]'")
  | filename :: _ =>
    match operandPath env s filename with
    | Except.error e => Result.terminated e s
    | Except.ok filePath =>
      if !fs_exists s.fs env.cwd filePath then
        Result.returned (s.println ("File not found: " ++ filename))
      else if !is_regular_file s.fs env.cwd filePath && !is_symlink s.fs env.cwd filePath then
        Result.returned (s.println ("Not a file: " ++ filename))
      else
        match s.input with
        | [] => Result.returned (s.print (rmPrompt filename))
        | confirmation :: rest =>
          if confirmation = "y" then
            match remove s.fs env.cwd env.now filePath with
            | Except.error e =>
              Result.terminated e { (s.print (rmPrompt filename)) with input := rest }
            | Except.ok (true, fs1) =>
              Result.returned { (s.print (rmPrompt filename)) with input := rest, fs := fs1 }
            | Except.ok (false, fs1) =>
              Result.returned ({ (s.print (rmPrompt filename)) with input := rest, fs := fs1 }.println
                ("Failed to delete file: " ++ filename))
          else Result.returned { (s.print (rmPrompt filename)) with input := rest }

/-- The handler `cmdRmdir`. -/
def cmdRmdir (env : Env) (s : State) (args : List String) : Result :=
  match args with
  | [] => Result.returned (s.println "Missing directory name: Please enter 'rmdir [dirname]'")
  | dirname :: _ =>
    match operandPath env s dirname with
    | Except.error e => Result.terminated e s
    | Except.ok dirPath =>
      if !fs_exists s.fs env.cwd dirPath then
        Result.returned (s.println ("Directory not found: " ++ dirname))
      else if !is_directory s.fs env.cwd dirPath then
        Result.returned (s.println ("Not a directory: " ++ dirname))
      else
        match is_empty s.fs env.cwd dirPath with
        | Except.error e => Result.terminated e s
        | Except.ok false => Result.returned (s.println ("Directory not empty: " ++ dirname))
        | Except.ok true =>
          match remove s.fs env.cwd env.now dirPath with
          | Except.error e => Result.terminated e s
          | Except.ok (true, fs1) => Result.returned { s with fs := fs1 }
          | Except.ok (false, fs1) =>
            Result.returned ({ s with fs := fs1 }.println ("Failed to delete directory: " ++ dirname))

/-- The function `formatFileTime`. -/
def formatFileTime (env : Env) (fileTime : Int) : String :=
  env.formatTime fileTime

/-- The text `cmdStat` prints for an existing target (lines 632 to 722, the
branch for Linux and macOS). -/
def statReport (env : Env) (fs : FS) (targetPath : String) : String :=
  "\n=== File/Directory Information ===\n"
    ++ "Type:        " ++ (if is_directory fs env.cwd targetPath then "文件夹" else "文件") ++ "\n"
    ++ "Path:        " ++ targetPath ++ "\n"
    ++ "Size:        "
    ++ (if is_directory fs env.cwd targetPath then "-"
        else
          match file_size fs env.cwd targetPath with
          | Except.ok n => toString n ++ " bytes"
          | Except.error _ => "- bytes") ++ "\n"
    ++ "Create Time: " ++ "-" ++ "\n"
    ++ "Modify Time: "
    ++ (match last_write_time fs env.cwd targetPath with
        | Except.ok t => formatFileTime env t
        | Except.error _ => "-") ++ "\n"
    ++ "Access Time: "
    ++ (match stat fs env.cwd targetPath with
        | Except.ok e => env.formatTime e.atime
        | Except.error _ => "-") ++ "\n"
    ++ "\n"

/-- The handler `cmdStat`. -/
def cmdStat (env : Env) (s : State) (args : List String) : Result :=
  match args with
  | [] => Result.returned (s.println "Missing target: Please enter 'stat [name]'")
  | targetName :: _ =>
    match operandPath env s targetName with
    | Except.error e => Result.terminated e s
    | Except.ok targetPath =>
      if !fs_exists s.fs env.cwd targetPath then
        Result.returned (s.println ("Target not found: " ++ targetName))
      else Result.returned (s.print (statReport env s.fs targetPath))

/-! ## The stubs, help and the dispatcher -/

/-- The handler `cmdSearch`. -/
def cmdSearch (s : State) (_args : List String) : Result :=
  Result.returned (s.println "search command - Not implemented yet")

/-- The handler `cmdCp`. -/
def cmdCp (s : State) (_args : List String) : Result :=
  Result.returned (s.println "cp command - Not implemented yet")

/-- The handler `cmdMv`. -/
def cmdMv (s : State) (_args : List String) : Result :=
  Result.returned (s.println "mv command - Not implemented yet")

/-- The handler `cmdDu`. -/
def cmdDu (s : State) (_args : List String) : Result :=
  Result.returned (s.println "du command - Not implemented yet")

/-- The text of `printHelp`. -/
def helpText : String :=
  "\n=== MiniFileExplorer Commands ===\n\n"
    ++ "cd [path]          - Switch to target directory\n"
    ++ "ls [options]       - List all files and directories\n"
    ++ "                   - Options: -s (sort by size), -t (sort by time)\n"
    ++ "touch [filename]   - Create an empty file\n"
    ++ "mkdir [dirname]    - Create a directory\n"
    ++ "rm [filename]      - Delete a file\n"
    ++ "rmdir [dirname]    - Delete an empty directory\n"
    ++ "stat [name]        - Show detailed information\n"
    ++ "search [keyword]   - Search files/directories\n"
    ++ "cp [src] [dst]     - Copy a file\n"
    ++ "mv [src] [dst]     - Move/rename a file or directory\n"
    ++ "du [dirname]       - Calculate directory size\n"
    ++ "help               - Show this help message\n"
    ++ "exit               - Exit the program\n"
    ++ "\n"

/-- The function `printHelp`. -/
def printHelp (s : State) : Result :=
  Result.returned (s.print helpText)

/-- The handler `cmdExit`. -/
def cmdExit (s : State) : Result :=
  Result.exited 0 (s.println "MiniFileExplorer closed successfully")

/-- The function `handleCommand`. -/
def handleCommand (env : Env) (s : State) (line : String) : Result :=
  match split line with
  | [] => Result.returned s
  | command :: args =>
    if command = "cd" then cmdCd env s args
    else if command = "ls" then cmdLs env s args
    else if command = "touch" then cmdTouch env s args
    else if command = "mkdir" then cmdMkdir env s args
    else if command = "rm" then cmdRm env s args
    else if command = "rmdir" then cmdRmdir env s args
    else if command = "stat" then cmdStat env s args
    else if command = "search" then cmdSearch s args
    else if command = "cp" then cmdCp s args
    else if command = "mv" then cmdMv s args
    else if command = "du" then cmdDu s args
    else if command = "help" then printHelp s
    else if command = "exit" then cmdExit s
    else
      Result.returned ((s.println ("Unknown command: " ++ command)).println
        "Type 'help' for all commands.")

/-- The prompt of `run`. -/
def promptText : String := "Enter command (type 'help' for all commands): "

/-- The loop of `run`, with a bound on the number of iterations: `none` when
the bound is reached, `returned` when `getline` fails and the loop is left. -/
def runLoop (env : Env) : Nat → State → Option Result
  | 0, _ => none
  | n + 1, s =>
    match s.input with
    | [] => some (Result.returned (s.print promptText))
    | line :: rest =>
      match handleCommand env { (s.print promptText) with input := rest } line with
      | Result.returned s2 => runLoop env n s2
      | Result.exited code s2 => some (Result.exited code s2)
      | Result.terminated e s2 => some (Result.terminated e s2)

/-- The function `run`: every iteration reads at least one line, so one more
iteration than there are lines is enough. -/
def run (env : Env) (s : State) : Option Result :=
  runLoop env (s.input.length + 1) s

/-- The constructor `MiniFileExplorer(initialPath)` on a fresh process. -/
def construct (env : Env) (fs : FS) (input : List String) (initialPath : String) : Result :=
  if initialPath.data = [] then
    match current_path fs env.cwd with
    | Except.ok c =>
      Result.returned { currentPath := c, fs := fs, input := input
                        output := "Current Directory: " ++ c ++ "\n" }
    | Except.error e =>
      Result.terminated e { currentPath := "", fs := fs, input := input, output := "" }
  else if !fs_exists fs env.cwd initialPath then
    Result.exited 1 { currentPath := initialPath, fs := fs, input := input
                      output := "Directory not found: " ++ initialPath ++ "\n" }
  else if !is_directory fs env.cwd initialPath then
    Result.exited 1 { currentPath := initialPath, fs := fs, input := input
                      output := "Not a directory: " ++ initialPath ++ "\n" }
  else
    Result.returned { currentPath := initialPath, fs := fs, input := input
                      output := "Current Directory: " ++ initialPath ++ "\n" }

/-! ## Notions the statements use -/

/-- The ways `cmdCd` fails that the specification lists: no argument, home
directory undeterminable, target absent, target not a directory. -/
def cdFails (env : Env) (s : State) (args : List String) : Bool :=
  match args with
  | [] => true
  | targetPath :: _ =>
    match cdNewPath env s targetPath with
    | CdTarget.noHome => true
    | CdTarget.threw _ => false
    | CdTarget.path newPath =>
      !fs_exists s.fs env.cwd newPath || !is_directory s.fs env.cwd newPath

/-- The size an entry counts with in `ls -s`: the length of a regular file, 0
for a directory and for a file whose size cannot be read. -/
def sizeOrZero (e : Entry) : Nat :=
  match e.node with
  | Node.file content => content.length
  | Node.dir => 0
  | Node.special => 0

/-- What `cmdLs` writes for the rows it has collected and sorted: nothing for
an empty directory, else the header and one line per row. -/
def lsPrinted (s : State) (rows : List EntryInfo) : State :=
  if rows.isEmpty then s else s.print (lsHeader ++ String.join (rows.map lsRow))

/-- The directory tree: every entry with what it is, without the time stamps. -/
def FS.tree (fs : FS) : List (CPath × Node) :=
  fs.entries.map (fun e => (e.path, e.node))

/-- Every entry lies in a directory: the filesystem is a tree. -/
def FS.wellFormed (fs : FS) : Bool :=
  fs.entries.all (fun e => decide (e.path ≠ []) && fs.isDir e.path.dropLast)

/-- The parent directory of the path exists: the path without its last
component resolves to a directory. -/
def parentExists (fs : FS) (cwd : CPath) (p : String) : Bool :=
  if p.data = [] then false
  else
    match walk fs (startOf cwd p) (components p).dropLast with
    | Except.ok d => fs.isDir d
    | Except.error _ => false

/-- The canonical positions the walk passes through, the last one included. -/
def walkTrail (fs : FS) : CPath → List String → List CPath
  | cur, [] => [cur]
  | cur, c :: cs =>
    cur ::
      (if fs.isDir cur then
        if c = "" ∨ c = "." then walkTrail fs cur cs
        else if c = ".." then walkTrail fs cur.dropLast cs
        else if (fs.find (cur ++ [c])).isSome then walkTrail fs (cur ++ [c]) cs
        else []
      else [])

/-! ## Example surroundings -/

/-- An environment: working directory `/tmp/work`, `HOME=/home/u`. -/
def env0 : Env :=
  { cwd := ["tmp", "work"], home := some "/home/u", now := 100, formatTime := fun t => toString t }

/-- A filesystem: `/tmp/work` with the file `f.txt` (3 bytes), the empty
directory `sub`, the directory `full` holding `full/x`, and the fifo `pipe`;
`/home/u`. -/
def fs0 : FS :=
  { rootTime := 1
    entries := [
      ⟨["tmp"], Node.dir, 2, 2⟩,
      ⟨["tmp", "work"], Node.dir, 3, 3⟩,
      ⟨["tmp", "work", "f.txt"], Node.file [104, 105, 10], 40, 41⟩,
      ⟨["tmp", "work", "sub"], Node.dir, 50, 51⟩,
      ⟨["tmp", "work", "full"], Node.dir, 60, 61⟩,
      ⟨["tmp", "work", "full", "x"], Node.file [], 70, 71⟩,
      ⟨["tmp", "work", "pipe"], Node.special, 80, 81⟩,
      ⟨["home"], Node.dir, 5, 5⟩,
      ⟨["home", "u"], Node.dir, 6, 6⟩] }

/-- A session in `/tmp/work` on `fs0`. -/
def s0 : State :=
  { currentPath := "/tmp/work", fs := fs0, input := [], output := "" }

/-! ## Notions of the statements on tokens and names -/

/-- The tokens of a line as the specification words them: the maximal runs of
non-whitespace characters, in order of occurrence. The line is cut at every
whitespace character and the pieces that are not empty are the runs. -/
def maximalRuns (line : List Char) : List (List Char) :=
  (line.splitOnP isSpace).filter (fun run => !run.isEmpty)

namespace Posix

/-! ## The filesystem -/

/-- Error numbers of the system calls the program reaches. -/
inductive Errno where
  | ENOENT
  | ENOTDIR
  | EEXIST
  | ENOTEMPTY
  | EINVAL
  | EISDIR
  | EBUSY
  | ENOTSUP
  | EACCES
  | ENAMETOOLONG
  | ELOOP
  | ENXIO
  deriving DecidableEq, Repr

/-- The text of `strerror`. -/
def Errno.message : Errno → String
  | Errno.ENOENT => "No such file or directory"
  | Errno.ENOTDIR => "Not a directory"
  | Errno.EEXIST => "File exists"
  | Errno.ENOTEMPTY => "Directory not empty"
  | Errno.EINVAL => "Invalid argument"
  | Errno.EISDIR => "Is a directory"
  | Errno.EBUSY => "Device or resource busy"
  | Errno.ENOTSUP => "Operation not supported"
  | Errno.EACCES => "Permission denied"
  | Errno.ENAMETOOLONG => "File name too long"
  | Errno.ELOOP => "Too many levels of symbolic links"
  | Errno.ENXIO => "No such device or address"

/-- A `std::filesystem::filesystem_error`: the text given by the throwing
function, the error code and the path it was thrown with, when it was thrown
with one. -/
structure FsError where
  what_arg : String
  code : Errno
  path : Option String
  deriving DecidableEq, Repr

/-- The text of `filesystem_error::what()` in libstdc++. -/
def FsError.what (e : FsError) : String :=
  "filesystem error: " ++ e.what_arg ++ ": " ++ e.code.message
    ++ (match e.path with
        | some p => " [" ++ p ++ "]"
        | none => "")

/-- What the invoking user may do with an entry. -/
structure Perm where
  r : Bool
  w : Bool
  x : Bool
  deriving DecidableEq, Repr

/-- What a name of the filesystem stands for. -/
inductive Node where
  | file (content : List Nat)
  | dir
  | special
  | symlink (target : String)
  deriving DecidableEq, Repr

/-- The type of a node, as `stat` reports it. -/
inductive Kind where
  | file
  | dir
  | special
  | symlink (target : String)
  deriving DecidableEq, Repr

/-- The type of a node. -/
def Node.kind : Node → Kind
  | Node.file _ => Kind.file
  | Node.dir => Kind.dir
  | Node.special => Kind.special
  | Node.symlink target => Kind.symlink target

/-- Whether a node is a directory. -/
def Node.isDir : Node → Bool
  | Node.dir => true
  | _ => false

/-- One name of the filesystem. -/
structure Entry where
  path : CPath
  node : Node
  perm : Perm
  mtime : Int
  atime : Int
  deriving DecidableEq, Repr

/-- The filesystem: the root directory (always present) and the other entries
in enumeration order. -/
structure FS where
  rootPerm : Perm
  rootTime : Int
  entries : List Entry
  deriving DecidableEq, Repr

/-- The entry at a canonical path. -/
def FS.find (fs : FS) (c : CPath) : Option Entry :=
  if c = [] then some ⟨[], Node.dir, fs.rootPerm, fs.rootTime, fs.rootTime⟩
  else fs.entries.find? (fun e => decide (e.path = c))

/-- What path resolution sees of the entry at a canonical path: its type and
its permissions. -/
def FS.view (fs : FS) (c : CPath) : Option (Kind × Perm) :=
  match fs.find c with
  | some e => some (e.node.kind, e.perm)
  | none => none

/-- The entries directly inside the directory `d`, in enumeration order. -/
def FS.children (fs : FS) (d : CPath) : List Entry :=
  fs.entries.filter (fun e => decide (e.path ≠ []) && decide (e.path.dropLast = d))

/-- The longest file name, in bytes. -/
def NAME_MAX : Nat := 255

/-- The size of the longest path string, the terminating zero included. -/
def PATH_MAX : Nat := 4096

/-- The number of symbolic links one path resolution follows. -/
def MAXSYMLINKS : Nat := 40

/-! ### Path resolution -/

/-- How far a walk over components gets without following a link: to its end,
to a symbolic link (found in the directory `dir`, with the components still to
walk), or to an error. -/
inductive Seg where
  | done (c : CPath)
  | link (dir : CPath) (target : String) (rest : List String)
  | fail (e : Errno)
  deriving DecidableEq, Repr

/-- Kernel path walk from the canonical position `cur` over the components, up
to the first symbolic link.  An empty component stays; every other component
needs search permission on the directory it is looked up in. -/
def walkSeg (fs : FS) : CPath → List String → Seg
  | cur, [] => Seg.done cur
  | cur, c :: cs =>
    match fs.view cur with
    | none => Seg.fail Errno.ENOENT
    | some (Kind.dir, perm) =>
      if c = "" then walkSeg fs cur cs
      else if perm.x = false then Seg.fail Errno.EACCES
      else if c = "." then walkSeg fs cur cs
      else if c = ".." then walkSeg fs cur.dropLast cs
      else if NAME_MAX < c.utf8ByteSize then Seg.fail Errno.ENAMETOOLONG
      else
        match fs.view (cur ++ [c]) with
        | none => Seg.fail Errno.ENOENT
        | some (Kind.symlink target, _) => Seg.link cur target cs
        | some _ => walkSeg fs (cur ++ [c]) cs
    | some _ => Seg.fail Errno.ENOTDIR

/-- Kernel path walk that follows every symbolic link it meets, at most
`links` of them: the canonical position reached and the number of links that
may still be followed. -/
def walkAll : Nat → FS → CPath → List String → Except Errno (CPath × Nat)
  | links, fs, cur, comps =>
    match walkSeg fs cur comps with
    | Seg.done c => Except.ok (c, links)
    | Seg.fail e => Except.error e
    | Seg.link d target rest =>
      match links with
      | 0 => Except.error Errno.ELOOP
      | k + 1 =>
        if target.data = [] then Except.error Errno.ENOENT
        else walkAll k fs (startOf d target) (components target ++ rest)

/-- The directory in which the last name of a path is looked up. -/
structure Parent where
  dir : CPath
  perm : Perm
  name : Option String
  links : Nat
  deriving DecidableEq, Repr

/-- The walk to the directory of the last name of the components: that
directory (which must be searchable), the name (`none` when the path has no
name, which is the root) and the links that may still be followed. -/
def parentFrom (links : Nat) (fs : FS) (start : CPath) (comps : List String) :
    Except Errno Parent :=
  match (dropTrailingEmpty comps).getLast? with
  | none => Except.ok ⟨[], fs.rootPerm, none, links⟩
  | some name =>
    match walkAll links fs start (dropTrailingEmpty comps).dropLast with
    | Except.error e => Except.error e
    | Except.ok (d, k) =>
      match fs.view d with
      | none => Except.error Errno.ENOENT
      | some (Kind.dir, perm) =>
        if perm.x = false then Except.error Errno.EACCES
        else Except.ok ⟨d, perm, some name, k⟩
      | some _ => Except.error Errno.ENOTDIR

/-- The directory in which the last name of a path string is looked up. -/
def lookupParent (fs : FS) (cwd : CPath) (p : String) : Except Errno Parent :=
  if p.data = [] then Except.error Errno.ENOENT
  else if PATH_MAX ≤ p.utf8ByteSize then Except.error Errno.ENAMETOOLONG
  else parentFrom MAXSYMLINKS fs (startOf cwd p) (components p)

/-- The canonical path `c`, when something is there (a directory, when one is
asked for). -/
def found (fs : FS) (mustDir : Bool) (c : CPath) : Except Errno CPath :=
  match fs.view c with
  | none => Except.error Errno.ENOENT
  | some (Kind.dir, _) => Except.ok c
  | some _ => if mustDir then Except.error Errno.ENOTDIR else Except.ok c

/-- The last step of a path resolution: the name looked up in the searchable
directory `d`.  A symbolic link is followed when `follow` is set. -/
def lastStep (fs : FS) (follow mustDir : Bool) (d : CPath) (name : String) (k : Nat) :
    Except Errno CPath :=
  if name = "." then found fs false d
  else if name = ".." then found fs false d.dropLast
  else if NAME_MAX < name.utf8ByteSize then Except.error Errno.ENAMETOOLONG
  else
    match fs.view (d ++ [name]) with
    | none => Except.error Errno.ENOENT
    | some (Kind.symlink target, _) =>
      if follow then
        match k with
        | 0 => Except.error Errno.ELOOP
        | k1 + 1 =>
          if target.data = [] then Except.error Errno.ENOENT
          else
            match walkAll k1 fs (startOf d target) (components target) with
            | Except.error e => Except.error e
            | Except.ok (c, _) => found fs mustDir c
      else Except.ok (d ++ [name])
    | some _ => found fs mustDir (d ++ [name])

/-- The canonical path a path string denotes; with `follow` a symbolic link
in the last place is followed (`stat`), without it the link itself is meant
(`lstat`).  A trailing slash asks for a directory and follows. -/
def resolve (fs : FS) (follow : Bool) (cwd : CPath) (p : String) : Except Errno CPath :=
  match lookupParent fs cwd p with
  | Except.error e => Except.error e
  | Except.ok ⟨_, _, none, _⟩ => Except.ok []
  | Except.ok ⟨d, _, some name, k⟩ =>
    lastStep fs (follow || trailingSlash p) (trailingSlash p) d name k

/-- The entry at a canonical path that resolution has reached. -/
def entryAt (fs : FS) (c : Except Errno CPath) : Except Errno Entry :=
  match c with
  | Except.error e => Except.error e
  | Except.ok q =>
    match fs.find q with
    | some e => Except.ok e
    | none => Except.error Errno.ENOENT

/-- The system call `stat`. -/
def stat (fs : FS) (cwd : CPath) (p : String) : Except Errno Entry :=
  entryAt fs (resolve fs true cwd p)

/-- The system call `lstat`. -/
def lstat (fs : FS) (cwd : CPath) (p : String) : Except Errno Entry :=
  entryAt fs (resolve fs false cwd p)

/-- The mapping of `std::filesystem::status` and `symlink_status` (throwing
overloads): `ENOENT` and `ENOTDIR` are `file_type::not_found`, any other error
is thrown. -/
def statusOf (what_arg p : String) (r : Except Errno Entry) : Except FsError (Option Entry) :=
  match r with
  | Except.ok e => Except.ok (some e)
  | Except.error Errno.ENOENT => Except.ok none
  | Except.error Errno.ENOTDIR => Except.ok none
  | Except.error err => Except.error ⟨what_arg, err, some p⟩

/-- The function `std::filesystem::status`. -/
def status (fs : FS) (cwd : CPath) (p : String) : Except FsError (Option Entry) :=
  statusOf "status" p (stat fs cwd p)

/-- The function `std::filesystem::symlink_status`. -/
def symlink_status (fs : FS) (cwd : CPath) (p : String) : Except FsError (Option Entry) :=
  statusOf "symlink_status" p (lstat fs cwd p)

/-- The function `std::filesystem::exists` (the throwing overload). -/
def fs_exists (fs : FS) (cwd : CPath) (p : String) : Except FsError Bool :=
  match status fs cwd p with
  | Except.error e => Except.error e
  | Except.ok r => Except.ok r.isSome

/-- The function `std::filesystem::is_directory` (the throwing overload). -/
def is_directory (fs : FS) (cwd : CPath) (p : String) : Except FsError Bool :=
  match status fs cwd p with
  | Except.error e => Except.error e
  | Except.ok (some e) => Except.ok e.node.isDir
  | Except.ok none => Except.ok false

/-- The function `std::filesystem::is_regular_file` (the throwing overload). -/
def is_regular_file (fs : FS) (cwd : CPath) (p : String) : Except FsError Bool :=
  match status fs cwd p with
  | Except.error e => Except.error e
  | Except.ok (some e) => Except.ok (decide (e.node.kind = Kind.file))
  | Except.ok none => Except.ok false

/-- The function `std::filesystem::is_symlink` (the throwing overload): the type of
the path itself, a link in the last place not followed. -/
def is_symlink (fs : FS) (cwd : CPath) (p : String) : Except FsError Bool :=
  match symlink_status fs cwd p with
  | Except.error e => Except.error e
  | Except.ok (some e) =>
    match e.node with
    | Node.symlink _ => Except.ok true
    | _ => Except.ok false
  | Except.ok none => Except.ok false

/-- The size `std::filesystem::file_size` reports for an entry: only a regular
file has one. -/
def Entry.file_size (e : Entry) : Except Errno Nat :=
  match e.node with
  | Node.file content => Except.ok content.length
  | Node.dir => Except.error Errno.EISDIR
  | _ => Except.error Errno.ENOTSUP

/-- The function `std::filesystem::file_size` of a path. -/
def file_size (fs : FS) (cwd : CPath) (p : String) : Except FsError Nat :=
  match stat fs cwd p with
  | Except.ok e =>
    match e.file_size with
    | Except.ok n => Except.ok n
    | Except.error c => Except.error ⟨"cannot get file size", c, some p⟩
  | Except.error c => Except.error ⟨"cannot get file size", c, some p⟩

/-- The function `std::filesystem::last_write_time`. -/
def last_write_time (fs : FS) (cwd : CPath) (p : String) : Except FsError Int :=
  match stat fs cwd p with
  | Except.ok e => Except.ok e.mtime
  | Except.error c => Except.error ⟨"cannot get file time", c, some p⟩

/-- The system call behind `opendir`: the directory the path denotes, which the
user must be allowed to read. -/
def opendir (fs : FS) (cwd : CPath) (p : String) : Except Errno Entry :=
  match stat fs cwd p with
  | Except.error c => Except.error c
  | Except.ok e =>
    match e.node with
    | Node.dir => if e.perm.r = false then Except.error Errno.EACCES else Except.ok e
    | _ => Except.error Errno.ENOTDIR

/-- The function `std::filesystem::directory_iterator` run to its end: the directory and
its entries in enumeration order, or the error of `opendir`. -/
def directory_iterator (fs : FS) (cwd : CPath) (p : String) :
    Except FsError (Entry × List Entry) :=
  match opendir fs cwd p with
  | Except.ok d => Except.ok (d, fs.children d.path)
  | Except.error c => Except.error ⟨"directory iterator cannot open directory", c, some p⟩

/-- The function `std::filesystem::is_empty` (the throwing overload): a directory
without entries, or a file of size 0.  It throws for every error of `stat`,
`ENOENT` included, and when the directory cannot be opened. -/
def is_empty (fs : FS) (cwd : CPath) (p : String) : Except FsError Bool :=
  match stat fs cwd p with
  | Except.error c => Except.error ⟨"cannot check if file is empty", c, some p⟩
  | Except.ok e =>
    match e.node with
    | Node.dir =>
      if e.perm.r = false then Except.error ⟨"cannot check if file is empty", Errno.EACCES, some p⟩
      else Except.ok (fs.children e.path).isEmpty
    | _ =>
      match e.file_size with
      | Except.ok n => Except.ok (n == 0)
      | Except.error c => Except.error ⟨"cannot check if file is empty", c, some p⟩

/-- The process's working directory as a path string; `getcwd` fails once the
directory has been removed. -/
def current_path (fs : FS) (cwd : CPath) : Except FsError String :=
  match fs.view cwd with
  | some (Kind.dir, _) => Except.ok (render cwd)
  | _ => Except.error ⟨"cannot get current path", Errno.ENOENT, none⟩

/-- The function `std::filesystem::absolute`: no normalisation, only the working directory
in front of a relative path.  It asks for the working directory with an
`error_code` and throws the error as its own. -/
def absolute (fs : FS) (cwd : CPath) (p : String) : Except FsError String :=
  if p.data = [] then Except.error ⟨"cannot make absolute path", Errno.EINVAL, some p⟩
  else if is_absolute p then Except.ok p
  else
    match current_path fs cwd with
    | Except.ok c => Except.ok (pathAppend c p)
    | Except.error e => Except.error ⟨"cannot make absolute path", e.code, some p⟩

/-- The function `std::filesystem::canonical`: the canonical path string of an existing
path, every symbolic link resolved. -/
def canonical (fs : FS) (cwd : CPath) (p : String) : Except FsError String :=
  match stat fs cwd p with
  | Except.ok e => Except.ok (render e.path)
  | Except.error c => Except.error ⟨"cannot make canonical path", c, some p⟩

/-! ### System calls that change the filesystem -/

/-- Stamp the directory `d` as modified at `now`. -/
def Entry.touchIf (d : CPath) (now : Int) (e : Entry) : Entry :=
  if e.path = d then { e with mtime := now } else e

/-- Add an entry at the canonical path `q`; its directory is stamped. -/
def FS.insert (fs : FS) (q : CPath) (node : Node) (perm : Perm) (now : Int) : FS :=
  { rootPerm := fs.rootPerm
    rootTime := if q.dropLast = [] then now else fs.rootTime
    entries := fs.entries.map (Entry.touchIf q.dropLast now) ++ [⟨q, node, perm, now, now⟩] }

/-- Remove the entry at the canonical path `q`; its directory is stamped. -/
def FS.erase (fs : FS) (q : CPath) (now : Int) : FS :=
  { rootPerm := fs.rootPerm
    rootTime := if q.dropLast = [] then now else fs.rootTime
    entries := (fs.entries.filter (fun e => decide (e.path ≠ q))).map (Entry.touchIf q.dropLast now) }

/-- Empty the regular file at `q` (open with `O_TRUNC`). -/
def FS.truncate (fs : FS) (q : CPath) (now : Int) : FS :=
  { fs with entries := fs.entries.map (fun e =>
      if e.path = q then
        match e.node with
        | Node.file _ => { e with node := Node.file [], mtime := now }
        | _ => e
      else e) }

/-- The permissions of a new directory: mode 0777 under the usual umask leaves
the owner everything. -/
def newDirPerm : Perm := ⟨true, true, true⟩

/-- The permissions of a new file: mode 0666 under the usual umask leaves the
owner reading and writing. -/
def newFilePerm : Perm := ⟨true, true, false⟩

/-- The system call `mkdir`. -/
def mkdirSys (fs : FS) (cwd : CPath) (now : Int) (p : String) : Except Errno FS :=
  match lookupParent fs cwd p with
  | Except.error e => Except.error e
  | Except.ok ⟨_, _, none, _⟩ => Except.error Errno.EEXIST
  | Except.ok ⟨d, perm, some name, _⟩ =>
    if name = "." ∨ name = ".." then Except.error Errno.EEXIST
    else if NAME_MAX < name.utf8ByteSize then Except.error Errno.ENAMETOOLONG
    else if (fs.view (d ++ [name])).isSome then Except.error Errno.EEXIST
    else if perm.w = false then Except.error Errno.EACCES
    else Except.ok (fs.insert (d ++ [name]) Node.dir newDirPerm now)

/-- The system call `rmdir`. -/
def rmdirSys (fs : FS) (cwd : CPath) (now : Int) (p : String) : Except Errno FS :=
  match lookupParent fs cwd p with
  | Except.error e => Except.error e
  | Except.ok ⟨_, _, none, _⟩ => Except.error Errno.EBUSY
  | Except.ok ⟨d, perm, some name, _⟩ =>
    if name = "." then Except.error Errno.EINVAL
    else if name = ".." then Except.error Errno.ENOTEMPTY
    else if NAME_MAX < name.utf8ByteSize then Except.error Errno.ENAMETOOLONG
    else
      match fs.view (d ++ [name]) with
      | none => Except.error Errno.ENOENT
      | some (kind, _) =>
        if perm.w = false then Except.error Errno.EACCES
        else if kind ≠ Kind.dir then Except.error Errno.ENOTDIR
        else if !(fs.children (d ++ [name])).isEmpty then Except.error Errno.ENOTEMPTY
        else Except.ok (fs.erase (d ++ [name]) now)

/-- The system call `unlink`. -/
def unlinkSys (fs : FS) (cwd : CPath) (now : Int) (p : String) : Except Errno FS :=
  match lookupParent fs cwd p with
  | Except.error e => Except.error e
  | Except.ok ⟨_, _, none, _⟩ => Except.error Errno.EISDIR
  | Except.ok ⟨d, perm, some name, _⟩ =>
    if name = "." ∨ name = ".." then Except.error Errno.EISDIR
    else if NAME_MAX < name.utf8ByteSize then Except.error Errno.ENAMETOOLONG
    else
      match fs.view (d ++ [name]) with
      | none => Except.error Errno.ENOENT
      | some (kind, _) =>
        if trailingSlash p then
          (if kind = Kind.dir then Except.error Errno.EISDIR else Except.error Errno.ENOTDIR)
        else if perm.w = false then Except.error Errno.EACCES
        else if kind = Kind.dir then Except.error Errno.EISDIR
        else Except.ok (fs.erase (d ++ [name]) now)

/-- The C library's `remove`: `unlink`, and `rmdir` when that reports a directory. -/
def removeC (fs : FS) (cwd : CPath) (now : Int) (p : String) : Except Errno FS :=
  match unlinkSys fs cwd now p with
  | Except.ok fs1 => Except.ok fs1
  | Except.error Errno.EISDIR => rmdirSys fs cwd now p
  | Except.error e => Except.error e

/-- The function `std::filesystem::remove` (the throwing overload): `true` when something was
removed, `false` when the path does not exist, an exception for any other error. -/
def remove (fs : FS) (cwd : CPath) (now : Int) (p : String) : Except FsError (Bool × FS) :=
  match removeC fs cwd now p with
  | Except.ok fs1 => Except.ok (true, fs1)
  | Except.error Errno.ENOENT => Except.ok (false, fs)
  | Except.error e => Except.error ⟨"cannot remove", e, some p⟩

/-- The function `std::filesystem::is_directory` with an `error_code` (the overload that
does not throw): `false` for every error. -/
def is_directory_ec (fs : FS) (cwd : CPath) (p : String) : Bool :=
  match stat fs cwd p with
  | Except.ok e => e.node.isDir
  | Except.error _ => false

/-- The function `std::filesystem::create_directory` (the throwing overload): `true` when
the directory was created, `false` when `mkdir` reports `EEXIST` for an existing
directory, an exception for any other error. -/
def create_directory (fs : FS) (cwd : CPath) (now : Int) (p : String) : Except FsError (Bool × FS) :=
  match mkdirSys fs cwd now p with
  | Except.ok fs1 => Except.ok (true, fs1)
  | Except.error e =>
    if e = Errno.EEXIST ∧ is_directory_ec fs cwd p = true then Except.ok (false, fs)
    else Except.error ⟨"cannot create directory", e, some p⟩

/-- The system call `open` for writing with `O_CREAT` and `O_TRUNC`, on the
path `p` taken from the directory `cwd`.  A symbolic link in the last place is
followed, at most `fuel` times, so a dangling link creates its target. -/
def openCreate : Nat → FS → Int → CPath → String → Except Errno FS
  | fuel, fs, now, cwd, p =>
    if p.data = [] then Except.error Errno.ENOENT
    else
      match parentFrom MAXSYMLINKS fs (startOf cwd p) (components p) with
      | Except.error e => Except.error e
      | Except.ok ⟨_, _, none, _⟩ => Except.error Errno.EISDIR
      | Except.ok ⟨d, perm, some name, _⟩ =>
        if name = "." ∨ name = ".." then Except.error Errno.EISDIR
        else if trailingSlash p then Except.error Errno.EISDIR
        else if NAME_MAX < name.utf8ByteSize then Except.error Errno.ENAMETOOLONG
        else
          match fs.view (d ++ [name]) with
          | none =>
            if perm.w = false then Except.error Errno.EACCES
            else Except.ok (fs.insert (d ++ [name]) (Node.file []) newFilePerm now)
          | some (Kind.file, perm1) =>
            if perm1.w = false then Except.error Errno.EACCES
            else Except.ok (fs.truncate (d ++ [name]) now)
          | some (Kind.dir, _) => Except.error Errno.EISDIR
          | some (Kind.special, _) => Except.error Errno.ENXIO
          | some (Kind.symlink target, _) =>
            match fuel with
            | 0 => Except.error Errno.ELOOP
            | n + 1 => openCreate n fs now d target

/-- Construction of a `std::ofstream` on the path (open for writing, create,
truncate): the filesystem afterwards, or `none` when `is_open()` is false. -/
def ofstream_open (fs : FS) (cwd : CPath) (now : Int) (p : String) : Option FS :=
  if PATH_MAX ≤ p.utf8ByteSize then none
  else
    match openCreate MAXSYMLINKS fs now cwd p with
    | Except.ok fs1 => some fs1
    | Except.error _ => none

/-! ## The session -/

/-- The state of a run: the member `currentPath`, the filesystem, the lines
still to be read from `std::cin`, and the text written to `std::cout`. -/
structure State where
  currentPath : String
  fs : FS
  input : List String
  output : String
  deriving DecidableEq, Repr

/-- Write a text to `std::cout`. -/
def State.print (s : State) (msg : String) : State :=
  { s with output := s.output ++ msg }

/-- Write a text and `std::endl` to `std::cout`. -/
def State.println (s : State) (msg : String) : State :=
  { s with output := s.output ++ msg ++ "\n" }

/-- How a call ends: it returns to its caller, the process ends through
`exit(code)`, or a `filesystem_error` leaves it uncaught and the process ends
in `std::terminate`. -/
inductive Result where
  | returned (s : State)
  | exited (code : Int) (s : State)
  | terminated (e : FsError) (s : State)
  deriving DecidableEq, Repr

/-! ## cd -/

/-- What lines 169 to 229 of `cmdCd` leave in `newPath`. -/
inductive CdTarget where
  | path (newPath : String)
  | noHome
  | threw (e : FsError)
  deriving DecidableEq, Repr

/-- The path resolution of `cmdCd` (lines 169 to 229): `~` is the value of
`HOME`; any other token is made absolute against `currentPath` and, when it
exists, canonical.  Only `canonical` stands inside the `try`; `absolute` and
`exists` (line 222) throw out of the handler. -/
def cdNewPath (env : Env) (s : State) (targetPath : String) : CdTarget :=
  if targetPath = "~" then
    match env.home with
    | none => CdTarget.noHome
    | some homeDir => CdTarget.path homeDir
  else
    match absolute s.fs env.cwd
        (if is_absolute targetPath then targetPath else pathAppend s.currentPath targetPath) with
    | Except.error e => CdTarget.threw e
    | Except.ok newPath =>
      match fs_exists s.fs env.cwd newPath with
      | Except.error e => CdTarget.threw e
      | Except.ok false => CdTarget.path newPath
      | Except.ok true =>
        match canonical s.fs env.cwd newPath with
        | Except.ok c => CdTarget.path c
        | Except.error _ => CdTarget.path newPath

/-- The handler `cmdCd`. -/
def cmdCd (env : Env) (s : State) (args : List String) : Result :=
  match args with
  | [] => Result.returned (s.println "Missing path: Please enter 'cd [path]'")
  | targetPath :: _ =>
    match cdNewPath env s targetPath with
    | CdTarget.noHome => Result.returned (s.println "Cannot determine home directory")
    | CdTarget.threw e => Result.terminated e s
    | CdTarget.path newPath =>
      match fs_exists s.fs env.cwd newPath with
      | Except.error e => Result.terminated e s
      | Except.ok false => Result.returned (s.println ("Invalid directory: " ++ targetPath))
      | Except.ok true =>
        match is_directory s.fs env.cwd newPath with
        | Except.error e => Result.terminated e s
        | Except.ok false => Result.returned (s.println ("Not a directory: " ++ targetPath))
        | Except.ok true =>
          Result.returned
            ({ s with currentPath := newPath }.println ("Current Directory: " ++ newPath))

/-! ## ls -/

/-- The body of the collecting loop of `cmdLs` (lines 285 to 332) for one
directory entry `e`; `path` is `entry.path()`.  The call `entry.status()`
(line 290) is `status(path)`: an error other than "not found" leaves the loop
as an exception.  The errors of `file_size` and `last_write_time`, which run
`stat` on the same path, are caught inside. -/
def lsEntryInfo (env : Env) (fs : FS) (path : String) (e : Entry) :
    Except FsError EntryInfo :=
  match status fs env.cwd path with
  | Except.error err => Except.error err
  | Except.ok none =>
    Except.ok { name := e.path.getLast?.getD "", type := "File", sizeStr := "-"
                modifyTime := "-", fileSize := 0, modifyTimePoint := fileTimeMin }
  | Except.ok (some t) =>
    if t.node.isDir then
      Except.ok { name := e.path.getLast?.getD "" ++ "/", type := "Dir", sizeStr := "-"
                  modifyTime := env.formatTime t.mtime, fileSize := 0, modifyTimePoint := t.mtime }
    else
      match t.file_size with
      | Except.ok n =>
        Except.ok { name := e.path.getLast?.getD "", type := "File", sizeStr := toString n
                    modifyTime := env.formatTime t.mtime, fileSize := n, modifyTimePoint := t.mtime }
      | Except.error _ =>
        Except.ok { name := e.path.getLast?.getD "", type := "File", sizeStr := "-"
                    modifyTime := env.formatTime t.mtime, fileSize := 0, modifyTimePoint := t.mtime }

/-- The collecting loop of `cmdLs` (lines 284 to 333) over the entries still to
be visited, `cur` being `currentPath`: it ends at the first entry whose status
throws. -/
def lsCollect (env : Env) (fs : FS) (cur : String) :
    List Entry → Except FsError (List EntryInfo)
  | [] => Except.ok []
  | e :: rest =>
    match lsEntryInfo env fs (pathAppend cur (e.path.getLast?.getD "")) e with
    | Except.error err => Except.error err
    | Except.ok info =>
      match lsCollect env fs cur rest with
      | Except.error err => Except.error err
      | Except.ok infos => Except.ok (info :: infos)

/-- The rows `cmdLs` prints, in the order it prints them, or the exception
that reaches the `catch` of line 375. -/
def lsRows (env : Env) (s : State) (args : List String) : Except FsError (List EntryInfo) :=
  match directory_iterator s.fs env.cwd s.currentPath with
  | Except.error e => Except.error e
  | Except.ok (_, dirEntries) =>
    match lsCollect env s.fs s.currentPath dirEntries with
    | Except.error e => Except.error e
    | Except.ok infos => Except.ok (lsSort (lsFlags args).1 (lsFlags args).2 infos)

/-- The handler `cmdLs`. -/
def cmdLs (env : Env) (s : State) (args : List String) : Result :=
  match lsRows env s args with
  | Except.error e => Result.returned (s.println ("Error reading directory: " ++ e.what))
  | Except.ok entries =>
    if entries.isEmpty then Result.returned s
    else Result.returned (s.print (lsHeader ++ String.join (entries.map lsRow)))

/-! ## touch, mkdir, rm, rmdir, stat -/

/-- The block that `cmdTouch` (395 to 404), `cmdMkdir` (438 to 447), `cmdRm`
(479 to 488), `cmdRmdir` (539 to 548) and `cmdStat` (615 to 624) each repeat:
the argument, taken against `currentPath` when relative, through `absolute`. -/
def operandPath (env : Env) (s : State) (name : String) : Except FsError String :=
  absolute s.fs env.cwd (if is_absolute name then name else pathAppend s.currentPath name)

/-- The handler `cmdTouch`. -/
def cmdTouch (env : Env) (s : State) (args : List String) : Result :=
  match args with
  | [] => Result.returned (s.println "Missing filename: Please enter 'touch [filename]'")
  | filename :: _ =>
    match operandPath env s filename with
    | Except.error e => Result.terminated e s
    | Except.ok filePath =>
      match fs_exists s.fs env.cwd filePath with
      | Except.error e => Result.terminated e s
      | Except.ok true => Result.returned (s.println ("File already exists: " ++ filename))
      | Except.ok false =>
        match ofstream_open s.fs env.cwd env.now filePath with
        | some fs1 => Result.returned { s with fs := fs1 }
        | none => Result.returned (s.println ("Failed to create file: " ++ filename))

/-- The handler `cmdMkdir`. -/
def cmdMkdir (env : Env) (s : State) (args : List String) : Result :=
  match args with
  | [] => Result.returned (s.println "Missing directory name: Please enter 'mkdir [dirname]'")
  | dirname :: _ =>
    match operandPath env s dirname with
    | Except.error e => Result.terminated e s
    | Except.ok dirPath =>
      match fs_exists s.fs env.cwd dirPath with
      | Except.error e => Result.terminated e s
      | Except.ok true => Result.returned (s.println ("Directory already exists: " ++ dirname))
      | Except.ok false =>
        match create_directory s.fs env.cwd env.now dirPath with
        | Except.error e => Result.terminated e s
        | Except.ok (true, fs1) => Result.returned { s with fs := fs1 }
        | Except.ok (false, fs1) =>
          Result.returned ({ s with fs := fs1 }.println ("Failed to create directory: " ++ dirname))

/-- The confirmation and the removal of `cmdRm` (lines 502 to 520). -/
def rmConfirm (env : Env) (s : State) (filename filePath : String) : Result :=
  match s.input with
  | [] => Result.returned (s.print (rmPrompt filename))
  | confirmation :: rest =>
    if confirmation = "y" then
      match remove s.fs env.cwd env.now filePath with
      | Except.error e =>
        Result.terminated e { (s.print (rmPrompt filename)) with input := rest }
      | Except.ok (true, fs1) =>
        Result.returned { (s.print (rmPrompt filename)) with input := rest, fs := fs1 }
      | Except.ok (false, fs1) =>
        Result.returned ({ (s.print (rmPrompt filename)) with input := rest, fs := fs1 }.println
          ("Failed to delete file: " ++ filename))
    else Result.returned { (s.print (rmPrompt filename)) with input := rest }

/-- The handler `cmdRm`.  The test of line 497 asks `is_symlink` only when
`is_regular_file` is false. -/
def cmdRm (env : Env) (s : State) (args : List String) : Result :=
  match args with
  | [] => Result.returned (s.println "Missing filename: Please enter 'rm [filename]'")
  | filename :: _ =>
    match operandPath env s filename with
    | Except.error e => Result.terminated e s
    | Except.ok filePath =>
      match fs_exists s.fs env.cwd filePath with
      | Except.error e => Result.terminated e s
      | Except.ok false => Result.returned (s.println ("File not found: " ++ filename))
      | Except.ok true =>
        match is_regular_file s.fs env.cwd filePath with
        | Except.error e => Result.terminated e s
        | Except.ok true => rmConfirm env s filename filePath
        | Except.ok false =>
          match is_symlink s.fs env.cwd filePath with
          | Except.error e => Result.terminated e s
          | Except.ok true => rmConfirm env s filename filePath
          | Except.ok false => Result.returned (s.println ("Not a file: " ++ filename))

/-- The handler `cmdRmdir`. -/
def cmdRmdir (env : Env) (s : State) (args : List String) : Result :=
  match args with
  | [] => Result.returned (s.println "Missing directory name: Please enter 'rmdir [dirname]'")
  | dirname :: _ =>
    match operandPath env s dirname with
    | Except.error e => Result.terminated e s
    | Except.ok dirPath =>
      match fs_exists s.fs env.cwd dirPath with
      | Except.error e => Result.terminated e s
      | Except.ok false => Result.returned (s.println ("Directory not found: " ++ dirname))
      | Except.ok true =>
        match is_directory s.fs env.cwd dirPath with
        | Except.error e => Result.terminated e s
        | Except.ok false => Result.returned (s.println ("Not a directory: " ++ dirname))
        | Except.ok true =>
          match is_empty s.fs env.cwd dirPath with
          | Except.error e => Result.terminated e s
          | Except.ok false => Result.returned (s.println ("Directory not empty: " ++ dirname))
          | Except.ok true =>
            match remove s.fs env.cwd env.now dirPath with
            | Except.error e => Result.terminated e s
            | Except.ok (true, fs1) => Result.returned { s with fs := fs1 }
            | Except.ok (false, fs1) =>
              Result.returned
                ({ s with fs := fs1 }.println ("Failed to delete directory: " ++ dirname))

/-- The text `cmdStat` prints for an existing target (lines 632 to 722, the
branch for Linux and macOS); `isDir` is the result of `is_directory` (line
640). -/
def statReport (env : Env) (fs : FS) (targetPath : String) (isDir : Bool) : String :=
  "\n=== File/Directory Information ===\n"
    ++ "Type:        " ++ (if isDir then "文件夹" else "文件") ++ "\n"
    ++ "Path:        " ++ targetPath ++ "\n"
    ++ "Size:        "
    ++ (if isDir then "-"
        else
          match file_size fs env.cwd targetPath with
          | Except.ok n => toString n ++ " bytes"
          | Except.error _ => "- bytes") ++ "\n"
    ++ "Create Time: " ++ "-" ++ "\n"
    ++ "Modify Time: "
    ++ (match last_write_time fs env.cwd targetPath with
        | Except.ok t => formatFileTime env t
        | Except.error _ => "-") ++ "\n"
    ++ "Access Time: "
    ++ (match stat fs env.cwd targetPath with
        | Except.ok e => env.formatTime e.atime
        | Except.error _ => "-") ++ "\n"
    ++ "\n"

/-- The handler `cmdStat`. -/
def cmdStat (env : Env) (s : State) (args : List String) : Result :=
  match args with
  | [] => Result.returned (s.println "Missing target: Please enter 'stat [name]'")
  | targetName :: _ =>
    match operandPath env s targetName with
    | Except.error e => Result.terminated e s
    | Except.ok targetPath =>
      match fs_exists s.fs env.cwd targetPath with
      | Except.error e => Result.terminated e s
      | Except.ok false => Result.returned (s.println ("Target not found: " ++ targetName))
      | Except.ok true =>
        match is_directory s.fs env.cwd targetPath with
        | Except.error e => Result.terminated e s
        | Except.ok isDir => Result.returned (s.print (statReport env s.fs targetPath isDir))

/-! ## The stubs, help and the dispatcher -/

/-- The handler `cmdSearch`. -/
def cmdSearch (s : State) (_args : List String) : Result :=
  Result.returned (s.println "search command - Not implemented yet")

/-- The handler `cmdCp`. -/
def cmdCp (s : State) (_args : List String) : Result :=
  Result.returned (s.println "cp command - Not implemented yet")

/-- The handler `cmdMv`. -/
def cmdMv (s : State) (_args : List String) : Result :=
  Result.returned (s.println "mv command - Not implemented yet")

/-- The handler `cmdDu`. -/
def cmdDu (s : State) (_args : List String) : Result :=
  Result.returned (s.println "du command - Not implemented yet")

/-- The function `printHelp`. -/
def printHelp (s : State) : Result :=
  Result.returned (s.print helpText)

/-- The handler `cmdExit`. -/
def cmdExit (s : State) : Result :=
  Result.exited 0 (s.println "MiniFileExplorer closed successfully")

/-- The function `handleCommand`. -/
def handleCommand (env : Env) (s : State) (line : String) : Result :=
  match split line with
  | [] => Result.returned s
  | command :: args =>
    if command = "cd" then cmdCd env s args
    else if command = "ls" then cmdLs env s args
    else if command = "touch" then cmdTouch env s args
    else if command = "mkdir" then cmdMkdir env s args
    else if command = "rm" then cmdRm env s args
    else if command = "rmdir" then cmdRmdir env s args
    else if command = "stat" then cmdStat env s args
    else if command = "search" then cmdSearch s args
    else if command = "cp" then cmdCp s args
    else if command = "mv" then cmdMv s args
    else if command = "du" then cmdDu s args
    else if command = "help" then printHelp s
    else if command = "exit" then cmdExit s
    else
      Result.returned ((s.println ("Unknown command: " ++ command)).println
        "Type 'help' for all commands.")

/-- The loop of `run`, with a bound on the number of iterations: `none` when
the bound is reached, `returned` when `getline` fails and the loop is left. -/
def runLoop (env : Env) : Nat → State → Option Result
  | 0, _ => none
  | n + 1, s =>
    match s.input with
    | [] => some (Result.returned (s.print promptText))
    | line :: rest =>
      match handleCommand env { (s.print promptText) with input := rest } line with
      | Result.returned s2 => runLoop env n s2
      | Result.exited code s2 => some (Result.exited code s2)
      | Result.terminated e s2 => some (Result.terminated e s2)

/-- The function `run`: every iteration reads at least one line, so one more
iteration than there are lines is enough. -/
def run (env : Env) (s : State) : Option Result :=
  runLoop env (s.input.length + 1) s

/-- The constructor `MiniFileExplorer(initialPath)` on a fresh process. -/
def construct (env : Env) (fs : FS) (input : List String) (initialPath : String) : Result :=
  if initialPath.data = [] then
    match current_path fs env.cwd with
    | Except.ok c =>
      Result.returned { currentPath := c, fs := fs, input := input
                        output := "Current Directory: " ++ c ++ "\n" }
    | Except.error e =>
      Result.terminated e { currentPath := "", fs := fs, input := input, output := "" }
  else
    match fs_exists fs env.cwd initialPath with
    | Except.error e =>
      Result.terminated e { currentPath := initialPath, fs := fs, input := input, output := "" }
    | Except.ok false =>
      Result.exited 1 { currentPath := initialPath, fs := fs, input := input
                        output := "Directory not found: " ++ initialPath ++ "\n" }
    | Except.ok true =>
      match is_directory fs env.cwd initialPath with
      | Except.error e =>
        Result.terminated e { currentPath := initialPath, fs := fs, input := input, output := "" }
      | Except.ok false =>
        Result.exited 1 { currentPath := initialPath, fs := fs, input := input
                          output := "Not a directory: " ++ initialPath ++ "\n" }
      | Except.ok true =>
        Result.returned { currentPath := initialPath, fs := fs, input := input
                          output := "Current Directory: " ++ initialPath ++ "\n" }

/-! ## Notions the statements use -/

/-- The directory tree: every entry with what it is and what the user may do
with it, without the time stamps. -/
def FS.tree (fs : FS) : List (CPath × Node × Perm) :=
  fs.entries.map (fun e => (e.path, e.node, e.perm))

/-- The canonical positions `walkSeg` looks at. -/
def segTrail (fs : FS) : CPath → List String → List CPath
  | _, [] => []
  | cur, c :: cs =>
    cur ::
      match fs.view cur with
      | some (Kind.dir, perm) =>
        if c = "" then segTrail fs cur cs
        else if perm.x = false then []
        else if c = "." then segTrail fs cur cs
        else if c = ".." then segTrail fs cur.dropLast cs
        else if NAME_MAX < c.utf8ByteSize then []
        else
          (cur ++ [c]) ::
            match fs.view (cur ++ [c]) with
            | none => []
            | some (Kind.symlink _, _) => []
            | some _ => segTrail fs (cur ++ [c]) cs
      | _ => []

/-- The canonical positions `walkAll` looks at: the directories it walks
through and the symbolic links it follows. -/
def allTrail : Nat → FS → CPath → List String → List CPath
  | links, fs, cur, comps =>
    segTrail fs cur comps ++
      match walkSeg fs cur comps with
      | Seg.link d target rest =>
        match links with
        | 0 => []
        | k + 1 =>
          if target.data = [] then []
          else allTrail k fs (startOf d target) (components target ++ rest)
      | _ => []

/-- The canonical positions `parentFrom` looks at. -/
def parentTrail (links : Nat) (fs : FS) (start : CPath) (comps : List String) : List CPath :=
  match (dropTrailingEmpty comps).getLast? with
  | none => [[]]
  | some _ =>
    allTrail links fs start (dropTrailingEmpty comps).dropLast ++
      match walkAll links fs start (dropTrailingEmpty comps).dropLast with
      | Except.ok (d, _) => [d]
      | Except.error _ => []

/-- The canonical positions `lastStep` looks at. -/
def lastTrail (fs : FS) (follow : Bool) (d : CPath) (name : String) (k : Nat) : List CPath :=
  if name = "." then [d]
  else if name = ".." then [d.dropLast]
  else if NAME_MAX < name.utf8ByteSize then []
  else
    (d ++ [name]) ::
      match fs.view (d ++ [name]) with
      | some (Kind.symlink target, _) =>
        if follow then
          match k with
          | 0 => []
          | k1 + 1 =>
            if target.data = [] then []
            else
              allTrail k1 fs (startOf d target) (components target) ++
                match walkAll k1 fs (startOf d target) (components target) with
                | Except.ok (c, _) => [c]
                | Except.error _ => []
        else []
      | _ => []

/-- The canonical positions the resolution of a path string looks at: the
directories it walks through, the symbolic links it follows, and what it
reaches. -/
def resolveTrail (fs : FS) (follow : Bool) (cwd : CPath) (p : String) : List CPath :=
  if p.data = [] then []
  else if PATH_MAX ≤ p.utf8ByteSize then []
  else
    parentTrail MAXSYMLINKS fs (startOf cwd p) (components p) ++
      match parentFrom MAXSYMLINKS fs (startOf cwd p) (components p) with
      | Except.ok ⟨_, _, none, _⟩ => []
      | Except.ok ⟨d, _, some name, k⟩ => lastTrail fs (follow || trailingSlash p) d name k
      | Except.error _ => []

/-- The entries through which `currentPath` is resolved: the directories on
its way, the symbolic links followed, and the current directory itself. -/
def currentTrail (env : Env) (s : State) : List CPath :=
  resolveTrail s.fs true env.cwd s.currentPath

/-- The session invariant: `currentPath` denotes an existing directory. -/
def currentValid (env : Env) (s : State) : Bool :=
  match is_directory s.fs env.cwd s.currentPath with
  | Except.ok true => true
  | _ => false

/-- The name that `remove` takes away for the operand `name` of `rm` or
`rmdir`: the last name of the operand in the directory the rest of the operand
leads to.  A symbolic link in the last place is not followed: `unlink` removes
the link itself. -/
def removalOf (env : Env) (s : State) (name : String) : Option CPath :=
  match operandPath env s name with
  | Except.error _ => none
  | Except.ok p =>
    match lookupParent s.fs env.cwd p with
    | Except.ok ⟨d, _, some last, _⟩ =>
      if last = "." ∨ last = ".." then none else some (d ++ [last])
    | _ => none

/-- The name an `rm` or `rmdir` line is aimed at. -/
def removalTarget (env : Env) (s : State) (line : String) : Option CPath :=
  match split line with
  | command :: name :: _ =>
    if command = "rm" ∨ command = "rmdir" then removalOf env s name else none
  | _ => none

/-- Every entry that was there is still there, with its type and its
permissions. -/
def ViewsKept (fs fs1 : FS) : Prop :=
  ∀ x v, fs.view x = some v → fs1.view x = some v

/-- The entries at the positions of `T` that were there are still there, with
their types and their permissions. -/
def ViewKept (T : List CPath) (fs fs1 : FS) : Prop :=
  ∀ x ∈ T, ∀ v, fs.view x = some v → fs1.view x = some v

/-- A filesystem as an unprivileged user sees it: `/tmp/work` with the file
`f.txt` (3 bytes), the empty directory `sub`, the directory `full` holding
`full/x`, the directory `locked` (mode 000) holding `locked/in`, the directory
`ro` (no write permission) holding `ro/keep.txt`, the symbolic link `link` to
`sub`, the symbolic link `dangling` to the missing `gone/x`, the directory
`listonly` (read permission only) holding `listonly/a`, and the directory
`loops` holding the symbolic link `self` to itself; `/home/u`. -/
def fs0 : FS :=
  { rootPerm := ⟨true, false, true⟩
    rootTime := 1
    entries := [
      ⟨["tmp"], Node.dir, ⟨true, true, true⟩, 2, 2⟩,
      ⟨["tmp", "work"], Node.dir, ⟨true, true, true⟩, 3, 3⟩,
      ⟨["tmp", "work", "f.txt"], Node.file [104, 105, 10], ⟨true, true, false⟩, 40, 41⟩,
      ⟨["tmp", "work", "sub"], Node.dir, ⟨true, true, true⟩, 50, 51⟩,
      ⟨["tmp", "work", "full"], Node.dir, ⟨true, true, true⟩, 60, 61⟩,
      ⟨["tmp", "work", "full", "x"], Node.file [], ⟨true, true, false⟩, 70, 71⟩,
      ⟨["tmp", "work", "locked"], Node.dir, ⟨false, false, false⟩, 80, 81⟩,
      ⟨["tmp", "work", "locked", "in"], Node.file [], ⟨true, true, false⟩, 82, 83⟩,
      ⟨["tmp", "work", "ro"], Node.dir, ⟨true, false, true⟩, 90, 91⟩,
      ⟨["tmp", "work", "ro", "keep.txt"], Node.file [107], ⟨true, true, false⟩, 92, 93⟩,
      ⟨["tmp", "work", "link"], Node.symlink "sub", ⟨true, true, true⟩, 95, 96⟩,
      ⟨["tmp", "work", "dangling"], Node.symlink "gone/x", ⟨true, true, true⟩, 97, 98⟩,
      ⟨["tmp", "work", "listonly"], Node.dir, ⟨true, false, false⟩, 110, 111⟩,
      ⟨["tmp", "work", "listonly", "a"], Node.file [], ⟨true, true, false⟩, 112, 113⟩,
      ⟨["tmp", "work", "loops"], Node.dir, ⟨true, true, true⟩, 120, 121⟩,
      ⟨["tmp", "work", "loops", "self"], Node.symlink "self", ⟨true, true, true⟩, 122, 123⟩,
      ⟨["home"], Node.dir, ⟨true, false, true⟩, 5, 5⟩,
      ⟨["home", "u"], Node.dir, ⟨true, true, true⟩, 6, 6⟩] }

/-- A session in `/tmp/work` on `fs0`. -/
def s0 : State :=
  { currentPath := "/tmp/work", fs := fs0, input := [], output := "" }

/-- A name of 256 bytes, one more than `NAME_MAX`. -/
def longName : String := String.mk (List.replicate 256 'a')

/-- A path of 4100 bytes to the directory `full`: `full` followed by 4096
slashes. -/
def longPath : String := "full" ++ String.mk (List.replicate 4096 '/')

end Posix

/-! # Theorems -/

/-! ## The dispatcher -/

/-- Case analysis on the handler a command line is dispatched to. -/
theorem handleCommand_cases (P : Result → Prop) (env : Env) (s : State) (line : String)
    (hnone : split line = [] → P (Result.returned s))
    (hcd : ∀ args, split line = "cd" :: args → P (cmdCd env s args))
    (hls : ∀ args, split line = "ls" :: args → P (cmdLs env s args))
    (htouch : ∀ args, split line = "touch" :: args → P (cmdTouch env s args))
    (hmkdir : ∀ args, split line = "mkdir" :: args → P (cmdMkdir env s args))
    (hrm : ∀ args, split line = "rm" :: args → P (cmdRm env s args))
    (hrmdir : ∀ args, split line = "rmdir" :: args → P (cmdRmdir env s args))
    (hstat : ∀ args, split line = "stat" :: args → P (cmdStat env s args))
    (hsearch : ∀ args, split line = "search" :: args → P (cmdSearch s args))
    (hcp : ∀ args, split line = "cp" :: args → P (cmdCp s args))
    (hmv : ∀ args, split line = "mv" :: args → P (cmdMv s args))
    (hdu : ∀ args, split line = "du" :: args → P (cmdDu s args))
    (hhelp : ∀ args, split line = "help" :: args → P (printHelp s))
    (hexit : ∀ args, split line = "exit" :: args → P (cmdExit s))
    (hunknown : ∀ command args, split line = command :: args → command ≠ "cd" →
      command ≠ "rmdir" → command ≠ "exit" →
      P (Result.returned ((s.println ("Unknown command: " ++ command)).println
        "Type 'help' for all commands."))) :
    P (handleCommand env s line) := by
  unfold handleCommand
  cases hsp : split line with
  | nil => exact hnone hsp
  | cons command args =>
    simp only
    by_cases h1 : command = "cd"
    · rw [if_pos h1]; exact hcd args (h1 ▸ hsp)
    rw [if_neg h1]
    by_cases h2 : command = "ls"
    · rw [if_pos h2]; exact hls args (h2 ▸ hsp)
    rw [if_neg h2]
    by_cases h3 : command = "touch"
    · rw [if_pos h3]; exact htouch args (h3 ▸ hsp)
    rw [if_neg h3]
    by_cases h4 : command = "mkdir"
    · rw [if_pos h4]; exact hmkdir args (h4 ▸ hsp)
    rw [if_neg h4]
    by_cases h5 : command = "rm"
    · rw [if_pos h5]; exact hrm args (h5 ▸ hsp)
    rw [if_neg h5]
    by_cases h6 : command = "rmdir"
    · rw [if_pos h6]; exact hrmdir args (h6 ▸ hsp)
    rw [if_neg h6]
    by_cases h7 : command = "stat"
    · rw [if_pos h7]; exact hstat args (h7 ▸ hsp)
    rw [if_neg h7]
    by_cases h8 : command = "search"
    · rw [if_pos h8]; exact hsearch args (h8 ▸ hsp)
    rw [if_neg h8]
    by_cases h9 : command = "cp"
    · rw [if_pos h9]; exact hcp args (h9 ▸ hsp)
    rw [if_neg h9]
    by_cases h10 : command = "mv"
    · rw [if_pos h10]; exact hmv args (h10 ▸ hsp)
    rw [if_neg h10]
    by_cases h11 : command = "du"
    · rw [if_pos h11]; exact hdu args (h11 ▸ hsp)
    rw [if_neg h11]
    by_cases h12 : command = "help"
    · rw [if_pos h12]; exact hhelp args (h12 ▸ hsp)
    rw [if_neg h12]
    by_cases h13 : command = "exit"
    · rw [if_pos h13]; exact hexit args (h13 ▸ hsp)
    rw [if_neg h13]
    exact hunknown command args hsp h1 h6 h13

/-! ## Frame lemmas: `currentPath` -/

theorem cmdLs_currentPath (env : Env) (s : State) (args : List String) :
    (cmdLs env s args).state.currentPath = s.currentPath := by
  unfold cmdLs
  repeat' split
  all_goals rfl

theorem cmdTouch_currentPath (env : Env) (s : State) (args : List String) :
    (cmdTouch env s args).state.currentPath = s.currentPath := by
  unfold cmdTouch
  repeat' split
  all_goals rfl

theorem cmdMkdir_currentPath (env : Env) (s : State) (args : List String) :
    (cmdMkdir env s args).state.currentPath = s.currentPath := by
  unfold cmdMkdir
  repeat' split
  all_goals rfl

theorem cmdRm_currentPath (env : Env) (s : State) (args : List String) :
    (cmdRm env s args).state.currentPath = s.currentPath := by
  unfold cmdRm
  repeat' split
  all_goals rfl

theorem cmdRmdir_currentPath (env : Env) (s : State) (args : List String) :
    (cmdRmdir env s args).state.currentPath = s.currentPath := by
  unfold cmdRmdir
  repeat' split
  all_goals rfl

theorem cmdStat_currentPath (env : Env) (s : State) (args : List String) :
    (cmdStat env s args).state.currentPath = s.currentPath := by
  unfold cmdStat
  repeat' split
  all_goals rfl

theorem cmdCd_currentPath_of_fails (env : Env) (s : State) (args : List String)
    (h : cdFails env s args = true) : (cmdCd env s args).state.currentPath = s.currentPath := by
  unfold cdFails at h
  unfold cmdCd
  cases args with
  | nil => rfl
  | cons t rest =>
    simp only at h ⊢
    cases hres : cdNewPath env s t with
    | noHome => rfl
    | threw e => rfl
    | path p =>
      rw [hres] at h
      simp only [Bool.or_eq_true] at h
      simp only
      by_cases hex : fs_exists s.fs env.cwd p = true
      · have hd : (!is_directory s.fs env.cwd p) = true := by
          rcases h with h | h
          · simp [hex] at h
          · exact h
        simp [hex, hd, Result.state, State.println]
      · simp [hex, Result.state, State.println]

/-- C3: `currentPath` is changed only by a successful `cd`. For every command
line whose verb is not `cd`, and for every `cd` that fails (no argument, home
directory undeterminable, target absent, target not a directory), the
`currentPath` of the state in which the command ends is the one it started with. -/
theorem currentPath_only_changed_by_cd (env : Env) (s : State) (line : String)
    (h : (split line).head? ≠ some "cd" ∨ cdFails env s (split line).tail = true) :
    (handleCommand env s line).state.currentPath = s.currentPath := by
  refine handleCommand_cases (fun r => r.state.currentPath = s.currentPath) env s line
    ?_ ?_ ?_ ?_ ?_ ?_ ?_ ?_ ?_ ?_ ?_ ?_ ?_ ?_ ?_
  · intro _; rfl
  · intro args hsp
    rw [hsp] at h
    rcases h with h | h
    · exact absurd rfl h
    · exact cmdCd_currentPath_of_fails env s args h
  · intro args _; exact cmdLs_currentPath env s args
  · intro args _; exact cmdTouch_currentPath env s args
  · intro args _; exact cmdMkdir_currentPath env s args
  · intro args _; exact cmdRm_currentPath env s args
  · intro args _; exact cmdRmdir_currentPath env s args
  · intro args _; exact cmdStat_currentPath env s args
  all_goals intros; rfl

/-! ## The sort -/

theorem insertSorted_perm {α : Type} (comp : α → α → Bool) (a : α) (l : List α) :
    (insertSorted comp a l).Perm (a :: l) := by
  induction l with
  | nil => exact List.Perm.refl _
  | cons b l ih =>
    unfold insertSorted
    split
    · exact (List.Perm.cons b ih).trans (List.Perm.swap a b l)
    · exact List.Perm.refl _

theorem stdSort_perm {α : Type} (comp : α → α → Bool) (l : List α) :
    (stdSort comp l).Perm l := by
  induction l with
  | nil => exact List.Perm.refl _
  | cons a l ih =>
    show (insertSorted comp a (stdSort comp l)).Perm (a :: l)
    exact (insertSorted_perm comp a _).trans (List.Perm.cons a ih)

theorem insertSorted_descending {α β : Type} [LinearOrder β] (key : α → β) (a : α) (l : List α)
    (hl : l.Pairwise (fun x y => key y ≤ key x)) :
    (insertSorted (fun x y => decide (key y < key x)) a l).Pairwise (fun x y => key y ≤ key x) := by
  induction l with
  | nil => simp [insertSorted]
  | cons b l ih =>
    rw [List.pairwise_cons] at hl
    unfold insertSorted
    split
    · rename_i hba
      have hba : key a < key b := by simpa using hba
      refine List.pairwise_cons.mpr ⟨?_, ih hl.2⟩
      intro y hy
      rcases List.mem_cons.mp ((insertSorted_perm _ a l).subset hy) with rfl | hy
      · exact le_of_lt hba
      · exact hl.1 y hy
    · rename_i hba
      have hba : key b ≤ key a := by simpa using hba
      refine List.pairwise_cons.mpr ⟨?_, List.pairwise_cons.mpr hl⟩
      intro y hy
      rcases List.mem_cons.mp hy with rfl | hy
      · exact hba
      · exact le_trans (hl.1 y hy) hba

theorem stdSort_descending {α β : Type} [LinearOrder β] (key : α → β) (l : List α) :
    (stdSort (fun x y => decide (key y < key x)) l).Pairwise (fun x y => key y ≤ key x) := by
  induction l with
  | nil => exact List.Pairwise.nil
  | cons a l ih => exact insertSorted_descending key a _ ih

/-! ## ls -/

theorem lsFlags_foldl (args : List String) (a b : Bool) :
    args.foldl (fun flags arg =>
        if arg = "-s" then (true, flags.2)
        else if arg = "-t" then (flags.1, true)
        else flags) (a, b)
      = (a || decide ("-s" ∈ args), b || decide ("-t" ∈ args)) := by
  induction args generalizing a b with
  | nil => simp
  | cons x xs ih =>
    rw [List.foldl_cons]
    by_cases h1 : x = "-s"
    · subst h1
      rw [if_pos rfl, ih]
      simp
    · rw [if_neg h1]
      by_cases h2 : x = "-t"
      · subst h2
        rw [if_pos rfl, ih]
        have : ¬ "-s" = "-t" := by decide
        simp [this]
      · rw [if_neg h2, ih]
        have h1' : ¬ "-s" = x := fun h => h1 h.symm
        have h2' : ¬ "-t" = x := fun h => h2 h.symm
        simp [h1', h2']

theorem lsFlags_size (args : List String) : (lsFlags args).1 = decide ("-s" ∈ args) := by
  unfold lsFlags
  rw [lsFlags_foldl]
  simp

theorem lsFlags_time (args : List String) : (lsFlags args).2 = decide ("-t" ∈ args) := by
  unfold lsFlags
  rw [lsFlags_foldl]
  simp

theorem lsSort_perm (bs bt : Bool) (l : List EntryInfo) : (lsSort bs bt l).Perm l := by
  unfold lsSort
  split
  · exact stdSort_perm _ l
  · split
    · exact stdSort_perm _ l
    · exact List.Perm.refl l

theorem lsEntryInfo_fileSize (env : Env) (e : Entry) :
    (lsEntryInfo env e).fileSize = sizeOrZero e := by
  unfold lsEntryInfo sizeOrZero Entry.file_size Node.isDir
  cases e.node <;> rfl

theorem cmdLs_eq_of_rows (env : Env) (s : State) (args : List String) (rows : List EntryInfo)
    (hrows : lsRows env s args = Except.ok rows) :
    cmdLs env s args = Result.returned (lsPrinted s rows) := by
  unfold cmdLs lsPrinted
  rw [hrows]
  simp only
  split <;> rfl

/-- C4: the rows of `ls -s` are in descending order of size. Whenever `cmdLs`
with `-s` among its arguments reads the directory, it prints the rows of
`lsRows` in their order, every adjacent pair of rows (a, b) has
size(a) >= size(b), and the size of a row is that of one of the directory's
entries, a directory and a file whose size cannot be read counting as 0. -/
theorem ls_size_sorted (env : Env) (s : State) (args : List String) (rows : List EntryInfo)
    (hrows : lsRows env s args = Except.ok rows) (hflag : "-s" ∈ args) :
    cmdLs env s args = Result.returned (lsPrinted s rows)
      ∧ rows.Chain' (fun a b => a.fileSize ≥ b.fileSize)
      ∧ ∀ r ∈ rows, ∃ e ∈ s.fs.entries, r = lsEntryInfo env e ∧ r.fileSize = sizeOrZero e := by
  refine ⟨cmdLs_eq_of_rows env s args rows hrows, ?_, ?_⟩
  · unfold lsRows at hrows
    split at hrows
    · cases hrows
    · rename_i dirEntries _
      injection hrows with hrows
      subst hrows
      have hs : (lsFlags args).1 = true := by rw [lsFlags_size]; simpa using hflag
      unfold lsSort
      rw [if_pos hs]
      exact List.Pairwise.chain' (stdSort_descending (fun i : EntryInfo => i.fileSize) _)
  · intro r hr
    unfold lsRows directory_iterator at hrows
    split at hrows
    · cases hrows
    · rename_i dirEntries hdi
      injection hrows with hrows
      subst hrows
      have hr2 := (lsSort_perm _ _ _).subset hr
      obtain ⟨e, he, rfl⟩ := List.mem_map.mp hr2
      refine ⟨e, ?_, rfl, lsEntryInfo_fileSize env e⟩
      split at hdi
      · split at hdi
        · injection hdi with hdi
          subst hdi
          exact (List.mem_filter.mp he).1
        · cases hdi
      · cases hdi

/-- A concrete instance: `ls -t -s` in `/tmp/work`. -/
theorem ls_size_sorted_witness :
    ∃ rows, lsRows env0 s0 ["-t", "-s"] = Except.ok rows
      ∧ rows.map (fun r => (r.name, r.fileSize))
          = [("f.txt", 3), ("sub/", 0), ("full/", 0), ("pipe", 0)]
      ∧ cmdLs env0 s0 ["-t", "-s"] = Result.returned (lsPrinted s0 rows)
      ∧ rows.Chain' (fun a b => a.fileSize ≥ b.fileSize) :=
  ⟨_, rfl, by rfl, (ls_size_sorted env0 s0 ["-t", "-s"] _ rfl (by simp)).1,
    (ls_size_sorted env0 s0 ["-t", "-s"] _ rfl (by simp)).2.1⟩

/-! ## Lookups after a change of the filesystem -/

theorem touchIf_path (d : CPath) (now : Int) (e : Entry) : (e.touchIf d now).path = e.path := by
  unfold Entry.touchIf
  split <;> rfl

theorem touchIf_node (d : CPath) (now : Int) (e : Entry) : (e.touchIf d now).node = e.node := by
  unfold Entry.touchIf
  split <;> rfl

theorem find?_touchIf (l : List Entry) (d c : CPath) (now : Int) :
    (l.map (Entry.touchIf d now)).find? (fun e => decide (e.path = c))
      = (l.find? (fun e => decide (e.path = c))).map (Entry.touchIf d now) := by
  induction l with
  | nil => rfl
  | cons e l ih =>
    simp only [List.map_cons, List.find?_cons, touchIf_path]
    split
    · rfl
    · exact ih

theorem find?_erase_ne (l : List Entry) (q c : CPath) (h : c ≠ q) :
    (l.filter (fun e => decide (e.path ≠ q))).find? (fun e => decide (e.path = c))
      = l.find? (fun e => decide (e.path = c)) := by
  induction l with
  | nil => rfl
  | cons e l ih =>
    by_cases hq : e.path = q
    · have hc : ¬ e.path = c := fun hc => h (hc.symm.trans hq)
      rw [List.filter_cons_of_neg (by simpa using hq), List.find?_cons_of_neg _ (by simpa using hc)]
      exact ih
    · rw [List.filter_cons_of_pos (by simpa using hq)]
      simp only [List.find?_cons]
      split
      · rfl
      · exact ih

theorem find_eq_none (fs : FS) (c : CPath) (h : fs.find c = none) :
    c ≠ [] ∧ ∀ e ∈ fs.entries, e.path ≠ c := by
  unfold FS.find at h
  split at h
  · cases h
  · rename_i hc
    refine ⟨hc, ?_⟩
    rw [List.find?_eq_none] at h
    intro e he
    simpa using h e he

theorem find_insert_old (fs : FS) (q c : CPath) (n : Node) (now : Int) (e : Entry)
    (h : fs.find c = some e) :
    ∃ e1, (fs.insert q n now).find c = some e1 ∧ e1.node = e.node ∧ e1.path = e.path := by
  unfold FS.find at h ⊢
  split
  · rename_i hc
    rw [if_pos hc] at h
    injection h with h
    exact ⟨_, rfl, by rw [← h], by rw [← h]⟩
  · rename_i hc
    rw [if_neg hc] at h
    refine ⟨e.touchIf q.dropLast now, ?_, touchIf_node _ _ _, touchIf_path _ _ _⟩
    simp only [FS.insert, List.find?_append, find?_touchIf, h, Option.map_some']
    rfl

theorem find_insert_new (fs : FS) (q : CPath) (n : Node) (now : Int) (h : fs.find q = none) :
    (fs.insert q n now).find q = some ⟨q, n, now, now⟩ := by
  obtain ⟨hq, _⟩ := find_eq_none fs q h
  unfold FS.find at h ⊢
  rw [if_neg hq] at h ⊢
  simp only [FS.insert, List.find?_append, find?_touchIf, h, Option.map_none']
  simp [List.find?_cons]

theorem isDir_insert (fs : FS) (q c : CPath) (n : Node) (now : Int) (h : fs.isDir c = true) :
    (fs.insert q n now).isDir c = true := by
  unfold FS.isDir at h ⊢
  cases hf : fs.find c with
  | none => rw [hf] at h; cases h
  | some e =>
    rw [hf] at h
    obtain ⟨e1, h1, h2, _⟩ := find_insert_old fs q c n now e hf
    rw [h1]
    simpa [h2] using h

theorem find_erase_ne (fs : FS) (q c : CPath) (now : Int) (e : Entry) (hne : c ≠ q)
    (h : fs.find c = some e) :
    ∃ e1, (fs.erase q now).find c = some e1 ∧ e1.node = e.node ∧ e1.path = e.path := by
  unfold FS.find at h ⊢
  split
  · rename_i hc
    rw [if_pos hc] at h
    injection h with h
    exact ⟨_, rfl, by rw [← h], by rw [← h]⟩
  · rename_i hc
    rw [if_neg hc] at h
    refine ⟨e.touchIf q.dropLast now, ?_, touchIf_node _ _ _, touchIf_path _ _ _⟩
    simp only [FS.erase, find?_touchIf, find?_erase_ne _ _ _ hne, h, Option.map_some']

theorem isDir_erase (fs : FS) (q c : CPath) (now : Int) (hne : c ≠ q) (h : fs.isDir c = true) :
    (fs.erase q now).isDir c = true := by
  unfold FS.isDir at h ⊢
  cases hf : fs.find c with
  | none => rw [hf] at h; cases h
  | some e =>
    rw [hf] at h
    obtain ⟨e1, h1, h2, _⟩ := find_erase_ne fs q c now e hne hf
    rw [h1]
    simpa [h2] using h

theorem find?_truncate_ne (l : List Entry) (q c : CPath) (now : Int) (hne : c ≠ q) :
    (l.map (fun e => if e.path = q then { e with node := Node.file [], mtime := now } else e)).find?
        (fun e => decide (e.path = c))
      = l.find? (fun e => decide (e.path = c)) := by
  induction l with
  | nil => rfl
  | cons e l ih =>
    by_cases heq : e.path = q
    · have hc2 : ¬ e.path = c := fun hc2 => hne (hc2.symm.trans heq)
      have hc3 : ¬ q = c := fun hc3 => hne hc3.symm
      rw [List.map_cons, if_pos heq, List.find?_cons_of_neg _ (by simpa [heq] using hc3),
        List.find?_cons_of_neg _ (by simpa using hc2)]
      exact ih
    · rw [List.map_cons, if_neg heq]
      simp only [List.find?_cons]
      split
      · rfl
      · exact ih

theorem find_truncate_ne (fs : FS) (q c : CPath) (now : Int) (hne : c ≠ q) :
    (fs.truncate q now).find c = fs.find c := by
  unfold FS.find
  split
  · rfl
  · exact find?_truncate_ne fs.entries q c now hne

theorem isDir_truncate (fs : FS) (q c : CPath) (now : Int) (hq : fs.isDir q = false)
    (h : fs.isDir c = true) : (fs.truncate q now).isDir c = true := by
  have hne : c ≠ q := by
    intro hcq
    rw [hcq, hq] at h
    cases h
  unfold FS.isDir at h ⊢
  rw [find_truncate_ne fs q c now hne]
  exact h
/-! ## The walk after a change of the filesystem -/

theorem walk_start_isDir (fs : FS) (cur : CPath) (comps : List String) (r : CPath)
    (hw : walk fs cur comps = Except.ok r) (hr : fs.isDir r = true) : fs.isDir cur = true := by
  cases comps with
  | nil =>
    unfold walk at hw
    injection hw with hw
    rw [hw]; exact hr
  | cons c cs =>
    unfold walk at hw
    by_cases hd : fs.isDir cur = true
    · exact hd
    · rw [if_neg hd] at hw
      cases hw

theorem walkTrail_head (fs : FS) (cur : CPath) (comps : List String) :
    cur ∈ walkTrail fs cur comps := by
  cases comps <;> simp [walkTrail]

theorem isSome_of_isDir (fs : FS) (c : CPath) (h : fs.isDir c = true) : (fs.find c).isSome = true := by
  unfold FS.isDir at h
  cases hf : fs.find c with
  | none => rw [hf] at h; cases h
  | some e => rfl

/-- A walk that ends at a directory gives the same result in every filesystem
that still has the directories it passed through. -/
theorem walk_preserved (fs fs1 : FS) (comps : List String) :
    ∀ (cur r : CPath), walk fs cur comps = Except.ok r → fs.isDir r = true →
      (∀ x ∈ walkTrail fs cur comps, fs.isDir x = true → fs1.isDir x = true) →
      walk fs1 cur comps = Except.ok r := by
  induction comps with
  | nil =>
    intro cur r hw _ _
    unfold walk at hw ⊢
    exact hw
  | cons c cs ih =>
    intro cur r hw hr hpres
    have hcur : fs.isDir cur = true := walk_start_isDir fs cur (c :: cs) r hw hr
    have hcur1 : fs1.isDir cur = true := hpres cur (walkTrail_head fs cur (c :: cs)) hcur
    unfold walk at hw ⊢
    unfold walkTrail at hpres
    rw [if_pos hcur] at hw hpres
    rw [if_pos hcur1]
    by_cases h1 : c = "" ∨ c = "."
    · rw [if_pos h1] at hw hpres ⊢
      exact ih cur r hw hr (fun x hx => hpres x (List.mem_cons_of_mem _ hx))
    · rw [if_neg h1] at hw hpres ⊢
      by_cases h2 : c = ".."
      · rw [if_pos h2] at hw hpres ⊢
        exact ih _ r hw hr (fun x hx => hpres x (List.mem_cons_of_mem _ hx))
      · rw [if_neg h2] at hw hpres ⊢
        by_cases h3 : (fs.find (cur ++ [c])).isSome = true
        · rw [if_pos h3] at hw hpres
          have hnext : fs.isDir (cur ++ [c]) = true :=
            walk_start_isDir fs (cur ++ [c]) cs r hw hr
          have hnext1 : fs1.isDir (cur ++ [c]) = true :=
            hpres _ (List.mem_cons_of_mem _ (walkTrail_head fs _ cs)) hnext
          rw [if_pos (isSome_of_isDir fs1 _ hnext1)]
          exact ih _ r hw hr (fun x hx => hpres x (List.mem_cons_of_mem _ hx))
        · rw [if_neg h3] at hw
          cases hw

theorem walk_nil (fs : FS) (cur : CPath) : walk fs cur [] = Except.ok cur := by
  rw [walk]

theorem walk_cons (fs : FS) (cur : CPath) (c : String) (cs : List String) :
    walk fs cur (c :: cs)
      = if fs.isDir cur then
          if c = "" ∨ c = "." then walk fs cur cs
          else if c = ".." then walk fs cur.dropLast cs
          else if (fs.find (cur ++ [c])).isSome then walk fs (cur ++ [c]) cs
          else Except.error Errno.ENOENT
        else Except.error (fs.notDirErr cur) := by
  rw [walk]

theorem walk_append (fs : FS) (a b : List String) :
    ∀ cur : CPath, walk fs cur (a ++ b)
      = match walk fs cur a with
        | Except.ok c => walk fs c b
        | Except.error e => Except.error e := by
  induction a with
  | nil => intro cur; rw [List.nil_append, walk_nil]
  | cons c cs ih =>
    intro cur
    rw [List.cons_append, walk_cons, walk_cons]
    split
    · split
      · exact ih cur
      · split
        · exact ih _
        · split
          · exact ih _
          · rfl
    · rfl

/-! ## Components -/

theorem splitSlash_ne_nil (l : List Char) : splitSlash l ≠ [] := by
  cases l with
  | nil => simp [splitSlash]
  | cons c cs =>
    unfold splitSlash
    split
    · simp
    · split <;> simp

theorem components_ne_nil (p : String) : components p ≠ [] := by
  unfold components
  intro h
  exact splitSlash_ne_nil p.data (List.map_eq_nil_iff.mp h)

theorem components_eq_snoc (p : String) :
    ∃ last, (components p).getLast? = some last
      ∧ components p = (components p).dropLast ++ [last] := by
  have hne := components_ne_nil p
  refine ⟨(components p).getLast hne, List.getLast?_eq_getLast _ hne, ?_⟩
  exact (List.dropLast_append_getLast hne).symm

theorem dropTrailingEmpty_spec (l : List String) :
    ∃ t, l = dropTrailingEmpty l ++ t ∧ ∀ c ∈ t, c = "" := by
  refine ⟨(l.reverse.takeWhile (fun c => decide (c = ""))).reverse, ?_, ?_⟩
  · unfold dropTrailingEmpty
    rw [← List.reverse_append, List.takeWhile_append_dropWhile, List.reverse_reverse]
  · intro c hc
    have := List.mem_takeWhile_imp (List.mem_reverse.mp hc)
    simpa using this

theorem dropTrailingEmpty_snoc (l : List String) (x : String) (hx : x ≠ "") :
    dropTrailingEmpty (l ++ [x]) = l ++ [x] := by
  unfold dropTrailingEmpty
  rw [List.reverse_append, List.reverse_singleton, List.singleton_append,
    List.dropWhile_cons_of_neg (by simpa using hx)]
  simp

theorem dropTrailingEmpty_getLast (l : List String) (x : String)
    (h : (dropTrailingEmpty l).getLast? = some x) : x ≠ "" := by
  unfold dropTrailingEmpty at h
  rw [List.getLast?_reverse] at h
  intro hx
  subst hx
  have hmem : (l.reverse.dropWhile (fun c => decide (c = ""))).head? = some "" := h
  cases hd : l.reverse.dropWhile (fun c => decide (c = "")) with
  | nil => rw [hd] at hmem; cases hmem
  | cons y ys =>
    rw [hd] at hmem
    simp only [List.head?_cons, Option.some.injEq] at hmem
    have := List.head_dropWhile_not (fun c : String => decide (c = "")) l.reverse
      (by rw [hd]; simp)
    simp only [hd, List.head_cons, hmem] at this
    simp at this

theorem walk_all_empty (fs : FS) (t : List String) (ht : ∀ c ∈ t, c = "") (cur : CPath)
    (hd : t = [] ∨ fs.isDir cur = true) : walk fs cur t = Except.ok cur := by
  induction t with
  | nil => rw [walk]
  | cons c cs ih =>
    have hcur : fs.isDir cur = true := by
      rcases hd with hd | hd
      · cases hd
      · exact hd
    have hc : c = "" := ht c (List.mem_cons_self _ _)
    rw [walk, if_pos hcur, if_pos (Or.inl hc)]
    exact ih (fun x hx => ht x (List.mem_cons_of_mem _ hx)) (Or.inr hcur)

theorem wf_isDir_dropLast (fs : FS) (hwf : fs.wellFormed = true) (c : CPath)
    (h : fs.isDir c = true) : fs.isDir c.dropLast = true := by
  by_cases hc : c = []
  · subst hc
    exact h
  · unfold FS.isDir at h
    cases hf : fs.find c with
    | none => rw [hf] at h; cases h
    | some e =>
      have hmem : e ∈ fs.entries := by
        unfold FS.find at hf
        rw [if_neg hc] at hf
        exact List.mem_of_find?_eq_some hf
      have hpath : e.path = c := by
        unfold FS.find at hf
        rw [if_neg hc] at hf
        simpa using List.find?_some hf
      unfold FS.wellFormed at hwf
      rw [List.all_eq_true] at hwf
      have := hwf e hmem
      rw [Bool.and_eq_true] at this
      rw [← hpath]
      exact this.2

/-! ## The last component -/

theorem lookupParent_ok (fs : FS) (cwd : CPath) (p : String) (d : CPath) (name : String)
    (h : lookupParent fs cwd p = Except.ok (d, some name)) :
    p.data ≠ [] ∧ (dropTrailingEmpty (components p)).getLast? = some name
      ∧ walk fs (startOf cwd p) (dropTrailingEmpty (components p)).dropLast = Except.ok d
      ∧ fs.isDir d = true ∧ name ≠ "" := by
  unfold lookupParent at h
  split at h
  · cases h
  · rename_i hp
    split at h
    · cases h
    · rename_i name1 hlast
      split at h
      · rename_i d1 hwalk
        split at h
        · rename_i hd
          injection h with h
          injection h with h1 h2
          injection h2 with h2
          subst h1 h2
          exact ⟨hp, hlast, hwalk, hd, dropTrailingEmpty_getLast _ _ hlast⟩
        · cases h
      · cases h

theorem lookupParent_intro (fs : FS) (cwd : CPath) (p : String) (d : CPath) (name : String)
    (hp : p.data ≠ []) (hlast : (dropTrailingEmpty (components p)).getLast? = some name)
    (hwalk : walk fs (startOf cwd p) (dropTrailingEmpty (components p)).dropLast = Except.ok d)
    (hd : fs.isDir d = true) :
    lookupParent fs cwd p = Except.ok (d, some name) := by
  unfold lookupParent
  rw [if_neg hp]
  simp only [hlast, hwalk, hd, if_true]

theorem snoc_of_getLast? (l : List String) (x : String) (h : l.getLast? = some x) :
    l = l.dropLast ++ [x] := by
  have hne : l ≠ [] := by
    intro hl
    rw [hl] at h
    cases h
  have h2 := List.getLast?_eq_getLast l hne
  rw [h] at h2
  injection h2 with h2
  rw [h2]
  exact (List.dropLast_append_getLast hne).symm

theorem walk_step_name (fs : FS) (d : CPath) (name : String) (hd : fs.isDir d = true)
    (h0 : name ≠ "") (h1 : name ≠ ".") (h2 : name ≠ "..") :
    walk fs d [name]
      = if (fs.find (d ++ [name])).isSome then Except.ok (d ++ [name])
        else Except.error Errno.ENOENT := by
  rw [walk, if_pos hd, if_neg (by simp [h0, h1]), if_neg h2]
  split
  · rw [walk]
  · rfl

theorem trailing_nil_of_not_trailingSlash (p : String) (t : List String)
    (hsplit : components p = dropTrailingEmpty (components p) ++ t) (ht : ∀ c ∈ t, c = "")
    (hts : trailingSlash p = false) : t = [] := by
  by_contra hne
  have hlast : (components p).getLast? = some (t.getLast hne) := by
    rw [hsplit, List.getLast?_append_of_ne_nil _ hne, List.getLast?_eq_getLast _ hne]
  have hempty : t.getLast hne = "" := ht _ (List.getLast_mem hne)
  unfold trailingSlash at hts
  rw [hlast, hempty] at hts
  simp at hts

/-- The path resolves to the name that `lookupParent` finds in its directory. -/
theorem resolve_of_lookupParent (fs : FS) (cwd : CPath) (p : String) (d : CPath) (name : String)
    (h : lookupParent fs cwd p = Except.ok (d, some name)) (h1 : name ≠ ".") (h2 : name ≠ "..")
    (hsome : (fs.find (d ++ [name])).isSome = true)
    (ht : trailingSlash p = false ∨ fs.isDir (d ++ [name]) = true) :
    resolve fs cwd p = Except.ok (d ++ [name]) := by
  obtain ⟨hp, hlast, hwalk, hd, h0⟩ := lookupParent_ok fs cwd p d name h
  obtain ⟨t, hsplit, htempty⟩ := dropTrailingEmpty_spec (components p)
  have hbase := snoc_of_getLast? _ _ hlast
  unfold resolve
  rw [if_neg hp, hsplit, hbase, walk_append, walk_append, hwalk]
  simp only
  rw [walk_step_name fs d name hd h0 h1 h2, if_pos hsome]
  simp only
  apply walk_all_empty fs t htempty
  rcases ht with ht | ht
  · exact Or.inl (trailing_nil_of_not_trailingSlash p t hsplit htempty ht)
  · exact Or.inr ht

theorem is_directory_eq_false_of_stat (fs : FS) (cwd : CPath) (p : String)
    (h : is_directory fs cwd p = false) (r : CPath) (hr : resolve fs cwd p = Except.ok r) :
    fs.isDir r = false := by
  unfold is_directory stat at h
  rw [hr] at h
  unfold FS.isDir
  simp only at h
  cases hf : fs.find r with
  | none => rfl
  | some e =>
    rw [hf] at h
    exact h

/-- In a well-formed filesystem, a path that does not denote a directory while
its parent directory exists ends in a proper name. -/
theorem last_component_proper (fs : FS) (cwd : CPath) (p : String) (d : CPath)
    (hwf : fs.wellFormed = true) (hp : p.data ≠ [])
    (hinit : walk fs (startOf cwd p) (components p).dropLast = Except.ok d)
    (hd : fs.isDir d = true) (hnd : is_directory fs cwd p = false) :
    ∃ name, components p = (components p).dropLast ++ [name]
      ∧ name ≠ "" ∧ name ≠ "." ∧ name ≠ ".."
      ∧ lookupParent fs cwd p = Except.ok (d, some name)
      ∧ trailingSlash p = false
      ∧ resolve fs cwd p
          = if (fs.find (d ++ [name])).isSome then Except.ok (d ++ [name])
            else Except.error Errno.ENOENT := by
  obtain ⟨name, hlast, hsnoc⟩ := components_eq_snoc p
  have hres : resolve fs cwd p = walk fs d [name] := by
    unfold resolve
    rw [if_neg hp]
    conv_lhs => rw [hsnoc]
    rw [walk_append, hinit]
  have h0 : name ≠ "" ∧ name ≠ "." := by
    by_contra hcon
    have hstay : name = "" ∨ name = "." := by
      by_contra hno
      push_neg at hno
      exact hcon hno
    have : resolve fs cwd p = Except.ok d := by
      rw [hres, walk, if_pos hd, if_pos hstay, walk]
    have := is_directory_eq_false_of_stat fs cwd p hnd d this
    rw [hd] at this
    cases this
  have h2 : name ≠ ".." := by
    intro hup
    have : resolve fs cwd p = Except.ok d.dropLast := by
      rw [hres, walk, if_pos hd, if_neg (by simp [h0.1, h0.2]), if_pos hup, walk]
    have := is_directory_eq_false_of_stat fs cwd p hnd _ this
    rw [wf_isDir_dropLast fs hwf d hd] at this
    cases this
  have hdrop : dropTrailingEmpty (components p) = components p := by
    conv_lhs => rw [hsnoc]
    rw [dropTrailingEmpty_snoc _ _ h0.1]
    exact hsnoc.symm
  refine ⟨name, hsnoc, h0.1, h0.2, h2, ?_, ?_, ?_⟩
  · apply lookupParent_intro fs cwd p d name hp
    · rw [hdrop]; exact hlast
    · rw [hdrop]; exact hinit
    · exact hd
  · unfold trailingSlash
    rw [hlast]
    simpa using h0.1
  · rw [hres]
    exact walk_step_name fs d name hd h0.1 h0.2 h2

/-! ## What the system calls do -/

theorem stat_of_resolve (fs : FS) (cwd : CPath) (p : String) (r : CPath) (e : Entry)
    (hr : resolve fs cwd p = Except.ok r) (hf : fs.find r = some e) :
    stat fs cwd p = Except.ok e := by
  unfold stat
  rw [hr]
  simp only [hf]

theorem resolve_snoc (fs : FS) (cwd : CPath) (p : String) (name : String) (d : CPath)
    (hp : p.data ≠ []) (hsnoc : components p = (components p).dropLast ++ [name])
    (hinit : walk fs (startOf cwd p) (components p).dropLast = Except.ok d) :
    resolve fs cwd p = walk fs d [name] := by
  unfold resolve
  rw [if_neg hp]
  conv_lhs => rw [hsnoc]
  rw [walk_append, hinit]

theorem absolute_preserved (fs fs1 : FS) (cwd : CPath) (x p : String)
    (hcwd : fs.isDir cwd = true → fs1.isDir cwd = true)
    (h : absolute fs cwd x = Except.ok p) : absolute fs1 cwd x = Except.ok p := by
  unfold absolute at h ⊢
  split
  · rename_i hx
    rw [if_pos hx] at h
    exact h
  · rename_i hx
    rw [if_neg hx] at h
    split
    · rename_i ha
      rw [if_pos ha] at h
      exact h
    · rename_i ha
      rw [if_neg ha] at h
      unfold current_path at h ⊢
      by_cases hc : fs.isDir cwd = true
      · rw [if_pos hc] at h
        rw [if_pos (hcwd hc)]
        exact h
      · rw [if_neg hc] at h
        cases h

theorem tree_insert (fs : FS) (q : CPath) (n : Node) (now : Int) :
    (fs.insert q n now).tree = fs.tree ++ [(q, n)] := by
  unfold FS.tree FS.insert
  simp only [List.map_append, List.map_map, List.map_cons, List.map_nil]
  congr 1
  apply List.map_congr_left
  intro e _
  simp [touchIf_path, touchIf_node]

theorem tree_erase (fs : FS) (q : CPath) (now : Int) :
    (fs.erase q now).tree = fs.tree.filter (fun x => decide (x.1 ≠ q)) := by
  unfold FS.tree FS.erase
  simp only [List.map_map, List.filter_map]
  apply List.map_congr_left
  intro e _
  simp [touchIf_path, touchIf_node]

theorem tree_filter_absent (fs : FS) (q : CPath) (h : fs.find q = none) :
    fs.tree.filter (fun x => decide (x.1 ≠ q)) = fs.tree := by
  obtain ⟨_, hall⟩ := find_eq_none fs q h
  rw [List.filter_eq_self]
  intro x hx
  unfold FS.tree at hx
  obtain ⟨e, he, rfl⟩ := List.mem_map.mp hx
  simpa using hall e he

theorem mkdirSys_ok (fs fs1 : FS) (cwd : CPath) (now : Int) (p : String)
    (h : mkdirSys fs cwd now p = Except.ok fs1) :
    ∃ d name, lookupParent fs cwd p = Except.ok (d, some name) ∧ name ≠ "." ∧ name ≠ ".."
      ∧ fs.find (d ++ [name]) = none ∧ fs1 = fs.insert (d ++ [name]) Node.dir now := by
  unfold mkdirSys at h
  split at h
  · cases h
  · cases h
  · rename_i d name hl
    split at h
    · cases h
    · rename_i hname
      split at h
      · cases h
      · rename_i hfind
        injection h with h
        push_neg at hname
        refine ⟨d, name, hl, hname.1, hname.2, ?_, h.symm⟩
        cases hf : fs.find (d ++ [name]) with
        | none => rfl
        | some e => rw [hf] at hfind; simp at hfind

theorem removeC_ok (fs fs1 : FS) (cwd : CPath) (now : Int) (p : String)
    (h : removeC fs cwd now p = Except.ok fs1) :
    ∃ d name e, lookupParent fs cwd p = Except.ok (d, some name) ∧ name ≠ "." ∧ name ≠ ".."
      ∧ fs.find (d ++ [name]) = some e
      ∧ (e.node.isDir = true → fs.children (d ++ [name]) = [])
      ∧ resolve fs cwd p = Except.ok (d ++ [name])
      ∧ fs1 = fs.erase (d ++ [name]) now := by
  unfold removeC at h
  split at h
  · -- unlink succeeded
    rename_i fs2 hu
    injection h with h
    subst h
    unfold unlinkSys at hu
    split at hu
    · cases hu
    · cases hu
    · rename_i d name hl
      split at hu
      · cases hu
      · rename_i hname
        push_neg at hname
        split at hu
        · cases hu
        · rename_i e hf
          split at hu
          · cases hu
          · rename_i hnd
            split at hu
            · cases hu
            · rename_i hts
              injection hu with hu
              refine ⟨d, name, e, hl, hname.1, hname.2, hf, ?_, ?_, hu.symm⟩
              · intro hd
                exact absurd hd hnd
              · apply resolve_of_lookupParent fs cwd p d name hl hname.1 hname.2
                · rw [hf]; rfl
                · left
                  simpa using hts
  · -- unlink reported a directory
    unfold rmdirSys at h
    split at h
    · cases h
    · cases h
    · rename_i d name hl
      split at h
      · cases h
      · rename_i h1
        split at h
        · cases h
        · rename_i h2
          split at h
          · cases h
          · rename_i e hf
            split at h
            · cases h
            · rename_i hd
              split at h
              · cases h
              · rename_i hc
                injection h with h
                have hd : e.node.isDir = true := by simpa using hd
                have hdir : fs.isDir (d ++ [name]) = true := by
                  unfold FS.isDir
                  rw [hf]
                  exact hd
                refine ⟨d, name, e, hl, h1, h2, hf, ?_, ?_, h.symm⟩
                · intro _
                  simpa using hc
                · exact resolve_of_lookupParent fs cwd p d name hl h1 h2
                    (by rw [hf]; rfl) (Or.inr hdir)
  · cases h

theorem remove_ok (fs fs1 : FS) (cwd : CPath) (now : Int) (p : String) (b : Bool)
    (h : remove fs cwd now p = Except.ok (b, fs1)) :
    (b = false ∧ fs1 = fs) ∨ (b = true ∧ removeC fs cwd now p = Except.ok fs1) := by
  unfold remove at h
  split at h
  · rename_i fs2 hr
    injection h with h
    injection h with h1 h2
    right
    exact ⟨h1.symm, h2 ▸ hr⟩
  · injection h with h
    injection h with h1 h2
    left
    exact ⟨h1.symm, h2.symm⟩
  · cases h

theorem create_directory_ok (fs fs1 : FS) (cwd : CPath) (now : Int) (p : String) (b : Bool)
    (h : create_directory fs cwd now p = Except.ok (b, fs1)) :
    (b = false ∧ fs1 = fs) ∨ (b = true ∧ mkdirSys fs cwd now p = Except.ok fs1) := by
  unfold create_directory at h
  split at h
  · rename_i fs2 hr
    injection h with h
    injection h with h1 h2
    right
    exact ⟨h1.symm, h2 ▸ hr⟩
  · split at h
    · injection h with h
      injection h with h1 h2
      left
      exact ⟨h1.symm, h2.symm⟩
    · cases h

/-! ## touch -/

theorem fs_exists_of_stat (fs : FS) (cwd : CPath) (p : String) (e : Entry)
    (h : stat fs cwd p = Except.ok e) : fs_exists fs cwd p = true := by
  unfold fs_exists
  rw [h]

theorem is_directory_false_of_not_exists (fs : FS) (cwd : CPath) (p : String)
    (h : fs_exists fs cwd p = false) : is_directory fs cwd p = false := by
  unfold fs_exists at h
  unfold is_directory
  cases hs : stat fs cwd p with
  | error c => rfl
  | ok e => rw [hs] at h; cases h

theorem parentExists_ok (fs : FS) (cwd : CPath) (p : String) (h : parentExists fs cwd p = true) :
    p.data ≠ [] ∧ ∃ d, walk fs (startOf cwd p) (components p).dropLast = Except.ok d
      ∧ fs.isDir d = true := by
  unfold parentExists at h
  split at h
  · cases h
  · rename_i hp
    split at h
    · rename_i d hw
      exact ⟨hp, d, hw, h⟩
    · cases h

theorem operandPath_preserved (env : Env) (s : State) (fs1 : FS) (name p : String)
    (hcwd : s.fs.isDir env.cwd = true → fs1.isDir env.cwd = true)
    (h : operandPath env s name = Except.ok p) :
    operandPath env { s with fs := fs1 } name = Except.ok p := by
  unfold operandPath at h ⊢
  exact absolute_preserved s.fs fs1 env.cwd _ p hcwd h

/-! ## mkdir, then rmdir -/

theorem lookupParent_preserved (fs fs1 : FS) (cwd : CPath) (p : String) (d : CPath)
    (name : String) (hpres : ∀ x, fs.isDir x = true → fs1.isDir x = true)
    (h : lookupParent fs cwd p = Except.ok (d, some name)) :
    lookupParent fs1 cwd p = Except.ok (d, some name) := by
  obtain ⟨hp, hlast, hwalk, hd, _⟩ := lookupParent_ok fs cwd p d name h
  exact lookupParent_intro fs1 cwd p d name hp hlast
    (walk_preserved fs fs1 _ _ d hwalk hd (fun x _ hx => hpres x hx)) (hpres d hd)

/-- What `cmdMkdir` does when it returns for a path that did not exist: it has
added the directory at the place `lookupParent` names. -/
theorem cmdMkdir_created (env : Env) (s s1 : State) (Y : String) (rest : List String)
    (p : String) (hp : operandPath env s Y = Except.ok p)
    (hne : fs_exists s.fs env.cwd p = false)
    (hmk : cmdMkdir env s (Y :: rest) = Result.returned s1) :
    (s1 = s.println ("Failed to create directory: " ++ Y))
      ∨ ∃ d name, lookupParent s.fs env.cwd p = Except.ok (d, some name)
          ∧ name ≠ "." ∧ name ≠ ".." ∧ s.fs.find (d ++ [name]) = none
          ∧ s1 = { s with fs := s.fs.insert (d ++ [name]) Node.dir env.now } := by
  unfold cmdMkdir at hmk
  simp only [hp, hne] at hmk
  cases hc : create_directory s.fs env.cwd env.now p with
  | error e => rw [hc] at hmk; cases hmk
  | ok r =>
    obtain ⟨b, fs1⟩ := r
    rw [hc] at hmk
    rcases create_directory_ok _ _ _ _ _ _ hc with ⟨hb, hfs⟩ | ⟨hb, hsys⟩
    · subst hb hfs
      simp only at hmk
      injection hmk with hmk
      exact Or.inl hmk.symm
    · subst hb
      simp only at hmk
      injection hmk with hmk
      obtain ⟨d, name, hl, h1, h2, hnone, hfs⟩ := mkdirSys_ok _ _ _ _ _ hsys
      exact Or.inr ⟨d, name, hl, h1, h2, hnone, by rw [← hmk, hfs]⟩

/-- C7 as amended: `mkdir Y` then `rmdir Y` is a round trip when `Y` did not
exist before. With `p` the path the handlers make of `Y`: when `p` does not
exist, `cmdMkdir` returns, and `p` is an empty directory at the moment `rmdir`
runs, then `cmdRmdir` returns and the directory tree is the tree before the
`mkdir`; nothing is printed and the session is otherwise as it was. -/
theorem mkdir_rmdir_round_trip (env : Env) (s s1 : State) (Y : String)
    (rest rest1 : List String) (p : String)
    (hp : operandPath env s Y = Except.ok p)
    (hne : fs_exists s.fs env.cwd p = false)
    (hmk : cmdMkdir env s (Y :: rest) = Result.returned s1)
    (hempty : is_empty s1.fs env.cwd p = Except.ok true) :
    ∃ s2, cmdRmdir env s1 (Y :: rest1) = Result.returned s2
      ∧ s2.fs.tree = s.fs.tree
      ∧ s2.output = s.output ∧ s2.currentPath = s.currentPath ∧ s2.input = s.input := by
  rcases cmdMkdir_created env s s1 Y rest p hp hne hmk with hfail | ⟨d, name, hl, h1, h2, hnone, hs1⟩
  · -- the directory was not created: it is not there for `rmdir`
    subst hfail
    exfalso
    unfold is_empty at hempty
    cases hs : stat s.fs env.cwd p with
    | error c =>
      have : stat (s.println ("Failed to create directory: " ++ Y)).fs env.cwd p
          = Except.error c := hs
      rw [this] at hempty
      cases hempty
    | ok e =>
      have := fs_exists_of_stat _ _ _ _ hs
      rw [hne] at this
      cases this
  · subst hs1
    simp only at hempty ⊢
    have hpres : ∀ x, s.fs.isDir x = true →
        (s.fs.insert (d ++ [name]) Node.dir env.now).isDir x = true :=
      fun x hx => isDir_insert s.fs _ x _ _ hx
    have hl1 := lookupParent_preserved s.fs _ env.cwd p d name hpres hl
    have hfind1 := find_insert_new s.fs (d ++ [name]) Node.dir env.now hnone
    have hdir1 : (s.fs.insert (d ++ [name]) Node.dir env.now).isDir (d ++ [name]) = true := by
      unfold FS.isDir
      rw [hfind1]
      rfl
    have hres1 := resolve_of_lookupParent _ env.cwd p d name hl1 h1 h2
      (by rw [hfind1]; rfl) (Or.inr hdir1)
    have hstat1 := stat_of_resolve _ env.cwd p _ _ hres1 hfind1
    have hchildren : (s.fs.insert (d ++ [name]) Node.dir env.now).children (d ++ [name]) = [] := by
      unfold is_empty at hempty
      rw [hstat1] at hempty
      simp only at hempty
      injection hempty with hempty
      exact List.isEmpty_iff.mp hempty
    have hempty1 : is_empty (s.fs.insert (d ++ [name]) Node.dir env.now) env.cwd p
        = Except.ok true := hempty
    have hunlink : unlinkSys (s.fs.insert (d ++ [name]) Node.dir env.now) env.cwd env.now p
        = Except.error Errno.EISDIR := by
      unfold unlinkSys
      rw [hl1]
      simp only [h1, h2, or_self, if_false, hfind1]
      rfl
    have hrmdir : rmdirSys (s.fs.insert (d ++ [name]) Node.dir env.now) env.cwd env.now p
        = Except.ok ((s.fs.insert (d ++ [name]) Node.dir env.now).erase (d ++ [name]) env.now) := by
      unfold rmdirSys
      rw [hl1]
      simp only [h1, h2, if_false, hfind1, hchildren]
      rfl
    have hremove : remove (s.fs.insert (d ++ [name]) Node.dir env.now) env.cwd env.now p
        = Except.ok (true,
            (s.fs.insert (d ++ [name]) Node.dir env.now).erase (d ++ [name]) env.now) := by
      unfold remove removeC
      rw [hunlink]
      simp only [hrmdir]
    have hp1 := operandPath_preserved env s _ Y p (hpres env.cwd) hp
    have hex1 := fs_exists_of_stat _ _ _ _ hstat1
    have hisdir1 : is_directory (s.fs.insert (d ++ [name]) Node.dir env.now) env.cwd p = true := by
      unfold is_directory
      rw [hstat1]
      rfl
    refine ⟨{ s with fs := (s.fs.insert (d ++ [name]) Node.dir env.now).erase (d ++ [name]) env.now },
      ?_, ?_, rfl, rfl, rfl⟩
    · unfold cmdRmdir
      simp only [hp1, hex1, hisdir1, hempty1, hremove, Bool.not_true, if_false]
      rfl
    · show ((s.fs.insert (d ++ [name]) Node.dir env.now).erase (d ++ [name]) env.now).tree = s.fs.tree
      rw [tree_erase, tree_insert, List.filter_append, tree_filter_absent s.fs _ hnone]
      simp

/-- A concrete instance: `mkdir new` then `rmdir new` in `/tmp/work`. -/
theorem mkdir_rmdir_round_trip_witness :
    ∃ s2, cmdRmdir env0 { s0 with fs := fs0.insert ["tmp", "work", "new"] Node.dir 100 } ["new"]
        = Result.returned s2
      ∧ s2.fs.tree = s0.fs.tree
      ∧ s2.output = s0.output ∧ s2.currentPath = s0.currentPath ∧ s2.input = s0.input :=
  mkdir_rmdir_round_trip env0 s0 { s0 with fs := fs0.insert ["tmp", "work", "new"] Node.dir 100 }
    "new" [] [] "/tmp/work/new" (by rfl) (by rfl) (by rfl) (by rfl)

/-- The round trip fails for a directory that is already there: `sub` is an
empty directory of `fs0`. Then
`mkdir sub` reports that it exists, `sub` is an empty directory when `rmdir sub`
runs, and `rmdir sub` removes it: the tree is not the tree before the `mkdir`. -/
theorem mkdir_rmdir_not_round_trip_when_present :
    ∃ s1 s2, cmdMkdir env0 s0 ["sub"] = Result.returned s1
      ∧ is_directory s1.fs env0.cwd "/tmp/work/sub" = true
      ∧ is_empty s1.fs env0.cwd "/tmp/work/sub" = Except.ok true
      ∧ cmdRmdir env0 s1 ["sub"] = Result.returned s2
      ∧ s2.fs.tree ≠ s0.fs.tree :=
  ⟨s0.println ("Directory already exists: " ++ "sub"),
   { (s0.println ("Directory already exists: " ++ "sub")) with
      fs := fs0.erase ["tmp", "work", "sub"] 100 },
   by rfl, by rfl, by rfl, by rfl, by decide⟩

/-! ## Frame lemmas: the filesystem -/

theorem cmdLs_fs (env : Env) (s : State) (args : List String) :
    (cmdLs env s args).state.fs = s.fs := by
  unfold cmdLs
  repeat' split
  all_goals rfl

theorem cmdStat_fs (env : Env) (s : State) (args : List String) :
    (cmdStat env s args).state.fs = s.fs := by
  unfold cmdStat
  repeat' split
  all_goals rfl

/-! ## A failing cd -/

/-- A concrete instance: a `cd` to a regular file, and a line that is not a `cd`. -/
theorem currentPath_only_changed_by_cd_witness :
    (handleCommand env0 s0 "cd f.txt").state.currentPath = "/tmp/work"
      ∧ (handleCommand env0 s0 "mkdir new").state.currentPath = "/tmp/work" :=
  ⟨currentPath_only_changed_by_cd env0 s0 "cd f.txt" (Or.inr (by rfl)),
   currentPath_only_changed_by_cd env0 s0 "mkdir new" (Or.inl (by decide))⟩

/-! ## The command loop -/

/-- C10, the failing input: with no `a` in the current directory, the line
`mkdir a/b` (first token not `exit`) does not return to the loop. The throwing
`create_directory` raises a `filesystem_error` that nothing catches, so
`handleCommand` ends the process, and `run` ends with input left unread. -/
theorem mkdir_missing_parent_terminates :
    (split "mkdir a/b").head? = some "mkdir"
      ∧ fs_exists s0.fs env0.cwd "/tmp/work/a" = false
      ∧ handleCommand env0 s0 "mkdir a/b"
          = Result.terminated ⟨"cannot create directory", Errno.ENOENT⟩ s0
      ∧ run env0 { s0 with input := ["mkdir a/b", "help"] }
          = some (Result.terminated ⟨"cannot create directory", Errno.ENOENT⟩
              { s0 with input := ["help"], output := promptText }) :=
  ⟨by rfl, by rfl, by rfl, by rfl⟩

/-! ## Well-formedness is kept by every command -/

theorem wellFormed_iff (fs : FS) :
    fs.wellFormed = true ↔ ∀ e ∈ fs.entries, e.path ≠ [] ∧ fs.isDir e.path.dropLast = true := by
  unfold FS.wellFormed
  rw [List.all_eq_true]
  constructor
  · intro h e he
    have := h e he
    rw [Bool.and_eq_true] at this
    exact ⟨by simpa using this.1, this.2⟩
  · intro h e he
    rw [Bool.and_eq_true]
    exact ⟨by simpa using (h e he).1, (h e he).2⟩

theorem wellFormed_insert (fs : FS) (d : CPath) (name : String) (n : Node) (now : Int)
    (hwf : fs.wellFormed = true) (hd : fs.isDir d = true) :
    (fs.insert (d ++ [name]) n now).wellFormed = true := by
  rw [wellFormed_iff] at hwf ⊢
  intro e he
  simp only [FS.insert, List.mem_append, List.mem_map, List.mem_singleton] at he
  rcases he with ⟨e0, he0, rfl⟩ | rfl
  · rw [touchIf_path]
    exact ⟨(hwf e0 he0).1, isDir_insert fs _ _ _ _ (hwf e0 he0).2⟩
  · refine ⟨by simp, ?_⟩
    simp only [List.dropLast_concat]
    exact isDir_insert fs _ _ _ _ hd

theorem wellFormed_erase (fs : FS) (q : CPath) (now : Int) (hwf : fs.wellFormed = true)
    (hq : ∀ e ∈ fs.entries, e.path ≠ q → e.path.dropLast ≠ q) :
    (fs.erase q now).wellFormed = true := by
  rw [wellFormed_iff] at hwf ⊢
  intro e he
  simp only [FS.erase, List.mem_map, List.mem_filter] at he
  obtain ⟨e0, ⟨he0, hne⟩, rfl⟩ := he
  have hne : e0.path ≠ q := by simpa using hne
  rw [touchIf_path]
  exact ⟨(hwf e0 he0).1, isDir_erase fs q _ now (hq e0 he0 hne) (hwf e0 he0).2⟩

theorem wellFormed_erase_file (fs : FS) (q : CPath) (now : Int) (hwf : fs.wellFormed = true)
    (hq : fs.isDir q = false) : (fs.erase q now).wellFormed = true := by
  apply wellFormed_erase fs q now hwf
  intro e he _ hpar
  have := ((wellFormed_iff fs).mp hwf e he).2
  rw [hpar, hq] at this
  cases this

theorem wellFormed_erase_empty (fs : FS) (q : CPath) (now : Int) (hwf : fs.wellFormed = true)
    (hq : fs.children q = []) : (fs.erase q now).wellFormed = true := by
  apply wellFormed_erase fs q now hwf
  intro e he _ hpar
  have hne := ((wellFormed_iff fs).mp hwf e he).1
  have : e ∈ fs.children q := by
    unfold FS.children
    rw [List.mem_filter]
    exact ⟨he, by simp [hne, hpar]⟩
  rw [hq] at this
  cases this

theorem wellFormed_truncate (fs : FS) (q : CPath) (now : Int) (hwf : fs.wellFormed = true)
    (hq : fs.isDir q = false) : (fs.truncate q now).wellFormed = true := by
  rw [wellFormed_iff] at hwf ⊢
  intro e he
  simp only [FS.truncate, List.mem_map] at he
  obtain ⟨e0, he0, rfl⟩ := he
  have hpath : (if e0.path = q then { e0 with node := Node.file [], mtime := now } else e0).path
      = e0.path := by
    split <;> rfl
  rw [hpath]
  exact ⟨(hwf e0 he0).1, isDir_truncate fs q _ now hq (hwf e0 he0).2⟩

theorem removeC_wellFormed (fs fs1 : FS) (cwd : CPath) (now : Int) (p : String)
    (hwf : fs.wellFormed = true) (h : removeC fs cwd now p = Except.ok fs1) :
    fs1.wellFormed = true := by
  obtain ⟨d, name, e, _, _, _, hfind, hkids, _, hfs⟩ := removeC_ok _ _ _ _ _ h
  rw [hfs]
  by_cases hd : e.node.isDir = true
  · exact wellFormed_erase_empty fs _ now hwf (hkids hd)
  · apply wellFormed_erase_file fs _ now hwf
    unfold FS.isDir
    rw [hfind]
    simpa using hd

theorem mkdirSys_wellFormed (fs fs1 : FS) (cwd : CPath) (now : Int) (p : String)
    (hwf : fs.wellFormed = true) (h : mkdirSys fs cwd now p = Except.ok fs1) :
    fs1.wellFormed = true := by
  obtain ⟨d, name, hl, _, _, _, hfs⟩ := mkdirSys_ok _ _ _ _ _ h
  obtain ⟨_, _, _, hd, _⟩ := lookupParent_ok _ _ _ _ _ hl
  rw [hfs]
  exact wellFormed_insert fs d name _ now hwf hd

theorem ofstream_open_wellFormed (fs fs1 : FS) (cwd : CPath) (now : Int) (p : String)
    (hwf : fs.wellFormed = true) (h : ofstream_open fs cwd now p = some fs1) :
    fs1.wellFormed = true := by
  unfold ofstream_open at h
  split at h
  · cases h
  · cases h
  · rename_i d name hl
    obtain ⟨_, _, _, hd, _⟩ := lookupParent_ok _ _ _ _ _ hl
    split at h
    · cases h
    · split at h
      · cases h
      · split at h
        · injection h with h
          rw [← h]
          exact wellFormed_insert fs d name _ now hwf hd
        · rename_i e hf
          split at h
          · rename_i content hnode
            injection h with h
            rw [← h]
            apply wellFormed_truncate fs _ now hwf
            unfold FS.isDir
            rw [hf]
            simp [hnode, Node.isDir]
          · cases h

/-- Every command that returns leaves a well-formed filesystem well-formed. -/
theorem handleCommand_wellFormed (env : Env) (s s1 : State) (line : String)
    (hwf : s.fs.wellFormed = true) (hret : handleCommand env s line = Result.returned s1) :
    s1.fs.wellFormed = true := by
  have hsame : ∀ r : Result, r.state.fs = s.fs →
      ∀ s2, r = Result.returned s2 → s2.fs.wellFormed = true := by
    intro r h s2 hr
    subst hr
    rw [show s2.fs = s.fs from h]
    exact hwf
  refine handleCommand_cases (fun r => ∀ s2, r = Result.returned s2 → s2.fs.wellFormed = true)
    env s line ?_ ?_ ?_ ?_ ?_ ?_ ?_ ?_ ?_ ?_ ?_ ?_ ?_ ?_ ?_ s1 hret
  · intro _; exact hsame _ rfl
  · intro args _
    apply hsame
    unfold cmdCd
    repeat' split
    all_goals rfl
  · intro args _; exact hsame _ (cmdLs_fs env s args)
  · intro args _ s2 h
    unfold cmdTouch at h
    split at h
    · injection h with h; subst h; exact hwf
    · split at h
      · cases h
      · split at h
        · injection h with h; subst h; exact hwf
        · split at h
          · rename_i fs1 hopen
            injection h with h
            subst h
            exact ofstream_open_wellFormed _ _ _ _ _ hwf hopen
          · injection h with h; subst h; exact hwf
  · intro args _ s2 h
    unfold cmdMkdir at h
    split at h
    · injection h with h; subst h; exact hwf
    · split at h
      · cases h
      · split at h
        · injection h with h; subst h; exact hwf
        · split at h
          · cases h
          · rename_i fs1 hc
            injection h with h
            subst h
            rcases create_directory_ok _ _ _ _ _ _ hc with ⟨hb, _⟩ | ⟨_, hsys⟩
            · cases hb
            · exact mkdirSys_wellFormed _ _ _ _ _ hwf hsys
          · rename_i fs1 hc
            injection h with h
            subst h
            rcases create_directory_ok _ _ _ _ _ _ hc with ⟨_, hfs⟩ | ⟨hb, _⟩
            · show fs1.wellFormed = true; rw [hfs]; exact hwf
            · cases hb
  · intro args _ s2 h
    unfold cmdRm at h
    split at h
    · injection h with h; subst h; exact hwf
    · split at h
      · cases h
      · split at h
        · injection h with h; subst h; exact hwf
        · split at h
          · injection h with h; subst h; exact hwf
          · split at h
            · injection h with h; subst h; exact hwf
            · split at h
              · split at h
                · cases h
                · rename_i fs1 hr
                  injection h with h
                  subst h
                  rcases remove_ok _ _ _ _ _ _ hr with ⟨hb, _⟩ | ⟨_, hrem⟩
                  · cases hb
                  · exact removeC_wellFormed _ _ _ _ _ hwf hrem
                · rename_i fs1 hr
                  injection h with h
                  subst h
                  rcases remove_ok _ _ _ _ _ _ hr with ⟨_, hfs⟩ | ⟨hb, _⟩
                  · show fs1.wellFormed = true; rw [hfs]; exact hwf
                  · cases hb
              · injection h with h; subst h; exact hwf
  · intro args _ s2 h
    unfold cmdRmdir at h
    split at h
    · injection h with h; subst h; exact hwf
    · split at h
      · cases h
      · split at h
        · injection h with h; subst h; exact hwf
        · split at h
          · injection h with h; subst h; exact hwf
          · split at h
            · cases h
            · injection h with h; subst h; exact hwf
            · split at h
              · cases h
              · rename_i fs1 hr
                injection h with h
                subst h
                rcases remove_ok _ _ _ _ _ _ hr with ⟨hb, _⟩ | ⟨_, hrem⟩
                · cases hb
                · exact removeC_wellFormed _ _ _ _ _ hwf hrem
              · rename_i fs1 hr
                injection h with h
                subst h
                rcases remove_ok _ _ _ _ _ _ hr with ⟨_, hfs⟩ | ⟨hb, _⟩
                · show fs1.wellFormed = true; rw [hfs]; exact hwf
                · cases hb
  · intro args _; exact hsame _ (cmdStat_fs env s args)
  · intro args _; exact hsame _ rfl
  · intro args _; exact hsame _ rfl
  · intro args _; exact hsame _ rfl
  · intro args _; exact hsame _ rfl
  · intro args _; exact hsame _ rfl
  · intro args _ s2 h; cases h
  · intro command args _ _ _ _; exact hsame _ rfl

/-! ## The loop ends -/

theorem cmdRm_input (env : Env) (s : State) (args : List String) :
    (cmdRm env s args).state.input.length ≤ s.input.length := by
  unfold cmdRm
  split
  · exact Nat.le_refl _
  · split
    · exact Nat.le_refl _
    · split
      · exact Nat.le_refl _
      · split
        · exact Nat.le_refl _
        · split
          · exact Nat.le_refl _
          · rename_i confirmation more hin
            rw [hin]
            repeat' split
            all_goals exact Nat.le_succ _

theorem handleCommand_input (env : Env) (s : State) (line : String) :
    (handleCommand env s line).state.input.length ≤ s.input.length := by
  refine handleCommand_cases (fun r => r.state.input.length ≤ s.input.length) env s line
    ?_ ?_ ?_ ?_ ?_ ?_ ?_ ?_ ?_ ?_ ?_ ?_ ?_ ?_ ?_
  · intro _; exact Nat.le_refl _
  · intro args _
    unfold cmdCd
    repeat' split
    all_goals exact Nat.le_refl _
  · intro args _
    unfold cmdLs
    repeat' split
    all_goals exact Nat.le_refl _
  · intro args _
    unfold cmdTouch
    repeat' split
    all_goals exact Nat.le_refl _
  · intro args _
    unfold cmdMkdir
    repeat' split
    all_goals exact Nat.le_refl _
  · intro args _; exact cmdRm_input env s args
  · intro args _
    unfold cmdRmdir
    repeat' split
    all_goals exact Nat.le_refl _
  · intro args _
    unfold cmdStat
    repeat' split
    all_goals exact Nat.le_refl _
  all_goals intros; exact Nat.le_refl _

theorem runLoop_isSome (env : Env) (n : Nat) :
    ∀ s : State, s.input.length < n → (runLoop env n s).isSome = true := by
  induction n with
  | zero => intro s h; exact absurd h (Nat.not_lt_zero _)
  | succ n ih =>
    intro s h
    unfold runLoop
    split
    · rfl
    · rename_i line more hin
      have hlen := handleCommand_input env { (s.print promptText) with input := more } line
      split
      · rename_i s2 hres
        apply ih
        rw [hres] at hlen
        rw [hin] at h
        exact Nat.lt_of_le_of_lt hlen (Nat.lt_of_succ_lt_succ h)
      · rfl
      · rfl

/-- The function `run` always ends: at the end of the input, in `exit`, or in
an uncaught exception. -/
theorem run_isSome (env : Env) (s : State) : (run env s).isSome = true :=
  runLoop_isSome env _ s (Nat.lt_succ_self _)

/-! ## ls with both sort flags -/

theorem lsRows_size (env : Env) (s : State) (args : List String) (hs : "-s" ∈ args) :
    lsRows env s args = lsRows env s ["-s"] := by
  have h1 : (lsFlags args).1 = true := by rw [lsFlags_size]; simpa using hs
  have h2 : (lsFlags ["-s"]).1 = true := by rfl
  unfold lsRows lsSort
  rw [h1, h2]
  simp only [if_true]

theorem lsRows_mem (env : Env) (s : State) (args : List String) (rows : List EntryInfo)
    (hrows : lsRows env s args = Except.ok rows) :
    ∀ r ∈ rows, ∃ e ∈ s.fs.entries, r = lsEntryInfo env e := by
  intro r hr
  unfold lsRows directory_iterator at hrows
  split at hrows
  · cases hrows
  · rename_i dirEntries hdi
    injection hrows with hrows
    subst hrows
    have hr2 := (lsSort_perm _ _ _).subset hr
    obtain ⟨e, he, rfl⟩ := List.mem_map.mp hr2
    refine ⟨e, ?_, rfl⟩
    split at hdi
    · split at hdi
      · injection hdi with hdi
        subst hdi
        exact (List.mem_filter.mp he).1
      · cases hdi
    · cases hdi

theorem lsEntryInfo_modifyTimePoint (env : Env) (e : Entry) :
    (lsEntryInfo env e).modifyTimePoint = e.mtime := by
  unfold lsEntryInfo
  split
  · rfl
  · split <;> rfl

/-- C15: only one sort is applied by `ls` and size wins. For every session and
every argument list that holds both `-s` and `-t`, in any order and among any
other arguments, `cmdLs` does exactly what it does for the single argument
`-s`; and when `-t` is among the arguments and `-s` is not, the rows it prints
are entries of the directory in descending order of modification time. -/
theorem ls_size_wins (env : Env) (s : State) (args : List String) :
    ("-s" ∈ args → "-t" ∈ args → cmdLs env s args = cmdLs env s ["-s"])
      ∧ ("-t" ∈ args → "-s" ∉ args → ∀ rows, lsRows env s args = Except.ok rows →
          cmdLs env s args = Result.returned (lsPrinted s rows)
            ∧ rows.Chain' (fun a b => a.modifyTimePoint ≥ b.modifyTimePoint)
            ∧ ∀ r ∈ rows, ∃ e ∈ s.fs.entries, r = lsEntryInfo env e
                ∧ r.modifyTimePoint = e.mtime) := by
  constructor
  · intro hs _
    unfold cmdLs
    rw [lsRows_size env s args hs]
  · intro ht hs rows hrows
    refine ⟨cmdLs_eq_of_rows env s args rows hrows, ?_, ?_⟩
    · unfold lsRows at hrows
      split at hrows
      · cases hrows
      · rename_i dirEntries _
        injection hrows with hrows
        subst hrows
        have h1 : (lsFlags args).1 = false := by rw [lsFlags_size]; simpa using hs
        have h2 : (lsFlags args).2 = true := by rw [lsFlags_time]; simpa using ht
        unfold lsSort
        rw [h1, h2]
        exact List.Pairwise.chain' (stdSort_descending (fun i : EntryInfo => i.modifyTimePoint) _)
    · intro r hr
      obtain ⟨e, he, hre⟩ := lsRows_mem env s args rows hrows r hr
      exact ⟨e, he, hre, by rw [hre]; exact lsEntryInfo_modifyTimePoint env e⟩

/-- A concrete instance: in `/tmp/work`, `ls -t x -s` prints what `ls -s`
prints (largest first), and `ls -t` lists the newest entry first. -/
theorem ls_size_wins_witness :
    cmdLs env0 s0 ["-t", "x", "-s"] = cmdLs env0 s0 ["-s"]
      ∧ (∃ rows, lsRows env0 s0 ["-t", "x", "-s"] = Except.ok rows
          ∧ rows.map (fun r => r.name) = ["f.txt", "sub/", "full/", "pipe"])
      ∧ ∃ rows, lsRows env0 s0 ["-t"] = Except.ok rows
          ∧ rows.map (fun r => (r.name, r.modifyTimePoint))
              = [("pipe", 80), ("full/", 60), ("sub/", 50), ("f.txt", 40)]
          ∧ cmdLs env0 s0 ["-t"] = Result.returned (lsPrinted s0 rows)
          ∧ rows.Chain' (fun a b => a.modifyTimePoint ≥ b.modifyTimePoint) :=
  ⟨(ls_size_wins env0 s0 ["-t", "x", "-s"]).1 (by simp) (by simp),
   ⟨_, rfl, by rfl⟩,
   ⟨_, rfl, by rfl,
    ((ls_size_wins env0 s0 ["-t"]).2 (by simp) (by decide) _ rfl).1,
    ((ls_size_wins env0 s0 ["-t"]).2 (by simp) (by decide) _ rfl).2.1⟩⟩

/-! ## The tokenizer -/

theorem splitChars_nil (word : List Char) :
    splitChars [] word = if word = [] then [] else [String.mk word] := by
  rw [splitChars]

theorem splitChars_cons (c : Char) (cs word : List Char) :
    splitChars (c :: cs) word
      = if isSpace c then
          if word = [] then splitChars cs [] else String.mk word :: splitChars cs []
        else splitChars cs (word ++ [c]) := by
  rw [splitChars]

theorem splitChars_eq_go (cs : List Char) :
    ∀ word : List Char, splitChars cs word
      = ((List.splitOnP.go isSpace cs word.reverse).filter (fun run => !run.isEmpty)).map
          String.mk := by
  induction cs with
  | nil =>
    intro word
    rw [splitChars_nil, List.splitOnP.go, List.reverse_reverse]
    cases word <;> simp
  | cons c cs ih =>
    intro word
    rw [splitChars_cons, List.splitOnP.go]
    by_cases hc : isSpace c = true
    · rw [if_pos hc, if_pos hc, List.reverse_reverse, ih []]
      cases word <;> simp
    · rw [if_neg hc, if_neg hc, ih (word ++ [c])]
      simp

theorem splitChars_tokens (cs : List Char) :
    ∀ word : List Char, (∀ c ∈ word, isSpace c = false) →
      ∀ t ∈ splitChars cs word, t.data ≠ [] ∧ ∀ c ∈ t.data, isSpace c = false := by
  induction cs with
  | nil =>
    intro word hword t ht
    rw [splitChars_nil] at ht
    split at ht
    · cases ht
    · rename_i hne
      rw [List.mem_singleton] at ht
      subst ht
      exact ⟨hne, hword⟩
  | cons c cs ih =>
    intro word hword t ht
    rw [splitChars_cons] at ht
    by_cases hc : isSpace c = true
    · rw [if_pos hc] at ht
      split at ht
      · exact ih [] (fun _ h => by cases h) t ht
      · rename_i hne
        rcases List.mem_cons.mp ht with rfl | ht
        · exact ⟨hne, hword⟩
        · exact ih [] (fun _ h => by cases h) t ht
    · rw [if_neg hc] at ht
      apply ih (word ++ [c]) _ t ht
      intro x hx
      rcases List.mem_append.mp hx with hx | hx
      · exact hword x hx
      · rw [List.mem_singleton] at hx
        subst hx
        simpa using hc

theorem splitChars_flatten (cs : List Char) :
    ∀ word : List Char, ((splitChars cs word).map String.data).flatten
      = word ++ cs.filter (fun c => !isSpace c) := by
  induction cs with
  | nil =>
    intro word
    rw [splitChars_nil]
    split
    · rename_i h; simp [h]
    · simp
  | cons c cs ih =>
    intro word
    rw [splitChars_cons]
    by_cases hc : isSpace c = true
    · rw [if_pos hc]
      split
      · rename_i h
        rw [ih []]
        simp [h, hc]
      · rw [List.map_cons, List.flatten_cons, ih []]
        simp [hc]
    · rw [if_neg hc, ih (word ++ [c])]
      simp [hc]

/-- C12: `split` gives exactly the maximal runs of non-whitespace characters.
For every line, `split line` is the list of the line's maximal runs of
non-whitespace characters in order of occurrence; so no token is empty, no
token holds a whitespace character, the tokens put together are the line
without its whitespace, and a line of whitespace only gives no token. The two
examples of the header hold. -/
theorem split_maximal_runs (line : String) :
    split line = (maximalRuns line.data).map String.mk
      ∧ (∀ t ∈ split line, t ≠ "" ∧ ∀ c ∈ t.data, isSpace c = false)
      ∧ ((split line).map String.data).flatten = line.data.filter (fun c => !isSpace c)
      ∧ ((∀ c ∈ line.data, isSpace c = true) → split line = [])
      ∧ split "cd ../test" = ["cd", "../test"]
      ∧ split "ls -s" = ["ls", "-s"]
      ∧ split "  touch \t a.txt  " = ["touch", "a.txt"] := by
  have htok := splitChars_tokens line.data [] (fun _ h => by cases h)
  have hflat := splitChars_flatten line.data []
  refine ⟨?_, ?_, ?_, ?_, by rfl, by rfl, by rfl⟩
  · unfold split maximalRuns List.splitOnP
    exact splitChars_eq_go line.data []
  · intro t ht
    obtain ⟨h1, h2⟩ := htok t ht
    refine ⟨?_, h2⟩
    intro h
    rw [h] at h1
    exact h1 rfl
  · simpa using hflat
  · intro hall
    unfold split
    cases hs : splitChars line.data [] with
    | nil => rfl
    | cons t ts =>
      exfalso
      have hmem : t ∈ splitChars line.data [] := by rw [hs]; exact List.mem_cons_self _ _
      obtain ⟨h1, h2⟩ := htok t hmem
      rw [hs] at hflat
      have hc : ∀ c ∈ t.data, c ∈ line.data.filter (fun c => !isSpace c) := by
        intro c hc
        have : c ∈ ((t :: ts).map String.data).flatten := by
          simp only [List.map_cons, List.flatten_cons, List.mem_append]
          exact Or.inl hc
        rw [hflat] at this
        simpa using this
      cases htd : t.data with
      | nil => exact h1 htd
      | cons c rest =>
        have hcm : c ∈ t.data := by rw [htd]; exact List.mem_cons_self _ _
        have h3 := hc c hcm
        rw [List.mem_filter] at h3
        have h4 := hall c h3.1
        have h5 := h2 c hcm
        rw [h4] at h5
        cases h5

/-! ## mkdir and the parent directory -/

theorem lookupParent_no_parent (fs : FS) (cwd : CPath) (p : String)
    (hts : trailingSlash p = false) (hpar : parentExists fs cwd p = false) :
    ∃ e, lookupParent fs cwd p = Except.error e := by
  unfold lookupParent
  by_cases hp : p.data = []
  · rw [if_pos hp]
    exact ⟨_, rfl⟩
  · rw [if_neg hp]
    obtain ⟨last, hlast, hsnoc⟩ := components_eq_snoc p
    have hne : last ≠ "" := by
      unfold trailingSlash at hts
      rw [hlast] at hts
      simpa using hts
    have hdrop : dropTrailingEmpty (components p) = components p := by
      conv_lhs => rw [hsnoc]
      rw [dropTrailingEmpty_snoc _ _ hne]
      exact hsnoc.symm
    rw [hdrop, hlast]
    simp only
    unfold parentExists at hpar
    rw [if_neg hp] at hpar
    cases hw : walk fs (startOf cwd p) (components p).dropLast with
    | error e => exact ⟨e, rfl⟩
    | ok d =>
      rw [hw] at hpar
      simp only at hpar
      simp only [hpar]
      exact ⟨_, rfl⟩

theorem create_directory_no_parent (fs : FS) (cwd : CPath) (now : Int) (p : String)
    (hne : fs_exists fs cwd p = false) (e : Errno)
    (hl : lookupParent fs cwd p = Except.error e) :
    create_directory fs cwd now p = Except.error ⟨"cannot create directory", e⟩ := by
  have hsys : mkdirSys fs cwd now p = Except.error e := by
    unfold mkdirSys
    rw [hl]
  unfold create_directory
  rw [hsys]
  simp only [is_directory_false_of_not_exists fs cwd p hne]
  rw [if_neg (fun h => Bool.noConfusion h.2)]

/-- C11, what `cmdMkdir` does: with `p` the path it makes of the name and `p`
not existing. When the parent directory of `p` does not exist (and `p` has no
trailing slash), `cmdMkdir` creates nothing, prints nothing and does not return:
the `filesystem_error` of `create_directory` ends the process. When the parent
directory exists (in a well-formed filesystem), `cmdMkdir` returns, prints
nothing and adds exactly one entry, the directory at the path `p` resolves to. -/
theorem mkdir_one_level (env : Env) (s : State) (dirname : String) (rest : List String)
    (p : String) (hp : operandPath env s dirname = Except.ok p)
    (hne : fs_exists s.fs env.cwd p = false) :
    (trailingSlash p = false → parentExists s.fs env.cwd p = false →
        ∃ e, cmdMkdir env s (dirname :: rest)
          = Result.terminated ⟨"cannot create directory", e⟩ s)
      ∧ (s.fs.wellFormed = true → parentExists s.fs env.cwd p = true →
          ∃ s1 q, cmdMkdir env s (dirname :: rest) = Result.returned s1
            ∧ s1.currentPath = s.currentPath ∧ s1.input = s.input ∧ s1.output = s.output
            ∧ s1.fs.tree = s.fs.tree ++ [(q, Node.dir)]
            ∧ resolve s1.fs env.cwd p = Except.ok q) := by
  constructor
  · intro hts hpar
    obtain ⟨e, hl⟩ := lookupParent_no_parent s.fs env.cwd p hts hpar
    refine ⟨e, ?_⟩
    unfold cmdMkdir
    simp only [hp, hne, create_directory_no_parent s.fs env.cwd env.now p hne e hl]
    rfl
  · intro hwf hpar
    obtain ⟨hpd, d, hinit, hd⟩ := parentExists_ok s.fs env.cwd p hpar
    obtain ⟨name, hsnoc, h0, h1, h2, hl, _, hres⟩ :=
      last_component_proper s.fs env.cwd p d hwf hpd hinit hd
        (is_directory_false_of_not_exists _ _ _ hne)
    have hnone : s.fs.find (d ++ [name]) = none := by
      cases hf : s.fs.find (d ++ [name]) with
      | none => rfl
      | some e =>
        rw [hf] at hres
        have := fs_exists_of_stat _ _ _ e (stat_of_resolve _ _ _ _ e hres hf)
        rw [hne] at this
        cases this
    have hsys : mkdirSys s.fs env.cwd env.now p
        = Except.ok (s.fs.insert (d ++ [name]) Node.dir env.now) := by
      unfold mkdirSys
      rw [hl]
      simp only [h1, h2, or_self, if_false, hnone]
      rfl
    have hcreate : create_directory s.fs env.cwd env.now p
        = Except.ok (true, s.fs.insert (d ++ [name]) Node.dir env.now) := by
      unfold create_directory
      rw [hsys]
    have hfind1 := find_insert_new s.fs (d ++ [name]) Node.dir env.now hnone
    have hres1 : resolve (s.fs.insert (d ++ [name]) Node.dir env.now) env.cwd p
        = Except.ok (d ++ [name]) := by
      rw [resolve_snoc _ env.cwd p name d hpd hsnoc
        (walk_preserved s.fs _ _ _ d hinit hd (fun x _ hx => isDir_insert s.fs _ x _ _ hx)),
        walk_step_name _ d name (isDir_insert s.fs _ d _ _ hd) h0 h1 h2, hfind1]
      rfl
    refine ⟨{ s with fs := s.fs.insert (d ++ [name]) Node.dir env.now }, d ++ [name],
      ?_, rfl, rfl, rfl, tree_insert _ _ _ _, hres1⟩
    unfold cmdMkdir
    simp only [hp, hne, hcreate]
    rfl

/-- A concrete instance, the failing input: in `/tmp/work` without an entry
`a`, `mkdir a/b` ends the process with nothing printed and nothing created;
`mkdir sub/new`, whose parent exists, adds the one directory. -/
theorem mkdir_one_level_witness :
    fs_exists s0.fs env0.cwd "/tmp/work/a/b" = false
      ∧ parentExists s0.fs env0.cwd "/tmp/work/a/b" = false
      ∧ (∃ e, cmdMkdir env0 s0 ["a/b"] = Result.terminated ⟨"cannot create directory", e⟩ s0)
      ∧ cmdMkdir env0 s0 ["a/b"]
          ≠ Result.returned (s0.println ("Failed to create directory: " ++ "a/b"))
      ∧ ∃ s1 q, cmdMkdir env0 s0 ["sub/new"] = Result.returned s1
          ∧ s1.currentPath = s0.currentPath ∧ s1.input = s0.input ∧ s1.output = s0.output
          ∧ s1.fs.tree = s0.fs.tree ++ [(q, Node.dir)]
          ∧ resolve s1.fs env0.cwd "/tmp/work/sub/new" = Except.ok q :=
  ⟨by rfl, by rfl,
   (mkdir_one_level env0 s0 "a/b" [] "/tmp/work/a/b" (by rfl) (by rfl)).1 (by rfl) (by rfl),
   (fun h => Result.noConfusion
      ((show cmdMkdir env0 s0 ["a/b"]
          = Result.terminated ⟨"cannot create directory", Errno.ENOENT⟩ s0 from by rfl).symm.trans h)),
   (mkdir_one_level env0 s0 "sub/new" [] "/tmp/work/sub/new" (by rfl) (by rfl)).2
    (by rfl) (by rfl)⟩

/-! ## Absolute paths -/

theorem is_absolute_iff (p : String) : is_absolute p = true ↔ ∃ t, p.data = '/' :: t := by
  unfold is_absolute
  constructor
  · intro h
    split at h
    · rename_i t heq
      exact ⟨t, heq⟩
    · cases h
  · rintro ⟨t, ht⟩
    rw [ht]
    rfl

theorem is_absolute_append (a b : String) (h : is_absolute a = true) :
    is_absolute (a ++ b) = true := by
  rw [is_absolute_iff] at h ⊢
  obtain ⟨t, ht⟩ := h
  exact ⟨t ++ b.data, by rw [String.data_append, ht]; rfl⟩

theorem is_absolute_render (c : CPath) : is_absolute (render c) = true := by
  unfold render
  split
  · rfl
  · rename_i hc
    cases c with
    | nil => exact absurd rfl hc
    | cons n ns =>
      rw [is_absolute_iff]
      refine ⟨n.data ++ (String.join (ns.map (fun n => "/" ++ n))).data, ?_⟩
      simp [String.data_join]

theorem is_absolute_pathAppend (lhs rhs : String) (h : is_absolute lhs = true) :
    is_absolute (pathAppend lhs rhs) = true := by
  unfold pathAppend
  split
  · rename_i hr; exact hr
  · split
    · exact is_absolute_append lhs rhs h
    · exact is_absolute_append _ rhs (is_absolute_append lhs "/" h)

theorem current_path_is_absolute (fs : FS) (cwd : CPath) (c : String)
    (h : current_path fs cwd = Except.ok c) : is_absolute c = true := by
  unfold current_path at h
  split at h
  · injection h with h
    rw [← h]; exact is_absolute_render cwd
  · cases h

theorem absolute_is_absolute (fs : FS) (cwd : CPath) (x p : String)
    (h : absolute fs cwd x = Except.ok p) : is_absolute p = true := by
  unfold absolute at h
  split at h
  · cases h
  · split at h
    · rename_i ha
      injection h with h
      rw [← h]; exact ha
    · split at h
      · rename_i c hc
        injection h with h
        rw [← h]
        exact is_absolute_pathAppend _ _ (current_path_is_absolute fs cwd c hc)
      · cases h

theorem canonical_is_absolute (fs : FS) (cwd : CPath) (x p : String)
    (h : canonical fs cwd x = Except.ok p) : is_absolute p = true := by
  unfold canonical at h
  split at h
  · injection h with h
    rw [← h]; exact is_absolute_render _
  · cases h

theorem cdNewPath_is_absolute (env : Env) (s : State) (token p : String)
    (hhome : ∀ h, env.home = some h → is_absolute h = true)
    (h : cdNewPath env s token = CdTarget.path p) : is_absolute p = true := by
  unfold cdNewPath at h
  split at h
  · split at h
    · cases h
    · rename_i homeDir hh
      injection h with h
      rw [← h]; exact hhome homeDir hh
  · split at h
    · cases h
    · rename_i newPath ha
      have hab := absolute_is_absolute _ _ _ _ ha
      split at h
      · split at h
        · rename_i c hc
          injection h with h
          rw [← h]; exact canonical_is_absolute _ _ _ _ hc
        · injection h with h
          rw [← h]; exact hab
      · injection h with h
        rw [← h]; exact hab

theorem cmdCd_currentPath (env : Env) (s : State) (args : List String)
    (hhome : ∀ h, env.home = some h → is_absolute h = true) :
    (cmdCd env s args).state.currentPath = s.currentPath
      ∨ is_absolute (cmdCd env s args).state.currentPath = true := by
  unfold cmdCd
  split
  · exact Or.inl rfl
  · split
    · exact Or.inl rfl
    · exact Or.inl rfl
    · rename_i newPath hres
      split
      · exact Or.inl rfl
      · split
        · exact Or.inl rfl
        · exact Or.inr (cdNewPath_is_absolute env s _ newPath hhome hres)

/-- C14 as amended: when `HOME`, if set, is an absolute path. Right after a
construction that returns, `currentPath` is absolute for the default start and
for every absolute initial-directory argument; every command line keeps an
absolute `currentPath` absolute; and every `cd` leaves `currentPath` either as
it was or absolute. -/
theorem currentPath_absolute (env : Env)
    (hhome : ∀ h, env.home = some h → is_absolute h = true) :
    (∀ fs input initialPath s, construct env fs input initialPath = Result.returned s →
        initialPath.data = [] ∨ is_absolute initialPath = true →
        is_absolute s.currentPath = true)
      ∧ (∀ s line, is_absolute s.currentPath = true →
          is_absolute (handleCommand env s line).state.currentPath = true)
      ∧ (∀ s args, (cmdCd env s args).state.currentPath = s.currentPath
          ∨ is_absolute (cmdCd env s args).state.currentPath = true) := by
  refine ⟨?_, ?_, fun s args => cmdCd_currentPath env s args hhome⟩
  · intro fs input initialPath s hc harg
    unfold construct at hc
    split at hc
    · split at hc
      · rename_i c hcur
        injection hc with hc
        subst hc
        exact current_path_is_absolute _ _ _ hcur
      · cases hc
    · rename_i hne
      split at hc
      · cases hc
      · split at hc
        · cases hc
        · injection hc with hc
          subst hc
          rcases harg with harg | harg
          · exact absurd harg hne
          · exact harg
  · intro s line habs
    refine handleCommand_cases (fun r => is_absolute r.state.currentPath = true) env s line
      ?_ ?_ ?_ ?_ ?_ ?_ ?_ ?_ ?_ ?_ ?_ ?_ ?_ ?_ ?_
    · intro _; exact habs
    · intro args _
      rcases cmdCd_currentPath env s args hhome with h | h
      · rw [h]; exact habs
      · exact h
    · intro args _; rw [cmdLs_currentPath]; exact habs
    · intro args _; rw [cmdTouch_currentPath]; exact habs
    · intro args _; rw [cmdMkdir_currentPath]; exact habs
    · intro args _; rw [cmdRm_currentPath]; exact habs
    · intro args _; rw [cmdRmdir_currentPath]; exact habs
    · intro args _; rw [cmdStat_currentPath]; exact habs
    all_goals intros; exact habs

/-- A concrete instance: the default start in `/tmp/work`, the argument
`/tmp/work/sub`, and `cd ..` from there. -/
theorem currentPath_absolute_witness :
    (construct env0 fs0 [] "").state.currentPath = "/tmp/work"
      ∧ is_absolute (construct env0 fs0 [] "").state.currentPath = true
      ∧ is_absolute (construct env0 fs0 [] "/tmp/work/sub").state.currentPath = true
      ∧ is_absolute (handleCommand env0 s0 "cd ..").state.currentPath = true :=
  ⟨by rfl,
   (currentPath_absolute env0 (fun h hh => by
      have : h = "/home/u" := by injection hh with hh; exact hh.symm
      rw [this]; rfl)).1 fs0 [] "" _ (by rfl) (Or.inl rfl),
   (currentPath_absolute env0 (fun h hh => by
      have : h = "/home/u" := by injection hh with hh; exact hh.symm
      rw [this]; rfl)).1 fs0 [] "/tmp/work/sub" _ (by rfl) (Or.inr (by rfl)),
   (currentPath_absolute env0 (fun h hh => by
      have : h = "/home/u" := by injection hh with hh; exact hh.symm
      rw [this]; rfl)).2.1 s0 "cd .." (by rfl)⟩

/-- The constructor keeps a relative argument as it is: started in `/tmp/work`
with the argument `sub` (an existing directory), and likewise with `.`, the
construction returns and `currentPath` is the relative path given. -/
theorem construct_keeps_relative_argument :
    (∃ s, construct env0 fs0 [] "sub" = Result.returned s
        ∧ s.currentPath = "sub" ∧ is_absolute s.currentPath = false
        ∧ s.output = "Current Directory: sub\n")
      ∧ ∃ s, construct env0 fs0 [] "." = Result.returned s
        ∧ s.currentPath = "." ∧ is_absolute s.currentPath = false :=
  ⟨⟨_, rfl, by rfl, by rfl, by rfl⟩, ⟨_, rfl, by rfl, by rfl⟩⟩

/-! ## The canonical path string resolves to its entry -/

namespace Posix

/-! ## Lookups after a change of the filesystem -/

theorem touched_path (d : CPath) (now : Int) (e : Entry) : (e.touchIf d now).path = e.path := by
  unfold Entry.touchIf
  split <;> rfl

theorem touched_node (d : CPath) (now : Int) (e : Entry) : (e.touchIf d now).node = e.node := by
  unfold Entry.touchIf
  split <;> rfl

theorem touched_perm (d : CPath) (now : Int) (e : Entry) : (e.touchIf d now).perm = e.perm := by
  unfold Entry.touchIf
  split <;> rfl

theorem find?_touched (l : List Entry) (d c : CPath) (now : Int) :
    (l.map (Entry.touchIf d now)).find? (fun e => decide (e.path = c))
      = (l.find? (fun e => decide (e.path = c))).map (Entry.touchIf d now) := by
  induction l with
  | nil => rfl
  | cons e l ih =>
    simp only [List.map_cons, List.find?_cons, touched_path]
    split
    · rfl
    · exact ih

theorem find?_filter_ne (l : List Entry) (q c : CPath) (h : c ≠ q) :
    (l.filter (fun e => decide (e.path ≠ q))).find? (fun e => decide (e.path = c))
      = l.find? (fun e => decide (e.path = c)) := by
  induction l with
  | nil => rfl
  | cons e l ih =>
    by_cases hq : e.path = q
    · have hc : ¬ e.path = c := fun hc => h (hc.symm.trans hq)
      rw [List.filter_cons_of_neg (by simpa using hq), List.find?_cons_of_neg _ (by simpa using hc)]
      exact ih
    · rw [List.filter_cons_of_pos (by simpa using hq)]
      simp only [List.find?_cons]
      split
      · rfl
      · exact ih

theorem find?_filter_self (l : List Entry) (q : CPath) :
    (l.filter (fun e => decide (e.path ≠ q))).find? (fun e => decide (e.path = q)) = none := by
  rw [List.find?_eq_none]
  intro e he
  have := (List.mem_filter.mp he).2
  simpa using this

theorem view_some (fs : FS) (c : CPath) (v : Kind × Perm) (h : fs.view c = some v) :
    ∃ e, fs.find c = some e ∧ v = (e.node.kind, e.perm) := by
  unfold FS.view at h
  cases hf : fs.find c with
  | none => rw [hf] at h; cases h
  | some e =>
    rw [hf] at h
    injection h with h
    exact ⟨e, rfl, h.symm⟩

theorem view_of_find (fs : FS) (c : CPath) (e : Entry) (h : fs.find c = some e) :
    fs.view c = some (e.node.kind, e.perm) := by
  unfold FS.view
  rw [h]

theorem find_insert_kept (fs : FS) (q c : CPath) (n : Node) (p : Perm) (now : Int) (e : Entry)
    (h : fs.find c = some e) :
    ∃ e1, (fs.insert q n p now).find c = some e1 ∧ e1.node = e.node ∧ e1.perm = e.perm := by
  unfold FS.find at h ⊢
  split
  · rename_i hc
    rw [if_pos hc] at h
    injection h with h
    exact ⟨_, rfl, by rw [← h], by rw [← h]; rfl⟩
  · rename_i hc
    rw [if_neg hc] at h
    refine ⟨e.touchIf q.dropLast now, ?_, touched_node _ _ _, touched_perm _ _ _⟩
    simp only [FS.insert, List.find?_append, find?_touched, h, Option.map_some']
    rfl

theorem find_erase_other (fs : FS) (q c : CPath) (now : Int) (e : Entry) (hne : c ≠ q)
    (h : fs.find c = some e) :
    ∃ e1, (fs.erase q now).find c = some e1 ∧ e1.node = e.node ∧ e1.perm = e.perm := by
  unfold FS.find at h ⊢
  split
  · rename_i hc
    rw [if_pos hc] at h
    injection h with h
    exact ⟨_, rfl, by rw [← h], by rw [← h]; rfl⟩
  · rename_i hc
    rw [if_neg hc] at h
    refine ⟨e.touchIf q.dropLast now, ?_, touched_node _ _ _, touched_perm _ _ _⟩
    simp only [FS.erase, find?_touched, find?_filter_ne _ _ _ hne, h, Option.map_some']

theorem find_erase_gone (fs : FS) (q : CPath) (now : Int) (hq : q ≠ []) :
    (fs.erase q now).find q = none := by
  unfold FS.find
  rw [if_neg hq]
  simp only [FS.erase, find?_touched, find?_filter_self, Option.map_none']

/-- The entry that `truncate` leaves in the place of `e`. -/
theorem find?_truncated (l : List Entry) (q c : CPath) (now : Int) :
    ∀ e, l.find? (fun e => decide (e.path = c)) = some e →
      ∃ e1, (l.map (fun e =>
          if e.path = q then
            match e.node with
            | Node.file _ => { e with node := Node.file [], mtime := now }
            | _ => e
          else e)).find? (fun e => decide (e.path = c)) = some e1
        ∧ e1.node.kind = e.node.kind ∧ e1.perm = e.perm := by
  induction l with
  | nil => intro e h; cases h
  | cons a l ih =>
    intro e h
    simp only [List.map_cons, List.find?_cons] at h ⊢
    by_cases ha : a.path = c
    · have hd : decide (a.path = c) = true := by simpa using ha
      rw [hd] at h
      injection h with h
      subst h
      by_cases hq : a.path = q
      · rw [if_pos hq]
        cases hn : a.node with
        | file content =>
          refine ⟨{ a with node := Node.file [], mtime := now }, ?_, ?_, rfl⟩
          · simp [ha]
          · simp [Node.kind]
        | dir => exact ⟨a, by simp [ha], by rw [hn], rfl⟩
        | special => exact ⟨a, by simp [ha], by rw [hn], rfl⟩
        | symlink t => exact ⟨a, by simp [ha], by rw [hn], rfl⟩
      · rw [if_neg hq]
        exact ⟨a, by simp [ha], rfl, rfl⟩
    · have hd : decide (a.path = c) = false := by simpa using ha
      rw [hd] at h
      obtain ⟨e1, h1, h2⟩ := ih e h
      refine ⟨e1, ?_, h2⟩
      have hpath : (if a.path = q then
            match a.node with
            | Node.file _ => { a with node := Node.file [], mtime := now }
            | _ => a
          else a).path = a.path := by
        split
        · split <;> rfl
        · rfl
      rw [hpath, hd]
      exact h1

theorem find_truncate_kept (fs : FS) (q c : CPath) (now : Int) (e : Entry)
    (h : fs.find c = some e) :
    ∃ e1, (fs.truncate q now).find c = some e1 ∧ e1.node.kind = e.node.kind ∧ e1.perm = e.perm := by
  unfold FS.find at h ⊢
  split
  · rename_i hc
    rw [if_pos hc] at h
    injection h with h
    exact ⟨_, rfl, by rw [← h], by rw [← h]; rfl⟩
  · rename_i hc
    rw [if_neg hc] at h
    exact find?_truncated fs.entries q c now e h

theorem viewsKept_refl (fs : FS) : ViewsKept fs fs := fun _ _ h => h

theorem viewKept_of_all (T : List CPath) (fs fs1 : FS) (h : ViewsKept fs fs1) :
    ViewKept T fs fs1 := fun x _ v hv => h x v hv

theorem viewKept_mono (T U : List CPath) (fs fs1 : FS) (h : ViewKept T fs fs1)
    (hsub : ∀ x ∈ U, x ∈ T) : ViewKept U fs fs1 := fun x hx v hv => h x (hsub x hx) v hv

theorem viewsKept_insert (fs : FS) (q : CPath) (n : Node) (p : Perm) (now : Int) :
    ViewsKept fs (fs.insert q n p now) := by
  intro x v hv
  obtain ⟨e, he, rfl⟩ := view_some fs x v hv
  obtain ⟨e1, h1, h2, h3⟩ := find_insert_kept fs q x n p now e he
  rw [view_of_find _ _ _ h1, h2, h3]

theorem viewsKept_truncate (fs : FS) (q : CPath) (now : Int) :
    ViewsKept fs (fs.truncate q now) := by
  intro x v hv
  obtain ⟨e, he, rfl⟩ := view_some fs x v hv
  obtain ⟨e1, h1, h2, h3⟩ := find_truncate_kept fs q x now e he
  rw [view_of_find _ _ _ h1, h2, h3]

theorem viewKept_erase (T : List CPath) (fs : FS) (q : CPath) (now : Int) (hq : q ∉ T) :
    ViewKept T fs (fs.erase q now) := by
  intro x hx v hv
  have hne : x ≠ q := fun h => hq (h ▸ hx)
  obtain ⟨e, he, rfl⟩ := view_some fs x v hv
  obtain ⟨e1, h1, h2, h3⟩ := find_erase_other fs q x now e hne he
  rw [view_of_find _ _ _ h1, h2, h3]

/-! ## Path resolution looks only at the positions of its trail -/

theorem walkSeg_none (fs : FS) (cur : CPath) (c : String) (cs : List String)
    (h : fs.view cur = none) : walkSeg fs cur (c :: cs) = Seg.fail Errno.ENOENT := by
  rw [walkSeg, h]

theorem walkSeg_notdir (fs : FS) (cur : CPath) (c : String) (cs : List String)
    (kind : Kind) (perm : Perm) (h : fs.view cur = some (kind, perm)) (hk : kind ≠ Kind.dir) :
    walkSeg fs cur (c :: cs) = Seg.fail Errno.ENOTDIR := by
  rw [walkSeg, h]
  cases kind with
  | dir => exact absurd rfl hk
  | file => rfl
  | special => rfl
  | symlink t => rfl

theorem walkSeg_dir (fs : FS) (cur : CPath) (c : String) (cs : List String) (perm : Perm)
    (h : fs.view cur = some (Kind.dir, perm)) :
    walkSeg fs cur (c :: cs) =
      if c = "" then walkSeg fs cur cs
      else if perm.x = false then Seg.fail Errno.EACCES
      else if c = "." then walkSeg fs cur cs
      else if c = ".." then walkSeg fs cur.dropLast cs
      else if NAME_MAX < c.utf8ByteSize then Seg.fail Errno.ENAMETOOLONG
      else
        match fs.view (cur ++ [c]) with
        | none => Seg.fail Errno.ENOENT
        | some (Kind.symlink target, _) => Seg.link cur target cs
        | some _ => walkSeg fs (cur ++ [c]) cs := by
  rw [walkSeg, h]

theorem segTrail_dir (fs : FS) (cur : CPath) (c : String) (cs : List String) (perm : Perm)
    (h : fs.view cur = some (Kind.dir, perm)) :
    segTrail fs cur (c :: cs) =
      cur ::
        (if c = "" then segTrail fs cur cs
        else if perm.x = false then []
        else if c = "." then segTrail fs cur cs
        else if c = ".." then segTrail fs cur.dropLast cs
        else if NAME_MAX < c.utf8ByteSize then []
        else
          (cur ++ [c]) ::
            match fs.view (cur ++ [c]) with
            | none => []
            | some (Kind.symlink _, _) => []
            | some _ => segTrail fs (cur ++ [c]) cs) := by
  rw [segTrail, h]

theorem segTrail_head (fs : FS) (cur : CPath) (c : String) (cs : List String) :
    cur ∈ segTrail fs cur (c :: cs) := by
  rw [segTrail]
  exact List.mem_cons_self _ _

theorem walkSeg_kept (fs fs1 : FS) : ∀ (comps : List String) (cur : CPath),
    ViewKept (segTrail fs cur comps) fs fs1 → (∀ e, walkSeg fs cur comps ≠ Seg.fail e) →
    walkSeg fs1 cur comps = walkSeg fs cur comps
      ∧ segTrail fs1 cur comps = segTrail fs cur comps := by
  intro comps
  induction comps with
  | nil => intro cur _ _; exact ⟨rfl, rfl⟩
  | cons c cs ih =>
    intro cur hk hok
    cases hv : fs.view cur with
    | none => exact absurd (walkSeg_none fs cur c cs hv) (hok _)
    | some v =>
      obtain ⟨kind, perm⟩ := v
      by_cases hkind : kind = Kind.dir
      · subst hkind
        have hv1 := hk cur (segTrail_head fs cur c cs) _ hv
        rw [walkSeg_dir fs cur c cs perm hv] at hok ⊢
        rw [segTrail_dir fs cur c cs perm hv] at hk ⊢
        rw [walkSeg_dir fs1 cur c cs perm hv1, segTrail_dir fs1 cur c cs perm hv1]
        by_cases h1 : c = ""
        · rw [if_pos h1] at hok hk ⊢
          rw [if_pos h1, if_pos h1, if_pos h1]
          obtain ⟨a, b⟩ := ih cur (viewKept_mono _ _ _ _ hk (fun x hx => List.mem_cons_of_mem _ hx)) hok
          exact ⟨a, by rw [b]⟩
        · rw [if_neg h1] at hok hk ⊢
          rw [if_neg h1, if_neg h1, if_neg h1]
          by_cases h2 : perm.x = false
          · rw [if_pos h2] at hok
            exact absurd rfl (hok _)
          · rw [if_neg h2] at hok hk ⊢
            rw [if_neg h2, if_neg h2, if_neg h2]
            by_cases h3 : c = "."
            · rw [if_pos h3] at hok hk ⊢
              rw [if_pos h3, if_pos h3, if_pos h3]
              obtain ⟨a, b⟩ := ih cur (viewKept_mono _ _ _ _ hk (fun x hx => List.mem_cons_of_mem _ hx)) hok
              exact ⟨a, by rw [b]⟩
            · rw [if_neg h3] at hok hk ⊢
              rw [if_neg h3, if_neg h3, if_neg h3]
              by_cases h4 : c = ".."
              · rw [if_pos h4] at hok hk ⊢
                rw [if_pos h4, if_pos h4, if_pos h4]
                obtain ⟨a, b⟩ := ih cur.dropLast
                  (viewKept_mono _ _ _ _ hk (fun x hx => List.mem_cons_of_mem _ hx)) hok
                exact ⟨a, by rw [b]⟩
              · rw [if_neg h4] at hok hk ⊢
                rw [if_neg h4, if_neg h4, if_neg h4]
                by_cases h5 : NAME_MAX < c.utf8ByteSize
                · rw [if_pos h5] at hok
                  exact absurd rfl (hok _)
                · rw [if_neg h5] at hok hk ⊢
                  rw [if_neg h5, if_neg h5, if_neg h5]
                  cases hch : fs.view (cur ++ [c]) with
                  | none =>
                    rw [hch] at hok
                    exact absurd rfl (hok _)
                  | some w =>
                    have hch1 := hk (cur ++ [c])
                      (List.mem_cons_of_mem _ (List.mem_cons_self _ _)) _ hch
                    rw [hch] at hok hk
                    rw [hch1]
                    obtain ⟨k2, p2⟩ := w
                    cases k2 with
                    | symlink t => exact ⟨rfl, rfl⟩
                    | dir =>
                      obtain ⟨a, b⟩ := ih (cur ++ [c])
                        (viewKept_mono _ _ _ _ hk (fun x hx =>
                          List.mem_cons_of_mem _ (List.mem_cons_of_mem _ hx))) hok
                      exact ⟨a, by simp only [b]⟩
                    | file =>
                      obtain ⟨a, b⟩ := ih (cur ++ [c])
                        (viewKept_mono _ _ _ _ hk (fun x hx =>
                          List.mem_cons_of_mem _ (List.mem_cons_of_mem _ hx))) hok
                      exact ⟨a, by simp only [b]⟩
                    | special =>
                      obtain ⟨a, b⟩ := ih (cur ++ [c])
                        (viewKept_mono _ _ _ _ hk (fun x hx =>
                          List.mem_cons_of_mem _ (List.mem_cons_of_mem _ hx))) hok
                      exact ⟨a, by simp only [b]⟩
      · exact absurd (walkSeg_notdir fs cur c cs kind perm hv hkind) (hok _)

theorem walkAll_eq (links : Nat) (fs : FS) (cur : CPath) (comps : List String) :
    walkAll links fs cur comps =
      match walkSeg fs cur comps with
      | Seg.done c => Except.ok (c, links)
      | Seg.fail e => Except.error e
      | Seg.link d target rest =>
        match links with
        | 0 => Except.error Errno.ELOOP
        | k + 1 =>
          if target.data = [] then Except.error Errno.ENOENT
          else walkAll k fs (startOf d target) (components target ++ rest) := by
  cases links <;> rw [walkAll]

theorem allTrail_eq (links : Nat) (fs : FS) (cur : CPath) (comps : List String) :
    allTrail links fs cur comps =
      segTrail fs cur comps ++
        match walkSeg fs cur comps with
        | Seg.link d target rest =>
          match links with
          | 0 => []
          | k + 1 =>
            if target.data = [] then []
            else allTrail k fs (startOf d target) (components target ++ rest)
        | _ => [] := by
  cases links <;> rw [allTrail]

theorem walkAll_kept (fs fs1 : FS) : ∀ (links : Nat) (cur : CPath) (comps : List String)
    (r : CPath × Nat), walkAll links fs cur comps = Except.ok r →
    ViewKept (allTrail links fs cur comps) fs fs1 →
    walkAll links fs1 cur comps = Except.ok r := by
  intro links
  induction links with
  | zero =>
    intro cur comps r h hk
    rw [walkAll_eq] at h ⊢
    rw [allTrail_eq] at hk
    cases hs : walkSeg fs cur comps with
    | done c =>
      rw [hs] at h
      have := (walkSeg_kept fs fs1 comps cur
        (viewKept_mono _ _ _ _ hk (fun x hx => List.mem_append_left _ hx))
        (by rw [hs]; intro e he; cases he)).1
      rw [this, hs]
      exact h
    | fail e => rw [hs] at h; cases h
    | link d t rest => rw [hs] at h; cases h
  | succ k ih =>
    intro cur comps r h hk
    rw [walkAll_eq] at h ⊢
    rw [allTrail_eq] at hk
    cases hs : walkSeg fs cur comps with
    | done c =>
      rw [hs] at h
      have := (walkSeg_kept fs fs1 comps cur
        (viewKept_mono _ _ _ _ hk (fun x hx => List.mem_append_left _ hx))
        (by rw [hs]; intro e he; cases he)).1
      rw [this, hs]
      exact h
    | fail e => rw [hs] at h; cases h
    | link d t rest =>
      rw [hs] at h hk
      have := (walkSeg_kept fs fs1 comps cur
        (viewKept_mono _ _ _ _ hk (fun x hx => List.mem_append_left _ hx))
        (by rw [hs]; intro e he; cases he)).1
      rw [this, hs]
      simp only at h hk ⊢
      by_cases ht : t.data = []
      · rw [if_pos ht] at h; cases h
      · rw [if_neg ht] at h hk ⊢
        exact ih _ _ r h (viewKept_mono _ _ _ _ hk (fun x hx => List.mem_append_right _ hx))

theorem view_root (fs : FS) : fs.view [] = some (Kind.dir, fs.rootPerm) := by
  simp [FS.view, FS.find, Node.kind]

theorem parentFrom_kept (fs fs1 : FS) (links : Nat) (start : CPath) (comps : List String)
    (par : Parent) (h : parentFrom links fs start comps = Except.ok par)
    (hk : ViewKept (parentTrail links fs start comps) fs fs1) :
    parentFrom links fs1 start comps = Except.ok par := by
  unfold parentFrom at h ⊢
  unfold parentTrail at hk
  cases hl : (dropTrailingEmpty comps).getLast? with
  | none =>
    rw [hl] at h hk
    simp only at h hk ⊢
    have h1 := hk [] (List.mem_singleton.mpr rfl) _ (view_root fs)
    rw [view_root fs1] at h1
    injection h1 with h1
    injection h1 with _ h1
    rw [h1]
    exact h
  | some name =>
    rw [hl] at h hk
    simp only at h hk ⊢
    cases hw : walkAll links fs start (dropTrailingEmpty comps).dropLast with
    | error e => rw [hw] at h; cases h
    | ok r =>
      obtain ⟨d, k⟩ := r
      rw [hw] at h hk
      simp only at h hk
      rw [walkAll_kept fs fs1 links start _ (d, k) hw
        (viewKept_mono _ _ _ _ hk (fun x hx => List.mem_append_left _ hx))]
      simp only
      cases hv : fs.view d with
      | none => rw [hv] at h; cases h
      | some v =>
        have hv1 := hk d (List.mem_append_right _ (List.mem_singleton.mpr rfl)) _ hv
        rw [hv1]
        rw [hv] at h
        exact h

theorem found_kept (fs fs1 : FS) (mustDir : Bool) (c q : CPath)
    (h : found fs mustDir c = Except.ok q)
    (hk : ∀ v, fs.view c = some v → fs1.view c = some v) :
    found fs1 mustDir c = Except.ok q := by
  unfold found at h ⊢
  cases hv : fs.view c with
  | none => rw [hv] at h; cases h
  | some v =>
    rw [hk v hv]
    rw [hv] at h
    exact h

theorem found_eq (fs : FS) (mustDir : Bool) (c q : CPath)
    (h : found fs mustDir c = Except.ok q) : q = c ∧ ∃ v, fs.view c = some v := by
  unfold found at h
  cases hv : fs.view c with
  | none => rw [hv] at h; cases h
  | some v =>
    rw [hv] at h
    refine ⟨?_, v, rfl⟩
    obtain ⟨kind, perm⟩ := v
    cases kind <;> simp only at h
    all_goals first
      | (injection h with h; exact h.symm)
      | (split at h
         · cases h
         · injection h with h; exact h.symm)

theorem lastStep_kept (fs fs1 : FS) (follow mustDir : Bool) (d : CPath) (name : String) (k : Nat)
    (c : CPath) (h : lastStep fs follow mustDir d name k = Except.ok c)
    (hk : ViewKept (lastTrail fs follow d name k) fs fs1) :
    lastStep fs1 follow mustDir d name k = Except.ok c ∧ c ∈ lastTrail fs follow d name k := by
  unfold lastStep at h ⊢
  unfold lastTrail at hk ⊢
  by_cases h1 : name = "."
  · rw [if_pos h1] at h hk ⊢
    rw [if_pos h1]
    obtain ⟨hc, _⟩ := found_eq fs false d c h
    subst hc
    exact ⟨found_kept fs fs1 false c c h (hk c (List.mem_singleton.mpr rfl)),
      List.mem_singleton.mpr rfl⟩
  · rw [if_neg h1] at h hk ⊢
    rw [if_neg h1]
    by_cases h2 : name = ".."
    · rw [if_pos h2] at h hk ⊢
      rw [if_pos h2]
      obtain ⟨hc, _⟩ := found_eq fs false d.dropLast c h
      subst hc
      exact ⟨found_kept fs fs1 false _ _ h (hk _ (List.mem_singleton.mpr rfl)),
        List.mem_singleton.mpr rfl⟩
    · rw [if_neg h2] at h hk ⊢
      rw [if_neg h2]
      by_cases h3 : NAME_MAX < name.utf8ByteSize
      · rw [if_pos h3] at h; cases h
      · rw [if_neg h3] at h hk ⊢
        rw [if_neg h3]
        cases hv : fs.view (d ++ [name]) with
        | none => rw [hv] at h; cases h
        | some v =>
          have hv1 := hk (d ++ [name]) (List.mem_cons_self _ _) _ hv
          rw [hv] at h hk
          rw [hv1]
          obtain ⟨kind, perm⟩ := v
          cases kind with
          | symlink t =>
            simp only at h hk ⊢
            cases follow with
            | false =>
              simp only [Bool.false_eq_true, if_false] at h hk ⊢
              injection h with h
              subst h
              exact ⟨rfl, List.mem_cons_self _ _⟩
            | true =>
              simp only [if_true] at h hk ⊢
              cases k with
              | zero => cases h
              | succ k1 =>
                simp only at h hk ⊢
                by_cases ht : t.data = []
                · rw [if_pos ht] at h; cases h
                · simp only [if_neg ht] at h hk ⊢
                  cases hw : walkAll k1 fs (startOf d t) (components t) with
                  | error e => rw [hw] at h; cases h
                  | ok r =>
                    obtain ⟨q, k2⟩ := r
                    rw [hw] at h hk
                    simp only at h hk
                    rw [walkAll_kept fs fs1 k1 _ _ (q, k2) hw
                      (viewKept_mono _ _ _ _ hk (fun x hx =>
                        List.mem_cons_of_mem _ (List.mem_append_left _ hx)))]
                    simp only
                    obtain ⟨hc, _⟩ := found_eq fs mustDir q c h
                    subst hc
                    have hmem : c ∈ (d ++ [name]) ::
                        (allTrail k1 fs (startOf d t) (components t) ++ [c]) :=
                      List.mem_cons_of_mem _ (List.mem_append_right _ (List.mem_singleton.mpr rfl))
                    exact ⟨found_kept fs fs1 mustDir c c h (hk c hmem), hmem⟩
          | dir =>
            simp only at h hk ⊢
            obtain ⟨hc, _⟩ := found_eq fs mustDir _ c h
            subst hc
            exact ⟨found_kept fs fs1 mustDir _ _ h (hk _ (List.mem_cons_self _ _)),
              List.mem_cons_self _ _⟩
          | file =>
            simp only at h hk ⊢
            obtain ⟨hc, _⟩ := found_eq fs mustDir _ c h
            subst hc
            exact ⟨found_kept fs fs1 mustDir _ _ h (hk _ (List.mem_cons_self _ _)),
              List.mem_cons_self _ _⟩
          | special =>
            simp only at h hk ⊢
            obtain ⟨hc, _⟩ := found_eq fs mustDir _ c h
            subst hc
            exact ⟨found_kept fs fs1 mustDir _ _ h (hk _ (List.mem_cons_self _ _)),
              List.mem_cons_self _ _⟩

theorem lookupParent_kept (fs fs1 : FS) (cwd : CPath) (p : String) (par : Parent)
    (h : lookupParent fs cwd p = Except.ok par)
    (hk : ViewKept (parentTrail MAXSYMLINKS fs (startOf cwd p) (components p)) fs fs1) :
    lookupParent fs1 cwd p = Except.ok par := by
  unfold lookupParent at h ⊢
  by_cases h1 : p.data = []
  · rw [if_pos h1] at h; cases h
  · rw [if_neg h1] at h ⊢
    by_cases h2 : PATH_MAX ≤ p.utf8ByteSize
    · rw [if_pos h2] at h; cases h
    · rw [if_neg h2] at h ⊢
      exact parentFrom_kept fs fs1 _ _ _ par h hk

theorem resolve_kept (fs fs1 : FS) (follow : Bool) (cwd : CPath) (p : String) (c : CPath)
    (h : resolve fs follow cwd p = Except.ok c)
    (hk : ViewKept (resolveTrail fs follow cwd p) fs fs1) :
    resolve fs1 follow cwd p = Except.ok c ∧ ∀ v, fs.view c = some v → fs1.view c = some v := by
  unfold resolve at h ⊢
  unfold resolveTrail at hk
  cases hl : lookupParent fs cwd p with
  | error e => rw [hl] at h; cases h
  | ok par =>
    have hl0 := hl
    unfold lookupParent at hl
    by_cases h1 : p.data = []
    · rw [if_pos h1] at hl; cases hl
    · rw [if_neg h1] at hl hk
      by_cases h2 : PATH_MAX ≤ p.utf8ByteSize
      · rw [if_pos h2] at hl; cases hl
      · rw [if_neg h2] at hl hk
        rw [hl] at hk
        rw [hl0] at h
        have hpar := lookupParent_kept fs fs1 cwd p par hl0
          (viewKept_mono _ _ _ _ hk (fun x hx => List.mem_append_left _ hx))
        rw [hpar]
        obtain ⟨d, perm, name, k⟩ := par
        cases name with
        | none =>
          simp only at h hk ⊢
          injection h with h
          subst h
          refine ⟨rfl, ?_⟩
          have hr : ([] : CPath) ∈ parentTrail MAXSYMLINKS fs (startOf cwd p) (components p) := by
            unfold parentFrom at hl
            unfold parentTrail
            cases hg : (dropTrailingEmpty (components p)).getLast? with
            | none => exact List.mem_singleton.mpr rfl
            | some nm =>
              rw [hg] at hl
              simp only at hl
              cases hw : walkAll MAXSYMLINKS fs (startOf cwd p)
                  (dropTrailingEmpty (components p)).dropLast with
              | error e => rw [hw] at hl; cases hl
              | ok r =>
                rw [hw] at hl
                obtain ⟨d1, k1⟩ := r
                simp only at hl
                cases hv : fs.view d1 with
                | none => rw [hv] at hl; cases hl
                | some v =>
                  rw [hv] at hl
                  obtain ⟨kind, perm1⟩ := v
                  cases kind <;> simp only at hl
                  · cases hl
                  · split at hl
                    · cases hl
                    · cases hl
                  · cases hl
                  · cases hl
          exact hk [] (List.mem_append_left _ hr)
        | some nm =>
          simp only at h hk ⊢
          obtain ⟨a, b⟩ := lastStep_kept fs fs1 _ _ d nm k c h
            (viewKept_mono _ _ _ _ hk (fun x hx => List.mem_append_right _ hx))
          exact ⟨a, hk c (List.mem_append_right _ b)⟩

theorem is_directory_true (fs : FS) (cwd : CPath) (p : String)
    (h : is_directory fs cwd p = Except.ok true) :
    ∃ c perm, resolve fs true cwd p = Except.ok c ∧ fs.view c = some (Kind.dir, perm) := by
  unfold is_directory status statusOf stat entryAt at h
  cases hr : resolve fs true cwd p with
  | error e =>
    rw [hr] at h
    simp only at h
    cases e <;> simp only at h <;> cases h
  | ok c =>
    rw [hr] at h
    simp only at h
    cases hf : fs.find c with
    | none => rw [hf] at h; simp only at h; cases h
    | some e =>
      rw [hf] at h
      simp only at h
      refine ⟨c, e.perm, rfl, ?_⟩
      rw [view_of_find fs c e hf]
      injection h with h
      cases hn : e.node <;> rw [hn] at h <;> simp [Node.isDir] at h
      rfl

theorem is_directory_intro (fs : FS) (cwd : CPath) (p : String) (c : CPath) (perm : Perm)
    (hr : resolve fs true cwd p = Except.ok c) (hv : fs.view c = some (Kind.dir, perm)) :
    is_directory fs cwd p = Except.ok true := by
  obtain ⟨e, he, hve⟩ := view_some fs c _ hv
  unfold is_directory status statusOf stat entryAt
  rw [hr]
  simp only [he]
  injection hve with hk _
  cases hn : e.node <;> rw [hn] at hk <;> simp [Node.kind] at hk
  rfl

/-- The invariant survives every change of the filesystem that keeps what the
resolution of `currentPath` looks at. -/
theorem currentValid_of_kept (env : Env) (s s1 : State)
    (hvalid : currentValid env s = true) (hcur : s1.currentPath = s.currentPath)
    (hk : ViewKept (currentTrail env s) s.fs s1.fs) : currentValid env s1 = true := by
  unfold currentValid at hvalid ⊢
  have hd : is_directory s.fs env.cwd s.currentPath = Except.ok true := by
    cases h : is_directory s.fs env.cwd s.currentPath with
    | error e => rw [h] at hvalid; cases hvalid
    | ok b =>
      rw [h] at hvalid
      cases b
      · cases hvalid
      · rfl
  obtain ⟨c, perm, hr, hv⟩ := is_directory_true _ _ _ hd
  obtain ⟨hr1, hv1⟩ := resolve_kept s.fs s1.fs true env.cwd s.currentPath c hr hk
  rw [hcur, is_directory_intro s1.fs env.cwd s.currentPath c perm hr1 (hv1 _ hv)]

/-! ## What the handlers change -/

theorem unlinkSys_effect (fs fs1 : FS) (cwd : CPath) (now : Int) (p : String)
    (h : unlinkSys fs cwd now p = Except.ok fs1) :
    ∃ d perm name k, lookupParent fs cwd p = Except.ok ⟨d, perm, some name, k⟩
      ∧ name ≠ "." ∧ name ≠ ".." ∧ fs1 = fs.erase (d ++ [name]) now := by
  unfold unlinkSys at h
  split at h
  · cases h
  · cases h
  · rename_i d perm name k hl
    split at h
    · cases h
    · rename_i hname
      split at h
      · cases h
      · split at h
        · cases h
        · split at h
          · split at h <;> cases h
          · split at h
            · cases h
            · split at h
              · cases h
              · injection h with h
                exact ⟨d, perm, name, k, hl, fun h1 => hname (Or.inl h1),
                  fun h2 => hname (Or.inr h2), h.symm⟩

theorem rmdirSys_effect (fs fs1 : FS) (cwd : CPath) (now : Int) (p : String)
    (h : rmdirSys fs cwd now p = Except.ok fs1) :
    ∃ d perm name k, lookupParent fs cwd p = Except.ok ⟨d, perm, some name, k⟩
      ∧ name ≠ "." ∧ name ≠ ".." ∧ fs1 = fs.erase (d ++ [name]) now := by
  unfold rmdirSys at h
  split at h
  · cases h
  · cases h
  · rename_i d perm name k hl
    split at h
    · cases h
    · rename_i hn1
      split at h
      · cases h
      · rename_i hn2
        split at h
        · cases h
        · split at h
          · cases h
          · split at h
            · cases h
            · split at h
              · cases h
              · split at h
                · cases h
                · injection h with h
                  exact ⟨d, perm, name, k, hl, hn1, hn2, h.symm⟩

theorem remove_effect (fs fs1 : FS) (cwd : CPath) (now : Int) (p : String) (b : Bool)
    (h : remove fs cwd now p = Except.ok (b, fs1)) :
    (b = false ∧ fs1 = fs) ∨
      (b = true ∧ ∃ d perm name k, lookupParent fs cwd p = Except.ok ⟨d, perm, some name, k⟩
        ∧ name ≠ "." ∧ name ≠ ".." ∧ fs1 = fs.erase (d ++ [name]) now) := by
  unfold remove at h
  split at h
  · rename_i fs2 hc
    injection h with h
    injection h with hb hfs
    subst hfs
    refine Or.inr ⟨hb.symm, ?_⟩
    unfold removeC at hc
    split at hc
    · rename_i fs3 hu
      injection hc with hc
      subst hc
      exact unlinkSys_effect fs _ cwd now p hu
    · exact rmdirSys_effect fs _ cwd now p hc
    · cases hc
  · injection h with h
    injection h with hb hfs
    exact Or.inl ⟨hb.symm, hfs.symm⟩
  · cases h

theorem create_directory_kept (fs fs1 : FS) (cwd : CPath) (now : Int) (p : String) (b : Bool)
    (h : create_directory fs cwd now p = Except.ok (b, fs1)) : ViewsKept fs fs1 := by
  unfold create_directory at h
  split at h
  · rename_i fs2 hm
    injection h with h
    injection h with _ hfs
    subst hfs
    unfold mkdirSys at hm
    split at hm
    · cases hm
    · cases hm
    · split at hm
      · cases hm
      · split at hm
        · cases hm
        · split at hm
          · cases hm
          · split at hm
            · cases hm
            · injection hm with hm
              subst hm
              exact viewsKept_insert _ _ _ _ _
  · split at h
    · injection h with h
      injection h with _ hfs
      subst hfs
      exact viewsKept_refl fs
    · cases h

theorem openCreate_eq (fuel : Nat) (fs : FS) (now : Int) (cwd : CPath) (p : String) :
    openCreate fuel fs now cwd p =
      if p.data = [] then Except.error Errno.ENOENT
      else
        match parentFrom MAXSYMLINKS fs (startOf cwd p) (components p) with
        | Except.error e => Except.error e
        | Except.ok ⟨_, _, none, _⟩ => Except.error Errno.EISDIR
        | Except.ok ⟨d, perm, some name, _⟩ =>
          if name = "." ∨ name = ".." then Except.error Errno.EISDIR
          else if trailingSlash p then Except.error Errno.EISDIR
          else if NAME_MAX < name.utf8ByteSize then Except.error Errno.ENAMETOOLONG
          else
            match fs.view (d ++ [name]) with
            | none =>
              if perm.w = false then Except.error Errno.EACCES
              else Except.ok (fs.insert (d ++ [name]) (Node.file []) newFilePerm now)
            | some (Kind.file, perm1) =>
              if perm1.w = false then Except.error Errno.EACCES
              else Except.ok (fs.truncate (d ++ [name]) now)
            | some (Kind.dir, _) => Except.error Errno.EISDIR
            | some (Kind.special, _) => Except.error Errno.ENXIO
            | some (Kind.symlink target, _) =>
              match fuel with
              | 0 => Except.error Errno.ELOOP
              | n + 1 => openCreate n fs now d target := by
  cases fuel <;> rw [openCreate]

theorem openCreate_kept (fs : FS) (now : Int) : ∀ (fuel : Nat) (cwd : CPath) (p : String)
    (fs1 : FS), openCreate fuel fs now cwd p = Except.ok fs1 → ViewsKept fs fs1 := by
  intro fuel
  induction fuel with
  | zero =>
    intro cwd p fs1 h
    rw [openCreate_eq] at h
    split at h
    · cases h
    · split at h
      · cases h
      · cases h
      · split at h
        · cases h
        · split at h
          · cases h
          · split at h
            · cases h
            · split at h
              · split at h
                · cases h
                · injection h with h; subst h; exact viewsKept_insert _ _ _ _ _
              · split at h
                · cases h
                · injection h with h; subst h; exact viewsKept_truncate _ _ _
              · cases h
              · cases h
              · cases h
  | succ n ih =>
    intro cwd p fs1 h
    rw [openCreate_eq] at h
    split at h
    · cases h
    · split at h
      · cases h
      · cases h
      · split at h
        · cases h
        · split at h
          · cases h
          · split at h
            · cases h
            · split at h
              · split at h
                · cases h
                · injection h with h; subst h; exact viewsKept_insert _ _ _ _ _
              · split at h
                · cases h
                · injection h with h; subst h; exact viewsKept_truncate _ _ _
              · cases h
              · cases h
              · exact ih _ _ _ h

theorem ofstream_open_kept (fs fs1 : FS) (cwd : CPath) (now : Int) (p : String)
    (h : ofstream_open fs cwd now p = some fs1) : ViewsKept fs fs1 := by
  unfold ofstream_open at h
  split at h
  · cases h
  · split at h
    · rename_i fs2 ho
      injection h with h
      subst h
      exact openCreate_kept fs now _ _ _ _ ho
    · cases h

theorem cmdTouch_kept (env : Env) (s s1 : State) (args : List String)
    (h : cmdTouch env s args = Result.returned s1) :
    s1.currentPath = s.currentPath ∧ ViewsKept s.fs s1.fs := by
  unfold cmdTouch at h
  split at h
  · injection h with h; subst h; exact ⟨rfl, viewsKept_refl _⟩
  · split at h
    · cases h
    · split at h
      · cases h
      · injection h with h; subst h; exact ⟨rfl, viewsKept_refl _⟩
      · split at h
        · rename_i fs1 ho
          injection h with h; subst h
          exact ⟨rfl, ofstream_open_kept _ _ _ _ _ ho⟩
        · injection h with h; subst h; exact ⟨rfl, viewsKept_refl _⟩

theorem cmdMkdir_kept (env : Env) (s s1 : State) (args : List String)
    (h : cmdMkdir env s args = Result.returned s1) :
    s1.currentPath = s.currentPath ∧ ViewsKept s.fs s1.fs := by
  unfold cmdMkdir at h
  split at h
  · injection h with h; subst h; exact ⟨rfl, viewsKept_refl _⟩
  · split at h
    · cases h
    · split at h
      · cases h
      · injection h with h; subst h; exact ⟨rfl, viewsKept_refl _⟩
      · split at h
        · cases h
        · rename_i fs1 hc
          injection h with h; subst h
          exact ⟨rfl, create_directory_kept _ _ _ _ _ _ hc⟩
        · rename_i fs1 hc
          injection h with h; subst h
          exact ⟨rfl, create_directory_kept _ _ _ _ _ _ hc⟩

theorem removalOf_eq (env : Env) (s : State) (name p : String) (d : CPath) (perm : Perm)
    (last : String) (k : Nat) (hp : operandPath env s name = Except.ok p)
    (hl : lookupParent s.fs env.cwd p = Except.ok ⟨d, perm, some last, k⟩)
    (h1 : last ≠ ".") (h2 : last ≠ "..") : removalOf env s name = some (d ++ [last]) := by
  unfold removalOf
  rw [hp]
  simp only [hl]
  rw [if_neg (by rintro (h | h); exact h1 h; exact h2 h)]

theorem remove_kept (env : Env) (s : State) (name p : String) (T : List CPath) (b : Bool)
    (fs1 : FS) (hp : operandPath env s name = Except.ok p)
    (hr : remove s.fs env.cwd env.now p = Except.ok (b, fs1))
    (hT : ∀ q, removalOf env s name = some q → q ∈ T → fs1.find q ≠ none) :
    ViewKept T s.fs fs1 := by
  rcases remove_effect _ _ _ _ _ _ hr with ⟨_, h⟩ | ⟨_, d, perm, last, k, hl, h1, h2, h⟩
  · subst h; exact viewKept_of_all _ _ _ (viewsKept_refl _)
  · subst h
    apply viewKept_erase T s.fs _ _
    intro hmem
    exact hT _ (removalOf_eq env s name p d perm last k hp hl h1 h2) hmem
      (find_erase_gone _ _ _ (by simp))

theorem rmConfirm_kept (env : Env) (s s1 : State) (name p : String) (T : List CPath)
    (hp : operandPath env s name = Except.ok p)
    (h : rmConfirm env s name p = Result.returned s1)
    (hT : ∀ q, removalOf env s name = some q → q ∈ T → s1.fs.find q ≠ none) :
    s1.currentPath = s.currentPath ∧ ViewKept T s.fs s1.fs := by
  unfold rmConfirm at h
  split at h
  · injection h with h; subst h; exact ⟨rfl, viewKept_of_all _ _ _ (viewsKept_refl _)⟩
  · split at h
    · split at h
      · cases h
      · rename_i fs1 hr
        injection h with h; subst h
        exact ⟨rfl, remove_kept env s name p T _ _ hp hr hT⟩
      · rename_i fs1 hr
        injection h with h; subst h
        exact ⟨rfl, remove_kept env s name p T _ _ hp hr hT⟩
    · injection h with h; subst h; exact ⟨rfl, viewKept_of_all _ _ _ (viewsKept_refl _)⟩

theorem cmdRm_kept (env : Env) (s s1 : State) (name : String) (rest : List String)
    (T : List CPath) (h : cmdRm env s (name :: rest) = Result.returned s1)
    (hT : ∀ q, removalOf env s name = some q → q ∈ T → s1.fs.find q ≠ none) :
    s1.currentPath = s.currentPath ∧ ViewKept T s.fs s1.fs := by
  unfold cmdRm at h
  simp only at h
  split at h
  · cases h
  · rename_i p hp
    split at h
    · cases h
    · injection h with h; subst h; exact ⟨rfl, viewKept_of_all _ _ _ (viewsKept_refl _)⟩
    · split at h
      · cases h
      · exact rmConfirm_kept env s s1 name p T hp h hT
      · split at h
        · cases h
        · exact rmConfirm_kept env s s1 name p T hp h hT
        · injection h with h; subst h; exact ⟨rfl, viewKept_of_all _ _ _ (viewsKept_refl _)⟩

theorem cmdRmdir_kept (env : Env) (s s1 : State) (name : String) (rest : List String)
    (T : List CPath) (h : cmdRmdir env s (name :: rest) = Result.returned s1)
    (hT : ∀ q, removalOf env s name = some q → q ∈ T → s1.fs.find q ≠ none) :
    s1.currentPath = s.currentPath ∧ ViewKept T s.fs s1.fs := by
  unfold cmdRmdir at h
  simp only at h
  split at h
  · cases h
  · rename_i p hp
    split at h
    · cases h
    · injection h with h; subst h; exact ⟨rfl, viewKept_of_all _ _ _ (viewsKept_refl _)⟩
    · split at h
      · cases h
      · injection h with h; subst h; exact ⟨rfl, viewKept_of_all _ _ _ (viewsKept_refl _)⟩
      · split at h
        · cases h
        · injection h with h; subst h; exact ⟨rfl, viewKept_of_all _ _ _ (viewsKept_refl _)⟩
        · split at h
          · cases h
          · rename_i fs1 hr
            injection h with h; subst h
            exact ⟨rfl, remove_kept env s name p T _ _ hp hr hT⟩
          · rename_i fs1 hr
            injection h with h; subst h
            exact ⟨rfl, remove_kept env s name p T _ _ hp hr hT⟩

theorem cmdLs_same (env : Env) (s s1 : State) (args : List String)
    (h : cmdLs env s args = Result.returned s1) :
    s1.currentPath = s.currentPath ∧ s1.fs = s.fs := by
  unfold cmdLs at h
  split at h
  · injection h with h; subst h; exact ⟨rfl, rfl⟩
  · split at h
    · injection h with h; subst h; exact ⟨rfl, rfl⟩
    · injection h with h; subst h; exact ⟨rfl, rfl⟩

theorem cmdStat_same (env : Env) (s s1 : State) (args : List String)
    (h : cmdStat env s args = Result.returned s1) :
    s1.currentPath = s.currentPath ∧ s1.fs = s.fs := by
  unfold cmdStat at h
  split at h
  · injection h with h; subst h; exact ⟨rfl, rfl⟩
  · split at h
    · cases h
    · split at h
      · cases h
      · injection h with h; subst h; exact ⟨rfl, rfl⟩
      · split at h
        · cases h
        · injection h with h; subst h; exact ⟨rfl, rfl⟩

theorem cmdCd_valid (env : Env) (s s1 : State) (args : List String)
    (h : cmdCd env s args = Result.returned s1) :
    s1.fs = s.fs ∧ (s1.currentPath = s.currentPath
      ∨ is_directory s.fs env.cwd s1.currentPath = Except.ok true) := by
  unfold cmdCd at h
  split at h
  · injection h with h; subst h; exact ⟨rfl, Or.inl rfl⟩
  · split at h
    · injection h with h; subst h; exact ⟨rfl, Or.inl rfl⟩
    · cases h
    · split at h
      · cases h
      · injection h with h; subst h; exact ⟨rfl, Or.inl rfl⟩
      · split at h
        · cases h
        · injection h with h; subst h; exact ⟨rfl, Or.inl rfl⟩
        · rename_i hd
          injection h with h; subst h
          exact ⟨rfl, Or.inr hd⟩

/-! ## The dispatcher and the session invariant -/

/-- Case analysis on the handler a command line is dispatched to. -/
theorem dispatch_cases (P : Result → Prop) (env : Env) (s : State) (line : String)
    (hnone : split line = [] → P (Result.returned s))
    (hcd : ∀ args, split line = "cd" :: args → P (cmdCd env s args))
    (hls : ∀ args, split line = "ls" :: args → P (cmdLs env s args))
    (htouch : ∀ args, split line = "touch" :: args → P (cmdTouch env s args))
    (hmkdir : ∀ args, split line = "mkdir" :: args → P (cmdMkdir env s args))
    (hrm : ∀ args, split line = "rm" :: args → P (cmdRm env s args))
    (hrmdir : ∀ args, split line = "rmdir" :: args → P (cmdRmdir env s args))
    (hstat : ∀ args, split line = "stat" :: args → P (cmdStat env s args))
    (hsearch : ∀ args, split line = "search" :: args → P (cmdSearch s args))
    (hcp : ∀ args, split line = "cp" :: args → P (cmdCp s args))
    (hmv : ∀ args, split line = "mv" :: args → P (cmdMv s args))
    (hdu : ∀ args, split line = "du" :: args → P (cmdDu s args))
    (hhelp : ∀ args, split line = "help" :: args → P (printHelp s))
    (hexit : ∀ args, split line = "exit" :: args → P (cmdExit s))
    (hunknown : ∀ command args, split line = command :: args →
      P (Result.returned ((s.println ("Unknown command: " ++ command)).println
        "Type 'help' for all commands."))) :
    P (handleCommand env s line) := by
  unfold handleCommand
  cases hsp : split line with
  | nil => exact hnone hsp
  | cons command args =>
    simp only
    by_cases h1 : command = "cd"
    · rw [if_pos h1]; exact hcd args (h1 ▸ hsp)
    rw [if_neg h1]
    by_cases h2 : command = "ls"
    · rw [if_pos h2]; exact hls args (h2 ▸ hsp)
    rw [if_neg h2]
    by_cases h3 : command = "touch"
    · rw [if_pos h3]; exact htouch args (h3 ▸ hsp)
    rw [if_neg h3]
    by_cases h4 : command = "mkdir"
    · rw [if_pos h4]; exact hmkdir args (h4 ▸ hsp)
    rw [if_neg h4]
    by_cases h5 : command = "rm"
    · rw [if_pos h5]; exact hrm args (h5 ▸ hsp)
    rw [if_neg h5]
    by_cases h6 : command = "rmdir"
    · rw [if_pos h6]; exact hrmdir args (h6 ▸ hsp)
    rw [if_neg h6]
    by_cases h7 : command = "stat"
    · rw [if_pos h7]; exact hstat args (h7 ▸ hsp)
    rw [if_neg h7]
    by_cases h8 : command = "search"
    · rw [if_pos h8]; exact hsearch args (h8 ▸ hsp)
    rw [if_neg h8]
    by_cases h9 : command = "cp"
    · rw [if_pos h9]; exact hcp args (h9 ▸ hsp)
    rw [if_neg h9]
    by_cases h10 : command = "mv"
    · rw [if_pos h10]; exact hmv args (h10 ▸ hsp)
    rw [if_neg h10]
    by_cases h11 : command = "du"
    · rw [if_pos h11]; exact hdu args (h11 ▸ hsp)
    rw [if_neg h11]
    by_cases h12 : command = "help"
    · rw [if_pos h12]; exact hhelp args (h12 ▸ hsp)
    rw [if_neg h12]
    by_cases h13 : command = "exit"
    · rw [if_pos h13]; exact hexit args (h13 ▸ hsp)
    rw [if_neg h13]
    exact hunknown command args hsp

theorem removalTarget_rm (env : Env) (s : State) (line name : String) (rest : List String)
    (hsp : split line = "rm" :: name :: rest) :
    removalTarget env s line = removalOf env s name := by
  unfold removalTarget
  rw [hsp]
  simp only [true_or, if_true]

theorem removalTarget_rmdir (env : Env) (s : State) (line name : String) (rest : List String)
    (hsp : split line = "rmdir" :: name :: rest) :
    removalTarget env s line = removalOf env s name := by
  unfold removalTarget
  rw [hsp]
  simp only [or_true, if_true]

/-- C2 as amended: the session invariant. If `currentPath` denotes an existing
directory before a command line and `handleCommand` returns, then `currentPath`
denotes an existing directory of the filesystem as it is afterwards, for every
command line except an `rm` or `rmdir` that removes a name through which
`currentPath` is resolved: the current directory itself, a directory on its
way, or a symbolic link that is followed on its way.  The hypothesis `hkeep`
says that the line is no such removal: when it is an `rm` or `rmdir` aimed at
a name on that way, the name is still there afterwards. -/
theorem currentValid_kept (env : Env) (s s1 : State) (line : String)
    (hvalid : currentValid env s = true)
    (hret : handleCommand env s line = Result.returned s1)
    (hkeep : ∀ q, removalTarget env s line = some q → q ∈ currentTrail env s →
      s1.fs.find q ≠ none) :
    currentValid env s1 = true := by
  have hsame : ∀ s2 : State, s2.currentPath = s.currentPath → s2.fs = s.fs →
      currentValid env s2 = true := by
    intro s2 h1 h2
    exact currentValid_of_kept env s s2 hvalid h1
      (by rw [h2]; exact viewKept_of_all _ _ _ (viewsKept_refl _))
  refine dispatch_cases (fun r => ∀ s2, r = Result.returned s2 → s2 = s1 →
      currentValid env s2 = true)
    env s line ?_ ?_ ?_ ?_ ?_ ?_ ?_ ?_ ?_ ?_ ?_ ?_ ?_ ?_ ?_ s1 hret rfl
  · intro _ s2 h _; injection h with h; subst h; exact hvalid
  · intro args _ s2 h _
    obtain ⟨h1, h2⟩ := cmdCd_valid env s s2 args h
    rcases h2 with h2 | h2
    · exact hsame s2 h2 h1
    · unfold currentValid
      rw [h1, h2]
  · intro args _ s2 h _
    obtain ⟨h1, h2⟩ := cmdLs_same env s s2 args h
    exact hsame s2 h1 h2
  · intro args _ s2 h _
    obtain ⟨h1, h2⟩ := cmdTouch_kept env s s2 args h
    exact currentValid_of_kept env s s2 hvalid h1 (viewKept_of_all _ _ _ h2)
  · intro args _ s2 h _
    obtain ⟨h1, h2⟩ := cmdMkdir_kept env s s2 args h
    exact currentValid_of_kept env s s2 hvalid h1 (viewKept_of_all _ _ _ h2)
  · intro args hsp s2 h hs
    cases args with
    | nil =>
      unfold cmdRm at h
      injection h with h
      subst h
      exact hvalid
    | cons name rest =>
      obtain ⟨h1, h2⟩ := cmdRm_kept env s s2 name rest (currentTrail env s) h
        (fun q hq hmem => by
          rw [hs]
          exact hkeep q (by rw [removalTarget_rm env s line name rest hsp]; exact hq) hmem)
      exact currentValid_of_kept env s s2 hvalid h1 h2
  · intro args hsp s2 h hs
    cases args with
    | nil =>
      unfold cmdRmdir at h
      injection h with h
      subst h
      exact hvalid
    | cons name rest =>
      obtain ⟨h1, h2⟩ := cmdRmdir_kept env s s2 name rest (currentTrail env s) h
        (fun q hq hmem => by
          rw [hs]
          exact hkeep q (by rw [removalTarget_rmdir env s line name rest hsp]; exact hq) hmem)
      exact currentValid_of_kept env s s2 hvalid h1 h2
  · intro args _ s2 h _
    obtain ⟨h1, h2⟩ := cmdStat_same env s s2 args h
    exact hsame s2 h1 h2
  · intro args _ s2 h _; injection h with h; subst h; exact hvalid
  · intro args _ s2 h _; injection h with h; subst h; exact hvalid
  · intro args _ s2 h _; injection h with h; subst h; exact hvalid
  · intro args _ s2 h _; injection h with h; subst h; exact hvalid
  · intro args _ s2 h _; injection h with h; subst h; exact hvalid
  · intro args _ s2 h _; cases h
  · intro command args _ s2 h _; injection h with h; subst h; exact hvalid

/-- A concrete instance: `rmdir sub` from `/tmp/work`. -/
theorem currentValid_kept_witness :
    currentValid env0 { s0 with fs := fs0.erase ["tmp", "work", "sub"] 100 } = true :=
  currentValid_kept env0 s0 _ "rmdir sub" (by rfl) (by rfl) (by
    intro q hq hmem
    have : q = ["tmp", "work", "sub"] := by
      have h2 : removalTarget env0 s0 "rmdir sub" = some ["tmp", "work", "sub"] := by rfl
      rw [h2] at hq
      injection hq with hq
      exact hq.symm
    subst this
    exact absurd hmem (by decide))

/-- The invariant is not kept by every `rmdir` and not by every `rm`.  In the
empty directory `/tmp/work/sub` the line `rmdir ../sub` removes the current
directory.  In a session started on the symbolic link `/tmp/work/link` (which
leads to the directory `sub`), the line `rm /tmp/work/link` answered `y`
removes the link.  Both times `handleCommand` returns and `currentPath` no
longer denotes a directory. -/
theorem current_directory_removed :
    (currentValid env0 { s0 with currentPath := "/tmp/work/sub" } = true
      ∧ ∃ s1, handleCommand env0 { s0 with currentPath := "/tmp/work/sub" } "rmdir ../sub"
            = Result.returned s1
          ∧ s1.currentPath = "/tmp/work/sub"
          ∧ fs_exists s1.fs env0.cwd s1.currentPath = Except.ok false
          ∧ currentValid env0 s1 = false)
    ∧ (construct env0 fs0 ["y"] "/tmp/work/link"
          = Result.returned { currentPath := "/tmp/work/link", fs := fs0, input := ["y"]
                              output := "Current Directory: /tmp/work/link\n" }
      ∧ currentValid env0 { s0 with currentPath := "/tmp/work/link", input := ["y"] } = true
      ∧ ∃ s1, handleCommand env0 { s0 with currentPath := "/tmp/work/link", input := ["y"] }
            "rm /tmp/work/link" = Result.returned s1
          ∧ s1.currentPath = "/tmp/work/link"
          ∧ s1.fs.tree = fs0.tree.filter (fun t => decide (t.1 ≠ ["tmp", "work", "link"]))
          ∧ fs_exists s1.fs env0.cwd s1.currentPath = Except.ok false
          ∧ currentValid env0 s1 = false) :=
  ⟨⟨by rfl, { s0 with currentPath := "/tmp/work/sub", fs := fs0.erase ["tmp", "work", "sub"] 100 },
      by rfl, by rfl, by rfl, by rfl⟩,
    by rfl, by rfl,
    { currentPath := "/tmp/work/link", fs := fs0.erase ["tmp", "work", "link"] 100, input := []
      output := "Are you sure to delete /tmp/work/link? (y/n): " },
    by rfl, by rfl, by rfl, by rfl, by rfl⟩

/-! ## cd to a target that does not exist -/

set_option maxRecDepth 100000 in
/-- Nothing in `/tmp/work` has the name of 256 bytes. -/
theorem longName_absent : fs0.find ["tmp", "work", longName] = none := by rfl

set_option maxRecDepth 100000 in
/-- The handler `cmdCd` on the name of 256 bytes. -/
theorem cmdCd_longName : cmdCd env0 s0 [longName]
    = Result.terminated ⟨"status", Errno.ENAMETOOLONG, some ("/tmp/work/" ++ longName)⟩ s0 := by rfl

set_option maxRecDepth 100000 in
/-- The line `cd` with the name of 256 bytes. -/
theorem handleCommand_cd_longName : handleCommand env0 s0 ("cd " ++ longName)
    = Result.terminated ⟨"status", Errno.ENAMETOOLONG, some ("/tmp/work/" ++ longName)⟩ s0 := by rfl

/-- C1: `cd` to a target that does not exist.  When `status` can tell that the
target is not there, `cmdCd` prints "Invalid directory: <token>" and leaves
the state as it was, as in `cd nope`.  When it cannot, the exception of
`exists` (line 222) or `absolute` (line 218) leaves the handler and ends the
process, nothing is printed: so for the absent target whose name has 256
bytes, and so for any token once the process's working directory is gone
(program started with the argument `.` in `/tmp/work/sub`, then
`rmdir ../sub`, then `cd x`). -/
theorem cd_absent_target_uncaught :
    (∀ (env : Env) (s : State) (token : String) (rest : List String) (newPath : String),
        cdNewPath env s token = CdTarget.path newPath →
        fs_exists s.fs env.cwd newPath = Except.ok false →
        cmdCd env s (token :: rest) = Result.returned (s.println ("Invalid directory: " ++ token)))
    ∧ cmdCd env0 s0 ["nope"] = Result.returned (s0.println "Invalid directory: nope")
    ∧ fs0.find ["tmp", "work", longName] = none
    ∧ cmdCd env0 s0 [longName]
        = Result.terminated ⟨"status", Errno.ENAMETOOLONG, some ("/tmp/work/" ++ longName)⟩ s0
    ∧ handleCommand env0 s0 ("cd " ++ longName)
        = Result.terminated ⟨"status", Errno.ENAMETOOLONG, some ("/tmp/work/" ++ longName)⟩ s0
    ∧ construct { env0 with cwd := ["tmp", "work", "sub"] } fs0 ["rmdir ../sub", "cd x"] "."
        = Result.returned { currentPath := ".", fs := fs0, input := ["rmdir ../sub", "cd x"]
                            output := "Current Directory: .\n" }
    ∧ run { env0 with cwd := ["tmp", "work", "sub"] }
          { currentPath := ".", fs := fs0, input := ["rmdir ../sub", "cd x"]
            output := "Current Directory: .\n" }
        = some (Result.terminated ⟨"cannot make absolute path", Errno.ENOENT, some "./x"⟩
            { currentPath := ".", fs := fs0.erase ["tmp", "work", "sub"] 100, input := []
              output := "Current Directory: .\n" ++ promptText ++ promptText }) := by
  refine ⟨?_, by rfl, longName_absent, cmdCd_longName, handleCommand_cd_longName, by rfl, by rfl⟩
  intro env s token rest newPath hnew hex
  unfold cmdCd
  simp only [hnew, hex]

/-! ## rmdir of a directory that is not empty -/

theorem utf8Len_slashes (n : Nat) : String.utf8Len (List.replicate n '/') = n := by
  induction n with
  | zero => rfl
  | succ k ih =>
    rw [List.replicate_succ, String.utf8Len_cons, ih]
    rfl

/-- For a path string of `PATH_MAX` bytes or more `exists` throws. -/
theorem fs_exists_too_long (fs : FS) (cwd : CPath) (p : String)
    (h : PATH_MAX ≤ p.utf8ByteSize) :
    fs_exists fs cwd p = Except.error ⟨"status", Errno.ENAMETOOLONG, some p⟩ := by
  have hne : p.data ≠ [] := by
    intro h0
    have : p.utf8ByteSize = 0 := by
      cases p
      simp only at h0
      subst h0
      rfl
    rw [this] at h
    exact absurd h (by decide)
  unfold fs_exists status stat resolve lookupParent
  rw [if_neg hne, if_pos h]
  rfl

theorem longPath_operand :
    operandPath env0 s0 longPath = Except.ok ("/tmp/work/" ++ longPath) := by
  rfl

theorem longPath_size : PATH_MAX ≤ ("/tmp/work/" ++ longPath).utf8ByteSize := by
  show PATH_MAX ≤ String.utf8Len ("/tmp/work/".data ++ ("full".data ++ List.replicate 4096 '/'))
  rw [String.utf8Len_append, String.utf8Len_append, utf8Len_slashes]
  exact Nat.le_trans (Nat.le_add_left _ _) (Nat.le_add_left _ _)

/-- The handler `cmdRmdir` on the path of 4100 bytes. -/
theorem cmdRmdir_longPath : cmdRmdir env0 s0 [longPath]
    = Result.terminated ⟨"status", Errno.ENAMETOOLONG, some ("/tmp/work/" ++ longPath)⟩ s0 := by
  unfold cmdRmdir
  simp only [longPath_operand, fs_exists_too_long _ _ _ longPath_size]

/-- C8: `rmdir` of a directory that is not empty.  When the directory can be
read, `cmdRmdir` prints "Directory not empty: Y" and leaves the state as it
was, as in `rmdir full`.  When the user may not read it, the exception of
`is_empty` (line 563) leaves the handler and ends the process, nothing is
printed: so for `rmdir locked`, where `locked` (mode 000) holds the file
`in`.  When the operand has `PATH_MAX` bytes or more, as `full` followed by
4096 slashes, it is the exception of `exists` (line 551) that ends the
process. -/
theorem rmdir_unreadable_uncaught :
    (∀ (env : Env) (s : State) (Y : String) (rest : List String) (p : String) (d : Entry),
        operandPath env s Y = Except.ok p →
        stat s.fs env.cwd p = Except.ok d → d.node = Node.dir → d.perm.r = true →
        s.fs.children d.path ≠ [] →
        cmdRmdir env s (Y :: rest) = Result.returned (s.println ("Directory not empty: " ++ Y)))
    ∧ cmdRmdir env0 s0 ["full"] = Result.returned (s0.println "Directory not empty: full")
    ∧ stat fs0 env0.cwd "/tmp/work/locked"
        = Except.ok ⟨["tmp", "work", "locked"], Node.dir, ⟨false, false, false⟩, 80, 81⟩
    ∧ (fs0.children ["tmp", "work", "locked"]).map (fun e => e.path)
        = [["tmp", "work", "locked", "in"]]
    ∧ cmdRmdir env0 s0 ["locked"]
        = Result.terminated
            ⟨"cannot check if file is empty", Errno.EACCES, some "/tmp/work/locked"⟩ s0
    ∧ handleCommand env0 s0 "rmdir locked"
        = Result.terminated
            ⟨"cannot check if file is empty", Errno.EACCES, some "/tmp/work/locked"⟩ s0
    ∧ cmdRmdir env0 s0 [longPath]
        = Result.terminated
            ⟨"status", Errno.ENAMETOOLONG, some ("/tmp/work/" ++ longPath)⟩ s0 := by
  refine ⟨?_, by rfl, by rfl, by rfl, by rfl, by rfl, cmdRmdir_longPath⟩
  intro env s Y rest p d hp hstat hdir hr hne
  have hex : fs_exists s.fs env.cwd p = Except.ok true := by
    unfold fs_exists status statusOf
    rw [hstat]
    rfl
  have hisdir : is_directory s.fs env.cwd p = Except.ok true := by
    unfold is_directory status statusOf
    rw [hstat]
    simp only [hdir]
    rfl
  have hempty : is_empty s.fs env.cwd p = Except.ok false := by
    unfold is_empty
    rw [hstat]
    simp only [hdir, hr]
    cases hc : s.fs.children d.path with
    | nil => exact absurd hc hne
    | cons a l => rfl
  unfold cmdRmdir
  simp only [hp, hex, hisdir, hempty]

/-! ## ls -/

end Posix

end MiniFileExplorer
